import Mathlib

/-!
# Dependency discovery of `upup/pkg/fi/topological_sort.go`

A shallow embedding of `FindTaskDependencies`, `reflectForDependencies` and
`getDependencies`, with the values the reflective walk looks at represented as
finite trees, and of the level assignment that the spec asks of the Graph
Builder. The other packages follow in namespaces of their own: the generated
task methods of `alitasks`, the kube-dns options of `components` and the network
assignments of `gce`.
-/

namespace fi

/-- The kinds of `reflect.Kind`, in the order of the Go declaration. -/
inductive Kind where
  | Invalid | Bool | Int | Int8 | Int16 | Int32 | Int64
  | Uint | Uint8 | Uint16 | Uint32 | Uint64 | Uintptr
  | Float32 | Float64 | Complex64 | Complex128
  | Array | Chan | Func | Interface | Map | Ptr | Slice | String | Struct
  | UnsafePointer
  deriving DecidableEq, Repr

/-- The kinds of values in which the walk of `getDependencies` finds no parts:
the numeric and boolean kinds, and arrays, channels, funcs and raw pointers. -/
inductive Leaf where
  | Bool | Int | Int8 | Int16 | Int32 | Int64
  | Uint | Uint8 | Uint16 | Uint32 | Uint64 | Uintptr
  | Float32 | Float64 | Complex64 | Complex128
  | Array | Chan | Func | UnsafePointer
  deriving DecidableEq, Repr

/-- The `reflect.Kind` of a leaf. -/
def Leaf.Kind : Leaf → Kind
  | .Bool => .Bool | .Int => .Int | .Int8 => .Int8 | .Int16 => .Int16
  | .Int32 => .Int32 | .Int64 => .Int64 | .Uint => .Uint | .Uint8 => .Uint8
  | .Uint16 => .Uint16 | .Uint32 => .Uint32 | .Uint64 => .Uint64
  | .Uintptr => .Uintptr | .Float32 => .Float32 | .Float64 => .Float64
  | .Complex64 => .Complex64 | .Complex128 => .Complex128
  | .Array => .Array | .Chan => .Chan | .Func => .Func
  | .UnsafePointer => .UnsafePointer

/-- A `reflect.Value` as the walk sees it. Pointer graphs are unfolded into
trees. A struct carries the name of its Go type and the address at which it
lives, so that `v.Addr().Interface()` is determined by the value. A struct that
`reflect` hands out without an address, as it does for the value of a map entry
and for the content of an interface, is an `unaddressable`: on it `v.Addr()`
panics. A map lists its entries in iteration order, each key in printed form. -/
inductive Value where
  | leaf (k : Leaf)
  | str (s : String)
  | iface (e : Option Value)
  | ptr (e : Option Value)
  | slice (es : List Value)
  | map (kvs : List (String × Value))
  | struct (typ : String) (addr : Nat) (fields : List (String × Value))
  | unaddressable (typ : String) (fields : List (String × Value))

/-- The result of `v.Kind()`. -/
def Value.Kind : Value → Kind
  | .leaf k => k.Kind
  | .str _ => .String
  | .iface _ => .Interface
  | .ptr _ => .Ptr
  | .slice _ => .Slice
  | .map _ => .Map
  | .struct _ _ _ => .Struct
  | .unaddressable _ _ => .Struct

/-- Whether the value is a struct that `reflect` handed out without an address,
for which `v.CanAddr()` is false. -/
def Value.hasNoAddress : Value → Bool
  | .unaddressable _ _ => true
  | _ => false

/-- The value as `reflect` hands it out where it is found: a struct that is
found where values have no address (`canAddr` is false) comes without its
address. -/
def Value.present (canAddr : Bool) : Value → Value
  | .struct typ addr fields =>
    if canAddr then .struct typ addr fields else .unaddressable typ fields
  | v => v

/-- A pointer to a struct held in an interface value: what a `Task`, a
`HasDependencies` or a `Resource` is at run time. -/
structure Object where
  typ : String
  addr : Nat
  fields : List (String × Value)

/-- The identity under which an interface value is a key of a Go map: its
dynamic type and the pointer. -/
abbrev Ident := String × Nat

/-- The map key of an object. -/
def Object.ident (o : Object) : Ident := (o.typ, o.addr)

/-- The result of `reflect.ValueOf(o).Elem()` for a pointer to a struct. -/
def Object.Elem (o : Object) : Value := .struct o.typ o.addr o.fields

/-- A task set `map[string]Task`, its entries in the order in which `range`
yields them. -/
abbrev TaskSet := List (String × Object)

/-- The interfaces of package `fi` that a pointer type satisfies:
`HasDependencies` (with its method `GetDependencies`), `Task`, `Resource`. -/
structure MethodSet where
  GetDependencies : Option (Object → TaskSet → List Object)
  isTask : Bool
  isResource : Bool

/-- The method sets of the pointer types, by the name of the struct type. -/
abbrev TypeEnv := String → MethodSet

/-- A `reflectutils.FieldPath`: the names from the root down. -/
abbrev FieldPath := List String

/-- The result of `path.IsEmpty()`. -/
def FieldPath.IsEmpty (path : FieldPath) : Bool := path.isEmpty

/-- The result of `path.Extend(name)`. -/
def FieldPath.Extend (path : FieldPath) (name : String) : FieldPath := path ++ [name]

/-- The errors a visitor hands back to the walk, and the panic of `v.Addr()` on
a struct without an address, which ends the walk as an error does and is not
caught on the way up. -/
inductive VisitError where
  | SkipReflection
  | UnhandledType (path : FieldPath) (typ : String)
  | UnhandledKind (path : FieldPath) (kind : Kind)
  | AddrOfUnaddressable (path : FieldPath)
  deriving DecidableEq, Repr

/-- The `reflectutils.ReflectOptions` that `getDependencies` sets. -/
structure ReflectOptions where
  DeprecatedDoubleVisit : Bool

/-- Modelled from the spec: `reflectutils.IsPrimitiveValue`, whose package is
not among the sources. The numbers and booleans of the spec's "primitive
scalars"; strings are left to the `reflect.String` case of the visitor. -/
def IsPrimitiveValue (v : Value) : Bool :=
  match v.Kind with
  | .Bool | .Int | .Int8 | .Int16 | .Int32 | .Int64
  | .Uint | .Uint8 | .Uint16 | .Uint32 | .Uint64 | .Uintptr
  | .Float32 | .Float64 | .Complex64 | .Complex128 => true
  | _ => false

/-- What the walk does with the answer `r` of the visitor: on `SkipReflection`
the value is not descended into, on another error the walk stops with it, and
otherwise the walk descends. -/
def afterVisit {σ : Type} (r : σ × Option VisitError) (descend : σ → σ × Option VisitError) :
    σ × Option VisitError :=
  match r with
  | (s1, some .SkipReflection) => (s1, none)
  | (s1, some err) => (s1, some err)
  | (s1, none) => descend s1

/-- The loops of the walk go on to the next child unless the last one ended in
an error. -/
def andThen {σ : Type} (r : σ × Option VisitError) (next : σ → σ × Option VisitError) :
    σ × Option VisitError :=
  match r with
  | (s2, some err) => (s2, some err)
  | (s2, none) => next s2

mutual
/-- Modelled from the spec: the recursive walk behind
`reflectutils.ReflectRecursive`, whose package is not among the sources, at a
value that is found with an address (`canAddr`) or without. The visitor is
called on the value; unless it answers with an error, the walk continues into
the fields of a struct, the values of a map, the elements of a slice and the
target of a non-nil pointer or interface (which keeps the path). As in package
`reflect`, the fields of a struct have an address when the struct has one, the
elements of a slice (`Index`) and the target of a pointer (`Elem`) have one, and
the values of a map (`MapIndex`) and the content of an interface (`Elem`) have
none. -/
def reflectValue {σ : Type} (visitor : FieldPath → Value → σ → σ × Option VisitError)
    (options : ReflectOptions) (canAddr : Bool) (path : FieldPath) (v : Value) (s : σ) :
    σ × Option VisitError :=
  afterVisit (visitor path (v.present canAddr) s)
    (match v with
      | .struct _ _ fields => reflectChildrenOf visitor options canAddr path fields
      | .unaddressable _ fields => reflectChildrenOf visitor options false path fields
      | .map kvs => reflectChildrenOf visitor options false path kvs
      | .slice es => reflectElems visitor options path 0 es
      | .ptr (some e) => reflectValue visitor options true path e
      | .iface (some e) => reflectValue visitor options false path e
      | _ => fun s1 => (s1, none))
/-- Modelled from the spec: the loop of the walk over the fields of a struct or
the entries of a map, whose values are found with an address (`canAddr`) or
without. With `DeprecatedDoubleVisit` the visitor sees a child once before the
recursive call visits it again. -/
def reflectChildrenOf {σ : Type} (visitor : FieldPath → Value → σ → σ × Option VisitError)
    (options : ReflectOptions) (canAddr : Bool) (path : FieldPath)
    (children : List (String × Value)) (s : σ) : σ × Option VisitError :=
  match children with
  | [] => (s, none)
  | (name, f) :: rest =>
    andThen
      (if options.DeprecatedDoubleVisit then
        afterVisit (visitor (path.Extend name) (f.present canAddr) s)
          (reflectValue visitor options canAddr (path.Extend name) f)
      else reflectValue visitor options canAddr (path.Extend name) f s)
      (reflectChildrenOf visitor options canAddr path rest)
/-- Modelled from the spec: the loop of the walk over the elements of a slice,
from index `i` on; an element of a slice has an address. -/
def reflectElems {σ : Type} (visitor : FieldPath → Value → σ → σ × Option VisitError)
    (options : ReflectOptions) (path : FieldPath) (i : Nat) (es : List Value) (s : σ) :
    σ × Option VisitError :=
  match es with
  | [] => (s, none)
  | av :: rest =>
    andThen
      (if options.DeprecatedDoubleVisit then
        afterVisit (visitor (path.Extend (toString i)) (av.present true) s)
          (reflectValue visitor options true (path.Extend (toString i)) av)
      else reflectValue visitor options true (path.Extend (toString i)) av s)
      (reflectElems visitor options path (i + 1) rest)
end

/-- Modelled from the spec: `reflectutils.ReflectRecursive`, the walk from a
value that has an address, as the `reflect.ValueOf(task).Elem()` has with which
`getDependencies` is called. -/
def reflectRecursive {σ : Type} (visitor : FieldPath → Value → σ → σ × Option VisitError)
    (options : ReflectOptions) (path : FieldPath) (v : Value) (s : σ) :
    σ × Option VisitError :=
  reflectValue visitor options true path v s

/-- Modelled from the spec: the loop of the walk over the fields of a struct
that has an address. -/
def reflectChildren {σ : Type} (visitor : FieldPath → Value → σ → σ × Option VisitError)
    (options : ReflectOptions) (path : FieldPath) (children : List (String × Value)) (s : σ) :
    σ × Option VisitError :=
  reflectChildrenOf visitor options true path children s

/-- The closure `visitor` of `getDependencies`; the captured slice
`dependencies` is the state. -/
def visitor (Γ : TypeEnv) (tasks : TaskSet) (path : FieldPath) (v : Value)
    (dependencies : List Object) : List Object × Option VisitError :=
  if IsPrimitiveValue v then (dependencies, none)
  else
    match v with
    | .str _ => (dependencies, none)
    | .iface _ => (dependencies, none)
    | .ptr _ => (dependencies, none)
    | .slice _ => (dependencies, none)
    | .map _ => (dependencies, none)
    | .struct typ addr fields =>
      if path.IsEmpty then (dependencies, none)
      else
        let intf : Object := ⟨typ, addr, fields⟩
        match (Γ typ).GetDependencies with
        | some hd => (dependencies ++ hd intf tasks, some .SkipReflection)
        | none =>
          if (Γ typ).isTask then (dependencies ++ [intf], some .SkipReflection)
          else if (Γ typ).isResource then (dependencies, some .SkipReflection)
          else (dependencies, some (.UnhandledType path typ))
    | .unaddressable _ _ =>
      if path.IsEmpty then (dependencies, none)
      else (dependencies, some (.AddrOfUnaddressable path))
    | .leaf k => (dependencies, some (.UnhandledKind path k.Kind))

/-- The ways in which `FindTaskDependencies` ends without a result: the two
calls of `klog.Fatalf`, and the panic of `v.Addr()` in the visitor. -/
inductive Fatal where
  | dependencyNotFound (dep : Ident)
  | unexpectedError (err : VisitError)
  | addrPanic (path : FieldPath)
  deriving DecidableEq, Repr

/-- The function `getDependencies`. -/
def getDependencies (Γ : TypeEnv) (tasks : TaskSet) (v : Value) : Except Fatal (List Object) :=
  match reflectRecursive (visitor Γ tasks) ⟨true⟩ [] v [] with
  | (_, some (.AddrOfUnaddressable path)) => .error (.addrPanic path)
  | (_, some err) => .error (.unexpectedError err)
  | (dependencies, none) => .ok dependencies

/-- The function `reflectForDependencies`. -/
def reflectForDependencies (Γ : TypeEnv) (tasks : TaskSet) (task : Object) :
    Except Fatal (List Object) :=
  getDependencies Γ tasks task.Elem

/-- The function `FindDependencies`. -/
def FindDependencies (Γ : TypeEnv) (tasks : TaskSet) (o : Object) :
    Except Fatal (List Object) :=
  match (Γ o.typ).GetDependencies with
  | some hd => .ok (hd o tasks)
  | none => getDependencies Γ tasks o.Elem

/-- The assignment `m[k] = v` on a Go map, kept as a list of entries. -/
def mapSet {κ ν : Type} [DecidableEq κ] (m : List (κ × ν)) (k : κ) (v : ν) : List (κ × ν) :=
  match m with
  | [] => [(k, v)]
  | (k1, v1) :: rest => if k1 = k then (k, v) :: rest else (k1, v1) :: mapSet rest k v

/-- The lookup `v, found := m[k]` on a Go map. -/
def mapGet {κ ν : Type} [DecidableEq κ] (m : List (κ × ν)) (k : κ) : Option ν :=
  match m with
  | [] => none
  | (k1, v1) :: rest => if k1 = k then some v1 else mapGet rest k

/-- The first loop of `FindTaskDependencies`, which fills `taskToId`. -/
def buildTaskToId (tasks : TaskSet) (taskToId : List (Ident × String)) : List (Ident × String) :=
  match tasks with
  | [] => taskToId
  | (k, t) :: rest => buildTaskToId rest (mapSet taskToId t.ident k)

/-- The dependencies of one task, as the second loop of `FindTaskDependencies`
finds them. -/
def resolveDependencies (Γ : TypeEnv) (tasks : TaskSet) (task : Object) :
    Except Fatal (List Object) :=
  match (Γ task.typ).GetDependencies with
  | some hd => .ok (hd task tasks)
  | none => reflectForDependencies Γ tasks task

/-- The loop of `FindTaskDependencies` over `dependencies`. -/
def dependencyKeysLoop (taskToId : List (Ident × String)) (dependencies : List Object)
    (dependencyKeys : List String) : Except Fatal (List String) :=
  match dependencies with
  | [] => .ok dependencyKeys
  | dep :: rest =>
    match mapGet taskToId dep.ident with
    | none => .error (.dependencyNotFound dep.ident)
    | some dependencyKey => dependencyKeysLoop taskToId rest (dependencyKeys ++ [dependencyKey])

/-- The second loop of `FindTaskDependencies`, over the entries of `tasks` that
are still to come. -/
def edgesLoop (Γ : TypeEnv) (tasks : TaskSet) (taskToId : List (Ident × String))
    (todo : TaskSet) (edges : List (String × List String)) :
    Except Fatal (List (String × List String)) :=
  match todo with
  | [] => .ok edges
  | (k, task) :: rest =>
    match resolveDependencies Γ tasks task with
    | .error e => .error e
    | .ok dependencies =>
      match dependencyKeysLoop taskToId dependencies [] with
      | .error e => .error e
      | .ok dependencyKeys => edgesLoop Γ tasks taskToId rest (mapSet edges k dependencyKeys)

/-- The function `FindTaskDependencies`. -/
def FindTaskDependencies (Γ : TypeEnv) (tasks : TaskSet) :
    Except Fatal (List (String × List String)) :=
  edgesLoop Γ tasks (buildTaskToId tasks []) tasks []

/-- The walk of `getDependencies`: its visitor, run by the recursive walk under
the options that `getDependencies` passes. -/
def walk (Γ : TypeEnv) (tasks : TaskSet) (path : FieldPath) (v : Value) (s : List Object) :
    List Object × Option VisitError :=
  reflectRecursive (visitor Γ tasks) ⟨true⟩ path v s

/-- The walk of `getDependencies` at a value that is found with an address
(`canAddr` is true) or without. -/
def walkAt (Γ : TypeEnv) (tasks : TaskSet) (canAddr : Bool) (path : FieldPath) (v : Value)
    (s : List Object) : List Object × Option VisitError :=
  reflectValue (visitor Γ tasks) ⟨true⟩ canAddr path v s

/-- The tasks of a task set that are stored under the key `key`. -/
def tasksAt (tasks : TaskSet) (key : String) : List Object :=
  (tasks.filter (fun kt => kt.1 == key)).map Prod.snd

/-- The objects that the pointer fields of an object point to. -/
def pointees (o : Object) : List Object :=
  o.fields.filterMap (fun f =>
    match f.2 with
    | .ptr (some (.struct typ addr fields)) => some ⟨typ, addr, fields⟩
    | _ => none)

/-- A type environment for the examples. `Network`, `Subnet` and `Instance` are
plain tasks; `LoadBalancer` is a task that declares the task under key `sub` as
its dependency; `StringResource` is a resource; `TaskDependentResource` is a
resource that declares the objects it points to; `Config` is a struct that is
none of these. -/
def exampleEnv : TypeEnv := fun typ =>
  if typ = "Network" ∨ typ = "Subnet" ∨ typ = "Instance" then ⟨none, true, false⟩
  else if typ = "LoadBalancer" then ⟨some (fun _ tasks => tasksAt tasks "sub"), true, false⟩
  else if typ = "StringResource" then ⟨none, false, true⟩
  else if typ = "TaskDependentResource" then ⟨some (fun o _ => pointees o), false, true⟩
  else ⟨none, false, false⟩

/-- The task `net` of the spec's scenario. -/
def net : Object := ⟨"Network", 1, [("Name", .ptr (some (.str "net"))), ("CIDR", .str "10.0.0.0/16")]⟩

/-- The task `sub` of the spec's scenario, whose field `Network` points to `net`. -/
def sub : Object := ⟨"Subnet", 2, [("Name", .ptr (some (.str "sub"))), ("Network", .ptr (some net.Elem))]⟩

/-- The task `vm` of the spec's scenario, whose field `Subnet` points to `sub`. -/
def vm : Object := ⟨"Instance", 3, [("Subnet", .ptr (some sub.Elem)), ("Count", .leaf .Int64)]⟩

/-- The task set of the spec's scenario. -/
def netSubVm : TaskSet := [("net", net), ("sub", sub), ("vm", vm)]

/-- A task with explicit dependencies; it points to `net` and holds a channel,
on which structural inference would fail. -/
def lb : Object := ⟨"LoadBalancer", 4, [("Network", .ptr (some net.Elem)), ("Done", .leaf .Chan)]⟩

/-- A task set with a task that declares its dependencies. -/
def withExplicit : TaskSet := [("lb", lb), ("net", net), ("sub", sub)]

/-- The values that the rules of the visitor of `getDependencies` do not cover
below the top level: a struct whose pointer is neither a `HasDependencies`, a
`Task` nor a `Resource`, and a value whose kind is none of primitive, string,
interface, pointer, slice, map and struct. -/
def unclassifiable (Γ : TypeEnv) : Value → Bool
  | .struct typ _ _ =>
    (Γ typ).GetDependencies.isNone && !(Γ typ).isTask && !(Γ typ).isResource
  | .unaddressable typ _ =>
    (Γ typ).GetDependencies.isNone && !(Γ typ).isTask && !(Γ typ).isResource
  | v =>
    !(IsPrimitiveValue v || v.Kind == .String || v.Kind == .Interface || v.Kind == .Ptr
      || v.Kind == .Slice || v.Kind == .Map)

/-- The values that the walk gets to from a value below the top level: the
value itself, and what it gets to from the target of a non-nil pointer or
interface, from an element of a slice and from a value of a map. A struct below
the top level is not descended into. -/
inductive Reaches : Value → Value → Prop where
  | self (v : Value) : Reaches v v
  | ptr {e w : Value} : Reaches e w → Reaches (.ptr (some e)) w
  | iface {e w : Value} : Reaches e w → Reaches (.iface (some e)) w
  | slice {es : List Value} {e w : Value} : e ∈ es → Reaches e w → Reaches (.slice es) w
  | map {kvs : List (String × Value)} {kv : String × Value} {w : Value} :
      kv ∈ kvs → Reaches kv.2 w → Reaches (.map kvs) w

/-- The values that the visitor is handed on the walk of a value below the top
level, which is found with an address (`canAddr` is true) or without: the value
itself as `reflect` hands it out there, and what the visitor is handed from the
target of a non-nil pointer, which has an address, from the content of a non-nil
interface, which has none, from an element of a slice, which has an address, and
from a value of a map, which has none. A struct below the top level is not
descended into. -/
inductive Meets : Bool → Value → Value → Prop where
  | self (canAddr : Bool) (v : Value) : Meets canAddr v (v.present canAddr)
  | ptr {canAddr : Bool} {e w : Value} : Meets true e w → Meets canAddr (.ptr (some e)) w
  | iface {canAddr : Bool} {e w : Value} : Meets false e w → Meets canAddr (.iface (some e)) w
  | slice {canAddr : Bool} {es : List Value} {e w : Value} :
      e ∈ es → Meets true e w → Meets canAddr (.slice es) w
  | map {canAddr : Bool} {kvs : List (String × Value)} {kv : String × Value} {w : Value} :
      kv ∈ kvs → Meets false kv.2 w → Meets canAddr (.map kvs) w

/-- The values on which the visitor of `getDependencies` fails below the top
level: those its rules do not cover, and the structs without an address. -/
def refused (Γ : TypeEnv) (w : Value) : Bool :=
  unclassifiable Γ w || w.hasNoAddress

/-- The walk of a value that is found with an address or without hands the
visitor a value on which it fails. -/
def MeetsRefused (Γ : TypeEnv) (canAddr : Bool) (v : Value) : Prop :=
  ∃ w, Meets canAddr v w ∧ refused Γ w = true

/-- A plain struct, which is neither a task nor a resource. -/
def config : Value := .struct "Config" 7 [("Zone", .str "a")]

/-- A task that holds a plain struct behind a pointer in a slice. -/
def withConfig : Object := ⟨"Instance", 8, [("Name", .str "x"), ("Configs", .slice [.ptr (some config)])]⟩

/-- A task that holds a func. -/
def withFunc : Object := ⟨"Instance", 9, [("Hook", .leaf .Func)]⟩

/-- A task whose fields are strings and numbers only; its field `Network` holds
the key of the task `net` as a string. -/
def named : Object :=
  ⟨"Instance", 5, [("Name", .str "vm"), ("Network", .str "net"), ("Count", .leaf .Int),
    ("Public", .leaf .Bool)]⟩

/-- A task set in which a string field of one task equals the key of another. -/
def withNamed : TaskSet := [("net", net), ("named", named)]

/-- A resource without dependencies of its own; it points to `net`. -/
def cert : Value := .struct "StringResource" 10 [("Owner", .ptr (some net.Elem))]

/-- A resource that declares the object it points to. -/
def userData : Value := .struct "TaskDependentResource" 11 [("Task", .ptr (some sub.Elem))]

/-- A task that holds the two resources behind interfaces. -/
def withResources : Object :=
  ⟨"Instance", 12, [("Cert", .iface (some (.ptr (some cert)))),
    ("UserData", .iface (some (.ptr (some userData))))]⟩

/-- A load balancer, which is a task and declares its dependencies, as a value
reached by the walk. -/
def lbValue : Value := lb.Elem

/-- A task that points to the load balancer `lb`. -/
def behindLb : Object := ⟨"Instance", 13, [("LoadBalancer", .ptr (some lbValue))]⟩

/-- A task set with the load balancer and a task that points to it. -/
def withBehindLb : TaskSet := [("lb", lb), ("net", net), ("sub", sub), ("behind", behindLb)]

/-- A network that is not in any task set of the examples. -/
def stray : Object := ⟨"Network", 99, []⟩

/-- A task that points to the network `stray`. -/
def orphan : Object := ⟨"Instance", 14, [("Network", .ptr (some stray.Elem))]⟩

/-- A task set in which a task points to a task that is not in the set. -/
def withOrphan : TaskSet := [("net", net), ("orphan", orphan)]

/-- A task that refers to `net` behind an interface, to `sub` in a slice and to
`vm` in a map, and that holds a nil pointer, an empty slice and an empty map. -/
def cluster : Object :=
  ⟨"Instance", 15, [("Network", .iface (some (.ptr (some net.Elem)))),
    ("Subnets", .slice [.ptr (some sub.Elem)]),
    ("Instances", .map [("a", .ptr (some vm.Elem))]),
    ("Peer", .ptr none), ("Zones", .slice []), ("Tags", .map [])]⟩

/-- A task set with the task `cluster`. -/
def withCluster : TaskSet := [("net", net), ("sub", sub), ("vm", vm), ("cluster", cluster)]

/-- Whether the value is a struct. -/
def Value.isStruct : Value → Bool
  | .struct _ _ _ => true
  | .unaddressable _ _ => true
  | _ => false

/-- A task without fields. -/
def bare : Object := ⟨"Network", 20, []⟩

/-- A task none of whose fields gets to a struct: a string, a nil pointer and a
slice of numbers. -/
def flat : Object :=
  ⟨"Network", 21, [("Name", .ptr (some (.str "flat"))), ("Peer", .ptr none),
    ("Ports", .slice [.leaf .Int32, .leaf .Int32])]⟩

/-- A task set with the tasks `bare` and `flat` and the scenario of the spec. -/
def withBare : TaskSet := [("bare", bare), ("flat", flat), ("net", net), ("sub", sub)]

/-- The method `GetDependencies` of `NotADependency`, which returns nil. -/
def NotADependency.GetDependencies (_ : Object) (_ : TaskSet) : List Object := []

/-- A type environment with the marker type `NotADependency` next to the types
of `exampleEnv`. -/
def markerEnv : TypeEnv := fun typ =>
  if typ = "NotADependency" then ⟨some NotADependency.GetDependencies, false, false⟩
  else exampleEnv typ

/-- A marker value; what it points to is not looked at. -/
def marker : Value := .struct "NotADependency" 30 [("Hidden", .ptr (some net.Elem)), ("Done", .leaf .Chan)]

/-- A task that holds a marker next to a pointer to `sub`. -/
def marked : Object := ⟨"Instance", 31, [("NotADependency", marker), ("Subnet", .ptr (some sub.Elem))]⟩

/-- A task whose two fields point to the same task `net`. -/
def twice : Object :=
  ⟨"Instance", 16, [("Primary", .ptr (some net.Elem)), ("Secondary", .ptr (some net.Elem))]⟩

/-- A task set in which a task refers to another task twice. -/
def withTwice : TaskSet := [("net", net), ("twice", twice)]

/-- A task that points to `sub` and to the load balancer `lb`, which declares
`sub`: two references that resolve to the same task. -/
def both : Object :=
  ⟨"Instance", 19, [("Subnet", .ptr (some sub.Elem)), ("LoadBalancer", .ptr (some lbValue))]⟩

/-- A task set with the task `both`. -/
def withBoth : TaskSet := [("lb", lb), ("net", net), ("sub", sub), ("both", both)]

/-- A task that holds a network by value in a map, as a field
`ByName map[string]Network` does. -/
def byName : Object := ⟨"Instance", 17, [("ByName", .map [("a", net.Elem)])]⟩

/-- A task that holds a network by value in an interface. -/
def byValue : Object := ⟨"Instance", 18, [("Any", .iface (some net.Elem))]⟩

/-- A task set in which the task that holds a func comes before the task that
points to a network outside the set. -/
def funcThenOrphan : TaskSet := [("a", withFunc), ("orphan", orphan)]

/-- The relation of a dependency edge: in the edge map, `task` lists
`dependsOn` among its dependencies. -/
def DependsOn (edges : List (String × List String)) (task dependsOn : String) : Prop :=
  ∃ ds, (task, ds) ∈ edges ∧ dependsOn ∈ ds

/-- A dependency graph is acyclic when no task is reached from itself along one
or more edges. -/
def Acyclic (edges : List (String × List String)) : Prop :=
  ∀ k, ¬ Relation.TransGen (DependsOn edges) k k

/-- The errors with which the Graph Builder of the spec ends: a dependency that
is not a key of the task set, and a cycle, reported here by the tasks that the
removal leaves unprocessed. -/
inductive BuildError where
  | danglingDependency (task dependsOn : String)
  | cycle (unprocessed : List String)
  deriving DecidableEq, Repr

/-- Whether the task has been given a level. -/
def hasLevel (levels : List (String × Nat)) (key : String) : Bool :=
  (mapGet levels key).isSome

/-- Whether all dependencies of the task have been given a level. -/
def isReady (levels : List (String × Nat)) (e : String × List String) : Bool :=
  e.2.all (hasLevel levels)

/-- Modelled from the spec: the removal rounds of the Graph Builder, which is
not among the sources. Round `level` removes the tasks all of whose
dependencies were removed in earlier rounds and gives them the level `level`,
which is the smallest level above the levels of their dependencies; when no
task can be removed and some are left, a cycle lies among those left. The
search for the path of the cycle is not modelled. -/
def levelsLoop (fuel level : Nat) (levels : List (String × Nat))
    (remaining : List (String × List String)) : Except BuildError (List (String × Nat)) :=
  match fuel, remaining with
  | _, [] => .ok levels
  | 0, _ :: _ => .error (.cycle (remaining.map Prod.fst))
  | fuel + 1, _ :: _ =>
    if (remaining.filter (isReady levels)).isEmpty then
      .error (.cycle (remaining.map Prod.fst))
    else
      levelsLoop fuel (level + 1)
        (levels ++ (remaining.filter (isReady levels)).map (fun e => (e.1, level)))
        (remaining.filter (fun e => !isReady levels e))

/-- Modelled from the spec: the check of the Graph Builder that every
dependency is a key of the task set; the first task and dependency for which it
fails. -/
def findDangling (edges : List (String × List String)) : Option (String × String) :=
  edges.findSome? (fun e =>
    (e.2.find? (fun d => !(edges.map Prod.fst).contains d)).map (fun d => (e.1, d)))

/-- Modelled from the spec: the Graph Builder, which is not among the sources,
on the edge map that `FindTaskDependencies` returns: the level of every task. -/
def buildLevels (edges : List (String × List String)) :
    Except BuildError (List (String × Nat)) :=
  match findDangling edges with
  | some (task, dependsOn) => .error (.danglingDependency task dependsOn)
  | none => levelsLoop edges.length 0 [] edges

/-- The diamond of the spec: `D` depends on `B` and `C`, which depend on `A`. -/
def diamond : List (String × List String) :=
  [("D", ["B", "C"]), ("B", ["A"]), ("C", ["A"]), ("A", [])]

/-- The rank of the tasks of the diamond, which falls along every edge. -/
def diamondRank (k : String) : Nat :=
  if k = "D" then 2 else if k = "B" ∨ k = "C" then 1 else 0

/-- What the removal rounds keep true: the tasks left are tasks of the graph,
every task of the graph is left or has a level, the tasks left have no level,
every level is below the number of the round, and the level of a task is above
the levels of its dependencies, which all have one. -/
structure RoundInvariant (edges : List (String × List String)) (level : Nat)
    (levels : List (String × Nat)) (remaining : List (String × List String)) : Prop where
  sub : ∀ e ∈ remaining, e ∈ edges
  all : ∀ e ∈ edges, e ∈ remaining ∨ hasLevel levels e.1 = true
  fresh : ∀ e ∈ remaining, mapGet levels e.1 = none
  below : ∀ k l, mapGet levels k = some l → l < level
  above : ∀ e ∈ edges, ∀ l, mapGet levels e.1 = some l →
    ∀ d ∈ e.2, ∃ l2, mapGet levels d = some l2 ∧ l2 < l

end fi

/-! # Definitions for the other packages -/

namespace alitasks

/-- The struct `RAMRole`, whose declaration is not among the sources: the two
fields that the generated methods use, of the types the methods give them, and
all its other fields as `other`. `L` is `fi.Lifecycle`. -/
structure RAMRole (L ρ : Type) where
  Lifecycle : L
  Name : Option String
  other : ρ

/-- The method `(*RAMRole).GetLifecycle`. -/
def RAMRole.GetLifecycle {L ρ : Type} (o : RAMRole L ρ) : L := o.Lifecycle

/-- The method `(*RAMRole).SetLifecycle`; the result is the object after the call. -/
def RAMRole.SetLifecycle {L ρ : Type} (o : RAMRole L ρ) (lifecycle : L) : RAMRole L ρ :=
  { o with Lifecycle := lifecycle }

/-- The method `(*RAMRole).GetName`. -/
def RAMRole.GetName {L ρ : Type} (o : RAMRole L ρ) : Option String := o.Name

/-- The struct `ScalingGroup`, whose declaration is not among the sources, in
the same way. -/
structure ScalingGroup (L ρ : Type) where
  Lifecycle : L
  Name : Option String
  other : ρ

/-- The method `(*ScalingGroup).GetLifecycle`. -/
def ScalingGroup.GetLifecycle {L ρ : Type} (o : ScalingGroup L ρ) : L := o.Lifecycle

/-- The method `(*ScalingGroup).SetLifecycle`; the result is the object after the call. -/
def ScalingGroup.SetLifecycle {L ρ : Type} (o : ScalingGroup L ρ) (lifecycle : L) :
    ScalingGroup L ρ :=
  { o with Lifecycle := lifecycle }

/-- The method `(*ScalingGroup).GetName`. -/
def ScalingGroup.GetName {L ρ : Type} (o : ScalingGroup L ρ) : Option String := o.Name

end alitasks

namespace components

/-- The struct `kops.NodeLocalDNSConfig`, whose declaration is not among the
sources: the fields that `BuildOptions` uses, and all others as `other`. `Q` is
`resource.Quantity`. -/
structure NodeLocalDNSConfig (Q ρ : Type) where
  Enabled : Option Bool
  LocalIP : String
  ForwardToKubeDNS : Option Bool
  MemoryRequest : Option Q
  CPURequest : Option Q
  Image : Option String
  other : ρ

/-- The struct `kops.KubeDNSConfig`, in the same way. -/
structure KubeDNSConfig (Q ρ : Type) where
  Replicas : Int
  CacheMaxSize : Int
  CacheMaxConcurrent : Int
  ServerIP : String
  Domain : String
  MemoryRequest : Option Q
  CPURequest : Option Q
  MemoryLimit : Option Q
  UpstreamNameservers : List String
  NodeLocalDNS : Option (NodeLocalDNSConfig Q ρ)
  other : ρ

/-- The struct `kops.ClusterSpec`, in the same way. -/
structure ClusterSpec (Q ρ : Type) where
  KubeDNS : Option (KubeDNSConfig Q ρ)
  ClusterDNSDomain : String
  CloudProvider : String
  other : ρ

/-- What `BuildOptions` uses and the sources do not hold: `WellKnownServiceIP`
(with the address in the form that `ip.String()` gives), the method
`IsIPv6Only`, the constant `kops.CloudProviderAWS`, `resource.MustParse` and
`IsZero` of a quantity, `fi.Bool`, `fi.BoolValue` and `fi.String`, and the zero
value of the fields that are kept as `other`. -/
structure Helpers (Q ρ : Type) where
  WellKnownServiceIP : ClusterSpec Q ρ → Int → Except String String
  IsIPv6Only : ClusterSpec Q ρ → Bool
  CloudProviderAWS : String
  MustParse : String → Q
  IsZero : Q → Bool
  fiBool : Bool → Option Bool
  fiBoolValue : Option Bool → Bool
  fiString : String → Option String
  zero : ρ

/-- The value `&kops.KubeDNSConfig{}`. -/
def emptyKubeDNSConfig {Q ρ : Type} (H : Helpers Q ρ) : KubeDNSConfig Q ρ :=
  ⟨0, 0, 0, "", "", none, none, none, [], none, H.zero⟩

/-- The value `&kops.NodeLocalDNSConfig{}`. -/
def emptyNodeLocalDNSConfig {Q ρ : Type} (H : Helpers Q ρ) : NodeLocalDNSConfig Q ρ :=
  ⟨none, "", none, none, none, none, H.zero⟩

/-- The test `q == nil || q.IsZero()` on a pointer to a quantity. -/
def nilOrZero {Q ρ : Type} (H : Helpers Q ρ) (q : Option Q) : Bool :=
  match q with
  | none => true
  | some v => H.IsZero v

/-- The part of `BuildOptions` from `nodeLocalDNS := clusterSpec.KubeDNS.NodeLocalDNS`
on: the value of `KubeDNS.NodeLocalDNS` at the end. Each field is assigned at
most once, under a test that reads that field and, for `LocalIP` and
`ForwardToKubeDNS`, the field `Enabled` as assigned before. -/
def buildNodeLocalDNS {Q ρ : Type} (H : Helpers Q ρ) (entry : Option (NodeLocalDNSConfig Q ρ)) :
    NodeLocalDNSConfig Q ρ :=
  let n := match entry with
    | none => emptyNodeLocalDNSConfig H
    | some n => n
  let enabled := if n.Enabled = none then H.fiBool false else n.Enabled
  { n with
    Enabled := enabled
    LocalIP :=
      if H.fiBoolValue enabled && n.LocalIP = "" then "169.254.20.10" else n.LocalIP
    ForwardToKubeDNS :=
      if H.fiBoolValue enabled && n.ForwardToKubeDNS = none then H.fiBool false
      else n.ForwardToKubeDNS
    MemoryRequest :=
      if nilOrZero H n.MemoryRequest then some (H.MustParse "5Mi") else n.MemoryRequest
    CPURequest :=
      if nilOrZero H n.CPURequest then some (H.MustParse "25m") else n.CPURequest
    Image :=
      if n.Image = none then H.fiString "k8s.gcr.io/dns/k8s-dns-node-cache:1.20.0"
      else n.Image }

/-- The value of `clusterSpec.KubeDNS` after the four assignments that follow
the one of the server address: the domain, the memory request, the CPU request
and the memory limit. -/
def withRequests {Q ρ : Type} (H : Helpers Q ρ) (clusterSpec : ClusterSpec Q ρ)
    (k : KubeDNSConfig Q ρ) : KubeDNSConfig Q ρ :=
  { k with
    Domain := if k.Domain = "" then clusterSpec.ClusterDNSDomain else k.Domain
    MemoryRequest :=
      if nilOrZero H k.MemoryRequest then some (H.MustParse "70Mi") else k.MemoryRequest
    CPURequest :=
      if nilOrZero H k.CPURequest then some (H.MustParse "100m") else k.CPURequest
    MemoryLimit :=
      if nilOrZero H k.MemoryLimit then some (H.MustParse "170Mi") else k.MemoryLimit }

/-- The part of `BuildOptions` after the assignment of the server address, on
the value of `clusterSpec.KubeDNS`. -/
def buildAfterServerIP {Q ρ : Type} (H : Helpers Q ρ) (clusterSpec : ClusterSpec Q ρ)
    (k : KubeDNSConfig Q ρ) : KubeDNSConfig Q ρ :=
  let k4 := withRequests H clusterSpec k
  { k4 with
    UpstreamNameservers :=
      if H.IsIPv6Only { clusterSpec with KubeDNS := some k4 }
          && clusterSpec.CloudProvider = H.CloudProviderAWS then
        if k4.UpstreamNameservers.length = 0 then ["fd00:ec2::253"]
        else k4.UpstreamNameservers
      else k4.UpstreamNameservers
    NodeLocalDNS := some (buildNodeLocalDNS H k4.NodeLocalDNS) }

/-- The value of `clusterSpec.KubeDNS` after the first three assignments of
`BuildOptions`: the number of replicas and the two cache sizes. -/
def withReplicas {Q ρ : Type} (k : KubeDNSConfig Q ρ) : KubeDNSConfig Q ρ :=
  { k with
    Replicas := 2
    CacheMaxSize := if k.CacheMaxSize = 0 then 1000 else k.CacheMaxSize
    CacheMaxConcurrent := if k.CacheMaxConcurrent = 0 then 150 else k.CacheMaxConcurrent }

/-- The method `(*KubeDnsOptionsBuilder).BuildOptions` on a cluster spec: the
spec after the call and the error it returns. -/
def BuildOptions {Q ρ : Type} (H : Helpers Q ρ) (clusterSpec : ClusterSpec Q ρ) :
    ClusterSpec Q ρ × Option String :=
  let k0 := match clusterSpec.KubeDNS with
    | none => emptyKubeDNSConfig H
    | some k => k
  let k3 := withReplicas k0
  if k3.ServerIP = "" then
    match H.WellKnownServiceIP { clusterSpec with KubeDNS := some k3 } 10 with
    | .error err => ({ clusterSpec with KubeDNS := some k3 }, some err)
    | .ok ip =>
      ({ clusterSpec with
          KubeDNS := some (buildAfterServerIP H clusterSpec { k3 with ServerIP := ip }) }, none)
  else
    ({ clusterSpec with KubeDNS := some (buildAfterServerIP H clusterSpec k3) }, none)

/-- The helpers do not look at the field `KubeDNS` of the cluster spec. -/
def Helpers.IgnoreKubeDNS {Q ρ : Type} (H : Helpers Q ρ) : Prop :=
  ∀ (s : ClusterSpec Q ρ) (k : Option (KubeDNSConfig Q ρ)),
    (∀ n, H.WellKnownServiceIP { s with KubeDNS := k } n = H.WellKnownServiceIP s n) ∧
      H.IsIPv6Only { s with KubeDNS := k } = H.IsIPv6Only s

/-- The value of `clusterSpec.KubeDNS` on entry, with the zero value for nil. -/
def entryKubeDNS {Q ρ : Type} (H : Helpers Q ρ) (clusterSpec : ClusterSpec Q ρ) :
    KubeDNSConfig Q ρ :=
  match clusterSpec.KubeDNS with
  | none => emptyKubeDNSConfig H
  | some k => k

/-- Helpers for the examples: quantities are kept as their text, a quantity is
zero when its text is `0`, the well-known address number `n` lies in
`100.64.0.0`, and no cluster is IPv6 only. -/
def exampleHelpers : Helpers String Unit where
  WellKnownServiceIP := fun _ n => .ok ("100.64.0." ++ toString n)
  IsIPv6Only := fun _ => false
  CloudProviderAWS := "aws"
  MustParse := fun s => s
  IsZero := fun q => q == "0"
  fiBool := fun b => some b
  fiBoolValue := fun p => p.getD false
  fiString := fun s => some s
  zero := ()

/-- A cluster spec without a `KubeDNS` section. -/
def plainSpec : ClusterSpec String Unit := ⟨none, "cluster.local", "aws", ()⟩

/-- A cluster spec that sets the number of replicas, the cache size and the
domain of `KubeDNS`. -/
def tunedSpec : ClusterSpec String Unit :=
  ⟨some ⟨5, 2000, 0, "", "example.local", none, none, none, [], none, ()⟩, "cluster.local",
    "gce", ()⟩

end components

namespace gce

/-- The struct `kops.NetworkingSpec`, whose declaration is not among the
sources: the field `GCE`, which is a pointer that the code only tests for nil,
and all other fields as `other`. -/
structure NetworkingSpec (ρ : Type) where
  GCE : Option Unit
  other : ρ

/-- The struct `kops.ClusterSubnetSpec`, in the same way. -/
structure ClusterSubnetSpec (ρ : Type) where
  CIDR : String
  other : ρ

/-- The struct `kops.ClusterSpec`, in the same way. -/
structure ClusterSpec (ρ : Type) where
  Networking : Option (NetworkingSpec ρ)
  Subnets : List (ClusterSubnetSpec ρ)
  PodCIDR : String
  ServiceClusterIPRange : String
  NetworkID : String
  other : ρ

/-- The struct `kops.Cluster`, in the same way. -/
structure Cluster (ρ : Type) where
  Spec : ClusterSpec ρ
  other : ρ

/-- A `compute.Region`, as far as the code reads it. -/
structure Region where
  Name : String

/-- A `compute.Network`, as far as the code reads it. -/
structure Network where
  Subnetworks : List String

/-- A `compute.Subnetwork`, as far as the code reads it; the secondary ranges
are given by their `IpCidrRange`. -/
structure Subnetwork where
  SelfLink : String
  IpCidrRange : String
  SecondaryIpRanges : List String

/-- The calls that `performNetworkAssignmentsIPAliases` makes to the cloud. -/
inductive Query where
  | RegionsList (project : String)
  | NetworksGet (project : String) (networkName : String)
  | SubnetworksList (project : String) (region : String)
  deriving DecidableEq, Repr

/-- What the code uses and the sources do not hold: the cloud, taken to be a
`GCECloud` as the type assertion of the code asks, with its project and the
three calls, and `subnet.CIDRMap` with its zero value, `MarkInUse` and
`Allocate`, which gives the allocated range in the form of `String()` and the
map after the call. -/
structure GCECloud (M : Type) where
  Project : String
  RegionsList : String → Except String (List Region)
  NetworksGet : String → String → Except String Network
  SubnetworksList : String → String → Except String (List Subnetwork)
  emptyMap : M
  MarkInUse : M → String → Except String M
  Allocate : M → String → Nat → Nat → Except String (String × M)

/-- What a call leaves: the error it returns, the cluster after the call, and
the calls made to the cloud, in order. -/
structure Outcome (ρ : Type) where
  err : Option String
  cluster : Cluster ρ
  queries : List Query

/-- The function `UsesIPAliases`. -/
def UsesIPAliases {ρ : Type} (c : Cluster ρ) : Bool :=
  match c.Spec.Networking with
  | some networking => networking.GCE.isSome
  | none => false

/-- The loop over `regions` that collects `subnets`. -/
def listSubnetworks {M : Type} (cloud : GCECloud M) (regions : List Region)
    (subnets : List Subnetwork) (queries : List Query) :
    Except String (List Subnetwork) × List Query :=
  match regions with
  | [] => (.ok subnets, queries)
  | r :: rest =>
    match cloud.SubnetworksList cloud.Project r.Name with
    | .error err =>
      (.error ("error listing Subnetworks: " ++ err),
        queries ++ [.SubnetworksList cloud.Project r.Name])
    | .ok l =>
      listSubnetworks cloud rest (subnets ++ l)
        (queries ++ [.SubnetworksList cloud.Project r.Name])

/-- The inner loop over the secondary ranges of a subnetwork. -/
def markSecondary {M : Type} (cloud : GCECloud M) (ranges : List String) (used : M) :
    Except String M :=
  match ranges with
  | [] => .ok used
  | s :: rest =>
    match cloud.MarkInUse used s with
    | .error err => .error err
    | .ok used1 => markSecondary cloud rest used1

/-- The loop over `subnets` that marks the ranges in use. -/
def markSubnets {M : Type} (cloud : GCECloud M) (subnetURLs : List String)
    (subnets : List Subnetwork) (used : M) : Except String M :=
  match subnets with
  | [] => .ok used
  | subnet :: rest =>
    if subnetURLs.contains subnet.SelfLink then
      match cloud.MarkInUse used subnet.IpCidrRange with
      | .error err => .error err
      | .ok used1 =>
        match markSecondary cloud subnet.SecondaryIpRanges used1 with
        | .error err => .error err
        | .ok used2 => markSubnets cloud subnetURLs rest used2
    else markSubnets cloud subnetURLs rest used

/-- The three allocations at the end of `performNetworkAssignmentsIPAliases`:
the ranges for pods, services and nodes, in this order. -/
def allocateRanges {M : Type} (cloud : GCECloud M) (used : M) :
    Except String (String × String × String) :=
  let networkCIDR := "10.0.0.0/8"
  match cloud.Allocate used networkCIDR 14 32 with
  | .error err => .error err
  | .ok (podCIDR, used1) =>
    match cloud.Allocate used1 networkCIDR 20 32 with
    | .error err => .error err
    | .ok (serviceCIDR, used2) =>
      match cloud.Allocate used2 networkCIDR 20 32 with
      | .error err => .error err
      | .ok (nodeCIDR, _) => .ok (podCIDR, serviceCIDR, nodeCIDR)

/-- The lower-case hexadecimal digit of a number below sixteen. -/
def hexDigit (n : Nat) : Char :=
  if n < 10 then Char.ofNat (48 + n) else Char.ofNat (87 + n)

/-- What `strconv.Quote`, which is behind the verb `%q`, writes for one
character: a backslash before a double quote and before a backslash, the
escapes of C for the bell, backspace, form feed, newline, carriage return, tab
and vertical tab, `\x` and two hexadecimal digits for the other control
characters of ASCII, and the character itself otherwise. The characters beyond
ASCII are taken to be printable. -/
def quoteChar (ch : Char) : String :=
  let backslash := String.singleton (Char.ofNat 92)
  let n := ch.toNat
  if n = 34 ∨ n = 92 then backslash ++ String.singleton ch
  else if n = 7 then backslash ++ "a"
  else if n = 8 then backslash ++ "b"
  else if n = 12 then backslash ++ "f"
  else if n = 10 then backslash ++ "n"
  else if n = 13 then backslash ++ "r"
  else if n = 9 then backslash ++ "t"
  else if n = 11 then backslash ++ "v"
  else if n < 32 ∨ n = 127 then
    backslash ++ "x" ++ String.singleton (hexDigit (n / 16))
      ++ String.singleton (hexDigit (n % 16))
  else String.singleton ch

/-- The text that `fmt` writes for a string under the verb `%q`: the string in
double quotes, its characters escaped as in `strconv.Quote`. -/
def quoted (s : String) : String :=
  String.singleton (Char.ofNat 34) ++ String.join (s.data.map quoteChar)
    ++ String.singleton (Char.ofNat 34)

/-- The part of `performNetworkAssignmentsIPAliases` that talks to the cloud,
for the one subnet `nodeSubnet` of the cluster. -/
def assignFromCloud {ρ M : Type} (c : Cluster ρ) (nodeSubnet : ClusterSubnetSpec ρ)
    (cloud : GCECloud M) : Outcome ρ :=
  let networkName := if c.Spec.NetworkID = "" then "default" else c.Spec.NetworkID
  let q1 := Query.RegionsList cloud.Project
  match cloud.RegionsList cloud.Project with
  | .error err => ⟨some ("error listing Regions: " ++ err), c, [q1]⟩
  | .ok regions =>
    let q2 := Query.NetworksGet cloud.Project networkName
    match cloud.NetworksGet cloud.Project networkName with
    | .error err =>
      ⟨some ("error fetching network name " ++ quoted networkName ++ ": " ++ err), c,
        [q1, q2]⟩
    | .ok network =>
      match listSubnetworks cloud regions [] [q1, q2] with
      | (.error err, queries) => ⟨some err, c, queries⟩
      | (.ok subnets, queries) =>
        match markSubnets cloud network.Subnetworks subnets cloud.emptyMap with
        | .error err => ⟨some err, c, queries⟩
        | .ok used =>
          match allocateRanges cloud used with
          | .error err => ⟨some err, c, queries⟩
          | .ok (podCIDR, serviceCIDR, nodeCIDR) =>
            ⟨none,
              { c with Spec := { c.Spec with
                  Subnets := [{ nodeSubnet with CIDR := nodeCIDR }],
                  PodCIDR := podCIDR,
                  ServiceClusterIPRange := serviceCIDR } },
              queries⟩

/-- The function `performNetworkAssignmentsIPAliases`. -/
def performNetworkAssignmentsIPAliases {ρ M : Type} (c : Cluster ρ) (cloudObj : GCECloud M) :
    Outcome ρ :=
  match c.Spec.Subnets with
  | [nodeSubnet] =>
    if c.Spec.PodCIDR ≠ "" ∧ c.Spec.ServiceClusterIPRange ≠ "" ∧ nodeSubnet.CIDR ≠ "" then
      ⟨none, c, []⟩
    else assignFromCloud c nodeSubnet cloudObj
  | _ => ⟨some "expected exactly one subnet with GCE IP Aliases", c, []⟩

/-- The function `PerformNetworkAssignments`. -/
def PerformNetworkAssignments {ρ M : Type} (c : Cluster ρ) (cloudObj : GCECloud M) :
    Outcome ρ :=
  if UsesIPAliases c then performNetworkAssignmentsIPAliases c cloudObj
  else ⟨none, c, []⟩

/-- A cloud for the examples, with one region and no subnetwork, whose map of
ranges in use is the list of the ranges and whose allocations give fixed
ranges. -/
def exampleCloud : GCECloud (List String) where
  Project := "project"
  RegionsList := fun _ => .ok [⟨"us-east1"⟩]
  NetworksGet := fun _ _ => .ok ⟨[]⟩
  SubnetworksList := fun _ _ => .ok []
  emptyMap := []
  MarkInUse := fun used cidr => .ok (cidr :: used)
  Allocate := fun used _ ones _ =>
    .ok ("10." ++ toString (used.length + ones) ++ ".0.0/" ++ toString ones,
      ("10." ++ toString (used.length + ones) ++ ".0.0/" ++ toString ones) :: used)

/-- A cluster that uses IP aliases and has all three ranges. -/
def assigned : Cluster Unit :=
  ⟨⟨some ⟨some (), ()⟩, [⟨"10.16.0.0/20", ()⟩], "10.4.0.0/14", "10.8.0.0/20", "", ()⟩, ()⟩

/-- A cluster that uses IP aliases and has two subnets. -/
def twoSubnets : Cluster Unit :=
  ⟨⟨some ⟨some (), ()⟩, [⟨"", ()⟩, ⟨"", ()⟩], "", "", "", ()⟩, ()⟩

/-- A cluster that does not use IP aliases. -/
def noAliases : Cluster Unit :=
  ⟨⟨some ⟨none, ()⟩, [], "", "", "", ()⟩, ()⟩

/-- A cluster that uses IP aliases and has one subnet without ranges. -/
def unassigned : Cluster Unit :=
  ⟨⟨some ⟨some (), ()⟩, [⟨"", ()⟩], "", "", "", ()⟩, ()⟩

end gce

namespace fi

/-! # Theorems -/

/-! ## Go maps as entry lists -/

section maps
variable {κ ν : Type} [DecidableEq κ]

theorem mapGet_mapSet_self (m : List (κ × ν)) (k : κ) (v : ν) :
    mapGet (mapSet m k v) k = some v := by
  induction m with
  | nil => simp [mapSet, mapGet]
  | cons hd tl ih =>
    obtain ⟨k1, v1⟩ := hd
    by_cases h : k1 = k
    · simp [mapSet, mapGet, h]
    · simp [mapSet, mapGet, h, ih]

theorem mapGet_mapSet_ne (m : List (κ × ν)) {k k2 : κ} (v : ν) (hne : k2 ≠ k) :
    mapGet (mapSet m k v) k2 = mapGet m k2 := by
  have h2 : ¬ k = k2 := fun e => hne e.symm
  induction m with
  | nil => simp [mapSet, mapGet, h2]
  | cons hd tl ih =>
    obtain ⟨k1, v1⟩ := hd
    by_cases h : k1 = k
    · subst h
      simp [mapSet, mapGet, h2]
    · by_cases h4 : k1 = k2
      · subst h4
        simp [mapSet, mapGet, h]
      · simp [mapSet, mapGet, h, h4, ih]

theorem mem_mapSet {m : List (κ × ν)} {k : κ} {v : ν} {e : κ × ν}
    (he : e ∈ mapSet m k v) : e = (k, v) ∨ e ∈ m := by
  induction m with
  | nil => simpa [mapSet] using he
  | cons hd tl ih =>
    obtain ⟨k1, v1⟩ := hd
    by_cases h : k1 = k
    · simp only [mapSet, h, if_true, List.mem_cons] at he
      rcases he with he | he
      · exact Or.inl he
      · exact Or.inr (List.mem_cons_of_mem _ he)
    · simp only [mapSet, h, if_false, List.mem_cons] at he
      rcases he with he | he
      · exact Or.inr (by simp [he])
      · rcases ih he with h1 | h1
        · exact Or.inl h1
        · exact Or.inr (List.mem_cons_of_mem _ h1)

theorem mem_keys_mapSet (m : List (κ × ν)) (k : κ) (v : ν) (k2 : κ) :
    k2 ∈ (mapSet m k v).map Prod.fst ↔ k2 = k ∨ k2 ∈ m.map Prod.fst := by
  induction m with
  | nil => simp [mapSet]
  | cons hd tl ih =>
    obtain ⟨k1, v1⟩ := hd
    by_cases h : k1 = k
    · simp only [mapSet, h, if_true, List.map_cons, List.mem_cons]
      tauto
    · simp only [mapSet, h, if_false, List.map_cons, List.mem_cons, ih]
      tauto

theorem mem_of_mapGet {m : List (κ × ν)} {k : κ} {v : ν} (h : mapGet m k = some v) :
    (k, v) ∈ m := by
  induction m with
  | nil => simp [mapGet] at h
  | cons hd tl ih =>
    obtain ⟨k1, v1⟩ := hd
    by_cases h1 : k1 = k
    · simp [mapGet, h1] at h
      simp [h1, h]
    · simp [mapGet, h1] at h
      exact List.mem_cons_of_mem _ (ih h)

theorem mapGet_eq_none_iff (m : List (κ × ν)) (k : κ) :
    mapGet m k = none ↔ k ∉ m.map Prod.fst := by
  induction m with
  | nil => simp [mapGet]
  | cons hd tl ih =>
    obtain ⟨k1, v1⟩ := hd
    by_cases h1 : k1 = k
    · simp [mapGet, h1]
    · have h2 : ¬ k = k1 := fun e => h1 e.symm
      simp [mapGet, h1, h2, ih]

end maps

/-! ## The loops of `FindTaskDependencies` -/

theorem forall₂_mem_right {α β : Type} {R : α → β → Prop} {as : List α} {bs : List β}
    (h : List.Forall₂ R as bs) {b : β} (hb : b ∈ bs) : ∃ a ∈ as, R a b := by
  induction h with
  | nil => simp at hb
  | cons hab _ ih =>
    rcases List.mem_cons.mp hb with h1 | h1
    · subst h1
      exact ⟨_, by simp, hab⟩
    · obtain ⟨a, ha, hr⟩ := ih h1
      exact ⟨a, List.mem_cons_of_mem _ ha, hr⟩

theorem buildTaskToId_get {tasks : TaskSet} {acc : List (Ident × String)} {i : Ident}
    {key : String} (h : mapGet (buildTaskToId tasks acc) i = some key) :
    mapGet acc i = some key ∨ ∃ t, (key, t) ∈ tasks ∧ t.ident = i := by
  induction tasks generalizing acc with
  | nil => exact Or.inl h
  | cons hd tl ih =>
    obtain ⟨k, t⟩ := hd
    rcases @ih (mapSet acc t.ident k) h with h1 | ⟨t2, h2, h3⟩
    · by_cases hi : i = t.ident
      · subst hi
        rw [mapGet_mapSet_self] at h1
        refine Or.inr ⟨t, ?_, rfl⟩
        simp at h1
        simp [h1]
      · rw [mapGet_mapSet_ne _ _ hi] at h1
        exact Or.inl h1
    · exact Or.inr ⟨t2, List.mem_cons_of_mem _ h2, h3⟩

theorem buildTaskToId_none_iff (tasks : TaskSet) (acc : List (Ident × String)) (i : Ident) :
    mapGet (buildTaskToId tasks acc) i = none ↔
      mapGet acc i = none ∧ ∀ kt ∈ tasks, kt.2.ident ≠ i := by
  induction tasks generalizing acc with
  | nil => simp [buildTaskToId]
  | cons hd tl ih =>
    obtain ⟨k, t⟩ := hd
    simp only [buildTaskToId, ih, List.mem_cons, forall_eq_or_imp]
    by_cases hi : i = t.ident
    · subst hi
      simp [mapGet_mapSet_self]
    · have hi2 : t.ident ≠ i := fun e => hi e.symm
      rw [mapGet_mapSet_ne _ _ hi]
      simp [hi2]

theorem dependencyKeysLoop_ok {m : List (Ident × String)} {deps : List Object}
    {acc ks : List String} (h : dependencyKeysLoop m deps acc = .ok ks) :
    ∃ l, ks = acc ++ l ∧ List.Forall₂ (fun d key => mapGet m d.ident = some key) deps l := by
  induction deps generalizing acc with
  | nil =>
    simp only [dependencyKeysLoop, Except.ok.injEq] at h
    exact ⟨[], by simp [h], List.Forall₂.nil⟩
  | cons d rest ih =>
    simp only [dependencyKeysLoop] at h
    cases hg : mapGet m d.ident with
    | none => simp [hg] at h
    | some key =>
      simp only [hg] at h
      obtain ⟨l, hl, hf⟩ := ih h
      exact ⟨key :: l, by simp [hl], List.Forall₂.cons hg hf⟩

theorem dependencyKeysLoop_error {m : List (Ident × String)} {deps : List Object}
    {acc : List String} {e : Fatal} (h : dependencyKeysLoop m deps acc = .error e) :
    ∃ d ∈ deps, mapGet m d.ident = none ∧ e = .dependencyNotFound d.ident := by
  induction deps generalizing acc with
  | nil => simp [dependencyKeysLoop] at h
  | cons d rest ih =>
    simp only [dependencyKeysLoop] at h
    cases hg : mapGet m d.ident with
    | none =>
      simp only [hg, Except.error.injEq] at h
      exact ⟨d, by simp, hg, h.symm⟩
    | some key =>
      simp only [hg] at h
      obtain ⟨d2, hd2, h2⟩ := ih h
      exact ⟨d2, List.mem_cons_of_mem _ hd2, h2⟩

theorem dependencyKeysLoop_total {m : List (Ident × String)} {deps : List Object}
    (acc : List String) (h : ∀ d ∈ deps, mapGet m d.ident ≠ none) :
    ∃ ks, dependencyKeysLoop m deps acc = .ok ks := by
  induction deps generalizing acc with
  | nil => exact ⟨acc, rfl⟩
  | cons d rest ih =>
    simp only [dependencyKeysLoop]
    cases hg : mapGet m d.ident with
    | none => exact absurd hg (h d (by simp))
    | some key => exact ih _ (fun d2 hd2 => h d2 (List.mem_cons_of_mem _ hd2))

/-- Each entry the second loop writes is the list of keys of the dependencies
resolved for a task that was still to come. -/
theorem edgesLoop_mem {Γ : TypeEnv} {tasks : TaskSet} {m : List (Ident × String)}
    {todo : TaskSet} {edges out : List (String × List String)}
    (h : edgesLoop Γ tasks m todo edges = .ok out) {e : String × List String} (he : e ∈ out) :
    e ∈ edges ∨ ∃ t deps, (e.1, t) ∈ todo ∧ resolveDependencies Γ tasks t = .ok deps ∧
      dependencyKeysLoop m deps [] = .ok e.2 := by
  induction todo generalizing edges with
  | nil =>
    simp only [edgesLoop, Except.ok.injEq] at h
    exact Or.inl (h ▸ he)
  | cons hd tl ih =>
    obtain ⟨k, t⟩ := hd
    simp only [edgesLoop] at h
    cases hr : resolveDependencies Γ tasks t with
    | error err => simp [hr] at h
    | ok deps =>
      simp only [hr] at h
      cases hk : dependencyKeysLoop m deps [] with
      | error err => simp [hk] at h
      | ok ks =>
        simp only [hk] at h
        rcases ih h with h1 | ⟨t2, deps2, h2, h3, h4⟩
        · rcases mem_mapSet h1 with h5 | h5
          · subst h5
            exact Or.inr ⟨t, deps, by simp, hr, hk⟩
          · exact Or.inl h5
        · exact Or.inr ⟨t2, deps2, List.mem_cons_of_mem _ h2, h3, h4⟩

theorem edgesLoop_keys {Γ : TypeEnv} {tasks : TaskSet} {m : List (Ident × String)}
    {todo : TaskSet} {edges out : List (String × List String)}
    (h : edgesLoop Γ tasks m todo edges = .ok out) (k : String) :
    k ∈ out.map Prod.fst ↔ k ∈ edges.map Prod.fst ∨ k ∈ todo.map Prod.fst := by
  induction todo generalizing edges with
  | nil =>
    simp only [edgesLoop, Except.ok.injEq] at h
    simp [h]
  | cons hd tl ih =>
    obtain ⟨k1, t⟩ := hd
    simp only [edgesLoop] at h
    cases hr : resolveDependencies Γ tasks t with
    | error err => simp [hr] at h
    | ok deps =>
      simp only [hr] at h
      cases hk : dependencyKeysLoop m deps [] with
      | error err => simp [hk] at h
      | ok ks =>
        simp only [hk] at h
        rw [ih h, mem_keys_mapSet]
        simp only [List.map_cons, List.mem_cons]
        tauto

theorem edgesLoop_get_of_not_mem {Γ : TypeEnv} {tasks : TaskSet} {m : List (Ident × String)}
    {todo : TaskSet} {edges out : List (String × List String)}
    (h : edgesLoop Γ tasks m todo edges = .ok out) {k : String}
    (hk : k ∉ todo.map Prod.fst) : mapGet out k = mapGet edges k := by
  induction todo generalizing edges with
  | nil =>
    simp only [edgesLoop, Except.ok.injEq] at h
    simp [h]
  | cons hd tl ih =>
    obtain ⟨k1, t⟩ := hd
    simp only [edgesLoop] at h
    simp only [List.map_cons, List.mem_cons, not_or] at hk
    cases hr : resolveDependencies Γ tasks t with
    | error err => simp [hr] at h
    | ok deps =>
      simp only [hr] at h
      cases hks : dependencyKeysLoop m deps [] with
      | error err => simp [hks] at h
      | ok ks =>
        simp only [hks] at h
        rw [ih h hk.2, mapGet_mapSet_ne _ _ hk.1]

/-- When the second loop returns, every task that was still to come had its
dependencies resolved and their keys found; its entry holds these keys when
no later task has the same key. -/
theorem edgesLoop_entry {Γ : TypeEnv} {tasks : TaskSet} {m : List (Ident × String)}
    {todo : TaskSet} {edges out : List (String × List String)}
    (h : edgesLoop Γ tasks m todo edges = .ok out) {k : String} {t : Object}
    (hkt : (k, t) ∈ todo) :
    ∃ deps ks, resolveDependencies Γ tasks t = .ok deps ∧
      dependencyKeysLoop m deps [] = .ok ks ∧
      ((todo.map Prod.fst).Nodup → mapGet out k = some ks) := by
  induction todo generalizing edges with
  | nil => simp at hkt
  | cons hd tl ih =>
    obtain ⟨k1, t1⟩ := hd
    simp only [edgesLoop] at h
    cases hr : resolveDependencies Γ tasks t1 with
    | error err => simp [hr] at h
    | ok deps =>
      simp only [hr] at h
      cases hks : dependencyKeysLoop m deps [] with
      | error err => simp [hks] at h
      | ok ks =>
        simp only [hks] at h
        rcases List.mem_cons.mp hkt with h1 | h1
        · obtain ⟨rfl, rfl⟩ := Prod.mk.inj h1
          refine ⟨deps, ks, hr, hks, fun hnd => ?_⟩
          simp only [List.map_cons, List.nodup_cons] at hnd
          rw [edgesLoop_get_of_not_mem h hnd.1, mapGet_mapSet_self]
        · obtain ⟨deps2, ks2, h2, h3, h4⟩ := ih h h1
          refine ⟨deps2, ks2, h2, h3, fun hnd => h4 ?_⟩
          simp only [List.map_cons, List.nodup_cons] at hnd
          exact hnd.2

theorem edgesLoop_error {Γ : TypeEnv} {tasks : TaskSet} {m : List (Ident × String)}
    {todo : TaskSet} {edges : List (String × List String)} {e : Fatal}
    (h : edgesLoop Γ tasks m todo edges = .error e) :
    ∃ kt ∈ todo, resolveDependencies Γ tasks kt.2 = .error e ∨
      ∃ deps, resolveDependencies Γ tasks kt.2 = .ok deps ∧
        dependencyKeysLoop m deps [] = .error e := by
  induction todo generalizing edges with
  | nil => simp [edgesLoop] at h
  | cons hd tl ih =>
    obtain ⟨k1, t1⟩ := hd
    simp only [edgesLoop] at h
    cases hr : resolveDependencies Γ tasks t1 with
    | error err =>
      simp only [hr, Except.error.injEq] at h
      exact ⟨(k1, t1), by simp, Or.inl (by rw [hr, h])⟩
    | ok deps =>
      simp only [hr] at h
      cases hks : dependencyKeysLoop m deps [] with
      | error err =>
        simp only [hks, Except.error.injEq] at h
        exact ⟨(k1, t1), by simp, Or.inr ⟨deps, hr, by rw [hks, h]⟩⟩
      | ok ks =>
        simp only [hks] at h
        obtain ⟨kt, h1, h2⟩ := ih h
        exact ⟨kt, List.mem_cons_of_mem _ h1, h2⟩

theorem edgesLoop_total {Γ : TypeEnv} {tasks : TaskSet} {m : List (Ident × String)}
    {todo : TaskSet} (edges : List (String × List String))
    (h : ∀ kt ∈ todo, ∃ deps, resolveDependencies Γ tasks kt.2 = .ok deps ∧
      ∀ d ∈ deps, mapGet m d.ident ≠ none) :
    ∃ out, edgesLoop Γ tasks m todo edges = .ok out := by
  induction todo generalizing edges with
  | nil => exact ⟨edges, rfl⟩
  | cons hd tl ih =>
    obtain ⟨k1, t1⟩ := hd
    obtain ⟨deps, hr, hd⟩ := h (k1, t1) (by simp)
    obtain ⟨ks, hks⟩ := dependencyKeysLoop_total [] hd
    simp only [edgesLoop, hr, hks]
    exact ih _ (fun kt hkt => h kt (List.mem_cons_of_mem _ hkt))

/-! ## The walk of `getDependencies` -/

mutual
/-- Induction over values, with the hypothesis for every part of a compound value. -/
theorem Value.induct {P : Value → Prop} (leaf : ∀ k, P (.leaf k)) (str : ∀ x, P (.str x))
    (ifaceNil : P (.iface none)) (iface : ∀ e, P e → P (.iface (some e)))
    (ptrNil : P (.ptr none)) (ptr : ∀ e, P e → P (.ptr (some e)))
    (slice : ∀ es, (∀ e ∈ es, P e) → P (.slice es))
    (map : ∀ kvs : List (String × Value), (∀ kv ∈ kvs, P kv.2) → P (.map kvs))
    (struct : ∀ typ addr (fields : List (String × Value)), (∀ kv ∈ fields, P kv.2) →
      P (.struct typ addr fields))
    (unaddr : ∀ typ (fields : List (String × Value)), (∀ kv ∈ fields, P kv.2) →
      P (.unaddressable typ fields)) : (v : Value) → P v
  | .leaf k => leaf k
  | .str x => str x
  | .iface none => ifaceNil
  | .iface (some e) =>
    iface e (Value.induct leaf str ifaceNil iface ptrNil ptr slice map struct unaddr e)
  | .ptr none => ptrNil
  | .ptr (some e) =>
    ptr e (Value.induct leaf str ifaceNil iface ptrNil ptr slice map struct unaddr e)
  | .slice es => slice es (Value.inductList leaf str ifaceNil iface ptrNil ptr slice map struct unaddr es)
  | .map kvs => map kvs (Value.inductEntries leaf str ifaceNil iface ptrNil ptr slice map struct unaddr kvs)
  | .struct typ addr fields =>
    struct typ addr fields
      (Value.inductEntries leaf str ifaceNil iface ptrNil ptr slice map struct unaddr fields)
  | .unaddressable typ fields =>
    unaddr typ fields
      (Value.inductEntries leaf str ifaceNil iface ptrNil ptr slice map struct unaddr fields)
/-- The induction hypothesis for the elements of a slice. -/
theorem Value.inductList {P : Value → Prop} (leaf : ∀ k, P (.leaf k)) (str : ∀ x, P (.str x))
    (ifaceNil : P (.iface none)) (iface : ∀ e, P e → P (.iface (some e)))
    (ptrNil : P (.ptr none)) (ptr : ∀ e, P e → P (.ptr (some e)))
    (slice : ∀ es, (∀ e ∈ es, P e) → P (.slice es))
    (map : ∀ kvs : List (String × Value), (∀ kv ∈ kvs, P kv.2) → P (.map kvs))
    (struct : ∀ typ addr (fields : List (String × Value)), (∀ kv ∈ fields, P kv.2) →
      P (.struct typ addr fields))
    (unaddr : ∀ typ (fields : List (String × Value)), (∀ kv ∈ fields, P kv.2) →
      P (.unaddressable typ fields)) : (es : List Value) → ∀ e ∈ es, P e
  | [] => fun _ h => absurd h (List.not_mem_nil _)
  | a :: rest => fun e h =>
    (List.mem_cons.mp h).elim
      (fun h1 => h1 ▸ Value.induct leaf str ifaceNil iface ptrNil ptr slice map struct unaddr a)
      (fun h1 => Value.inductList leaf str ifaceNil iface ptrNil ptr slice map struct unaddr rest e h1)
/-- The induction hypothesis for the fields of a struct and the values of a map. -/
theorem Value.inductEntries {P : Value → Prop} (leaf : ∀ k, P (.leaf k)) (str : ∀ x, P (.str x))
    (ifaceNil : P (.iface none)) (iface : ∀ e, P e → P (.iface (some e)))
    (ptrNil : P (.ptr none)) (ptr : ∀ e, P e → P (.ptr (some e)))
    (slice : ∀ es, (∀ e ∈ es, P e) → P (.slice es))
    (map : ∀ kvs : List (String × Value), (∀ kv ∈ kvs, P kv.2) → P (.map kvs))
    (struct : ∀ typ addr (fields : List (String × Value)), (∀ kv ∈ fields, P kv.2) →
      P (.struct typ addr fields))
    (unaddr : ∀ typ (fields : List (String × Value)), (∀ kv ∈ fields, P kv.2) →
      P (.unaddressable typ fields)) : (kvs : List (String × Value)) → ∀ kv ∈ kvs, P kv.2
  | [] => fun _ h => absurd h (List.not_mem_nil _)
  | (_, a) :: rest => fun kv h =>
    (List.mem_cons.mp h).elim
      (fun h1 => h1 ▸ Value.induct leaf str ifaceNil iface ptrNil ptr slice map struct unaddr a)
      (fun h1 => Value.inductEntries leaf str ifaceNil iface ptrNil ptr slice map struct unaddr rest kv h1)
end

theorem visitor_none_state {Γ : TypeEnv} {tasks : TaskSet} {p : FieldPath} {v : Value}
    {s s1 : List Object} (h : visitor Γ tasks p v s = (s1, none)) : s1 = s := by
  unfold visitor at h
  split at h
  · simp_all
  · split at h <;> try (simp_all; done)
    · split at h
      · simp_all
      · split at h
        · simp at h
        · split at h
          · simp at h
          · split at h <;> simp at h
    · split at h <;> simp_all

theorem reflectValue_eq_afterVisit {σ : Type}
    (vis : FieldPath → Value → σ → σ × Option VisitError) (o : ReflectOptions) (c : Bool)
    (p : FieldPath) (v : Value) :
    ∃ D, ∀ s, reflectValue vis o c p v s = afterVisit (vis p (v.present c) s) D := by
  cases v with
  | iface e => cases e <;> exact ⟨_, fun _ => rfl⟩
  | ptr e => cases e <;> exact ⟨_, fun _ => rfl⟩
  | _ => exact ⟨_, fun _ => rfl⟩

/-- Under this visitor the second visit of `DeprecatedDoubleVisit` changes
nothing. -/
theorem doubleVisit_eq (Γ : TypeEnv) (tasks : TaskSet) (o : ReflectOptions) (c : Bool)
    (p : FieldPath) (v : Value) (s : List Object) :
    afterVisit (visitor Γ tasks p (v.present c) s) (reflectValue (visitor Γ tasks) o c p v)
      = reflectValue (visitor Γ tasks) o c p v s := by
  obtain ⟨D, hD⟩ := reflectValue_eq_afterVisit (visitor Γ tasks) o c p v
  rw [hD s]
  rcases h : visitor Γ tasks p (v.present c) s with ⟨s1, _ | e⟩
  · have h1 := visitor_none_state h
    subst h1
    show reflectValue (visitor Γ tasks) o c p v s1 = _
    rw [hD s1, h]
  · cases e <;> rfl

theorem walkAt_true (Γ : TypeEnv) (tasks : TaskSet) (p : FieldPath) (v : Value)
    (s : List Object) : walkAt Γ tasks true p v s = walk Γ tasks p v s := rfl

theorem walkAt_of_not_struct (Γ : TypeEnv) (tasks : TaskSet) (c : Bool) (p : FieldPath)
    (v : Value) (h : v.isStruct = false) (s : List Object) :
    walkAt Γ tasks c p v s = walk Γ tasks p v s := by
  cases v with
  | iface e => cases e <;> rfl
  | ptr e => cases e <;> rfl
  | struct typ addr fields => simp [Value.isStruct] at h
  | unaddressable typ fields => simp [Value.isStruct] at h
  | _ => rfl

theorem walk_str (Γ : TypeEnv) (tasks : TaskSet) (p : FieldPath) (x : String)
    (s : List Object) : walk Γ tasks p (.str x) s = (s, none) := rfl

theorem walk_ptr_nil (Γ : TypeEnv) (tasks : TaskSet) (p : FieldPath) (s : List Object) :
    walk Γ tasks p (.ptr none) s = (s, none) := rfl

theorem walk_iface_nil (Γ : TypeEnv) (tasks : TaskSet) (p : FieldPath) (s : List Object) :
    walk Γ tasks p (.iface none) s = (s, none) := rfl

theorem walk_ptr (Γ : TypeEnv) (tasks : TaskSet) (p : FieldPath) (e : Value)
    (s : List Object) : walk Γ tasks p (.ptr (some e)) s = walk Γ tasks p e s := rfl

/-- The content of an interface is walked as a value without an address. -/
theorem walk_iface (Γ : TypeEnv) (tasks : TaskSet) (p : FieldPath) (e : Value)
    (s : List Object) : walk Γ tasks p (.iface (some e)) s = walkAt Γ tasks false p e s := rfl

theorem walk_leaf (Γ : TypeEnv) (tasks : TaskSet) (p : FieldPath) (k : Leaf)
    (s : List Object) :
    walk Γ tasks p (.leaf k) s
      = if IsPrimitiveValue (.leaf k) then (s, none) else (s, some (.UnhandledKind p k.Kind)) := by
  cases k <;> rfl

theorem walk_slice (Γ : TypeEnv) (tasks : TaskSet) (p : FieldPath) (es : List Value)
    (s : List Object) :
    walk Γ tasks p (.slice es) s = reflectElems (visitor Γ tasks) ⟨true⟩ p 0 es s := rfl

/-- The values of a map are walked as values without an address. -/
theorem walk_map (Γ : TypeEnv) (tasks : TaskSet) (p : FieldPath) (kvs : List (String × Value))
    (s : List Object) :
    walk Γ tasks p (.map kvs) s = reflectChildrenOf (visitor Γ tasks) ⟨true⟩ false p kvs s := rfl

theorem walk_struct_root (Γ : TypeEnv) (tasks : TaskSet) (typ : String) (addr : Nat)
    (fields : List (String × Value)) (s : List Object) :
    walk Γ tasks [] (.struct typ addr fields) s
      = reflectChildren (visitor Γ tasks) ⟨true⟩ [] fields s := rfl

theorem visitor_struct (Γ : TypeEnv) (tasks : TaskSet) {p : FieldPath}
    (hp : p.IsEmpty = false) (typ : String) (addr : Nat) (fields : List (String × Value))
    (s : List Object) :
    visitor Γ tasks p (.struct typ addr fields) s
      = match (Γ typ).GetDependencies with
        | some hd => (s ++ hd ⟨typ, addr, fields⟩ tasks, some .SkipReflection)
        | none =>
          if (Γ typ).isTask then (s ++ [⟨typ, addr, fields⟩], some .SkipReflection)
          else if (Γ typ).isResource then (s, some .SkipReflection)
          else (s, some (.UnhandledType p typ)) := by
  simp [visitor, IsPrimitiveValue, Value.Kind, hp]

theorem visitor_unaddressable (Γ : TypeEnv) (tasks : TaskSet) {p : FieldPath}
    (hp : p.IsEmpty = false) (typ : String) (fields : List (String × Value))
    (s : List Object) :
    visitor Γ tasks p (.unaddressable typ fields) s = (s, some (.AddrOfUnaddressable p)) := by
  simp [visitor, IsPrimitiveValue, Value.Kind, hp]

theorem walk_struct_hd (Γ : TypeEnv) (tasks : TaskSet) {p : FieldPath}
    (hp : p.IsEmpty = false) {typ : String} (addr : Nat) (fields : List (String × Value))
    (s : List Object) {hd : Object → TaskSet → List Object}
    (h : (Γ typ).GetDependencies = some hd) :
    walk Γ tasks p (.struct typ addr fields) s = (s ++ hd ⟨typ, addr, fields⟩ tasks, none) := by
  show afterVisit (visitor Γ tasks p (.struct typ addr fields) s) _ = _
  rw [visitor_struct Γ tasks hp, h]
  rfl

theorem walk_struct_task (Γ : TypeEnv) (tasks : TaskSet) {p : FieldPath}
    (hp : p.IsEmpty = false) {typ : String} (addr : Nat) (fields : List (String × Value))
    (s : List Object) (h : (Γ typ).GetDependencies = none) (ht : (Γ typ).isTask = true) :
    walk Γ tasks p (.struct typ addr fields) s = (s ++ [⟨typ, addr, fields⟩], none) := by
  show afterVisit (visitor Γ tasks p (.struct typ addr fields) s) _ = _
  rw [visitor_struct Γ tasks hp, h]
  simp [ht, afterVisit]

theorem walk_struct_resource (Γ : TypeEnv) (tasks : TaskSet) {p : FieldPath}
    (hp : p.IsEmpty = false) {typ : String} (addr : Nat) (fields : List (String × Value))
    (s : List Object) (h : (Γ typ).GetDependencies = none) (ht : (Γ typ).isTask = false)
    (hr : (Γ typ).isResource = true) :
    walk Γ tasks p (.struct typ addr fields) s = (s, none) := by
  show afterVisit (visitor Γ tasks p (.struct typ addr fields) s) _ = _
  rw [visitor_struct Γ tasks hp, h]
  simp [ht, hr, afterVisit]

theorem walk_struct_unhandled (Γ : TypeEnv) (tasks : TaskSet) {p : FieldPath}
    (hp : p.IsEmpty = false) {typ : String} (addr : Nat) (fields : List (String × Value))
    (s : List Object) (h : (Γ typ).GetDependencies = none) (ht : (Γ typ).isTask = false)
    (hr : (Γ typ).isResource = false) :
    walk Γ tasks p (.struct typ addr fields) s = (s, some (.UnhandledType p typ)) := by
  show afterVisit (visitor Γ tasks p (.struct typ addr fields) s) _ = _
  rw [visitor_struct Γ tasks hp, h]
  simp [ht, hr, afterVisit]

/-- Below the top level the walk of a struct that is found without an address
ends in the panic of `v.Addr()`, whatever the type of the struct. -/
theorem walkAt_false_struct (Γ : TypeEnv) (tasks : TaskSet) {p : FieldPath}
    (hp : p.IsEmpty = false) (typ : String) (addr : Nat) (fields : List (String × Value))
    (s : List Object) :
    walkAt Γ tasks false p (.struct typ addr fields) s
      = (s, some (.AddrOfUnaddressable p)) := by
  show afterVisit (visitor Γ tasks p (.unaddressable typ fields) s) _ = _
  rw [visitor_unaddressable Γ tasks hp]
  rfl

theorem walkAt_unaddressable (Γ : TypeEnv) (tasks : TaskSet) (c : Bool) {p : FieldPath}
    (hp : p.IsEmpty = false) (typ : String) (fields : List (String × Value))
    (s : List Object) :
    walkAt Γ tasks c p (.unaddressable typ fields) s
      = (s, some (.AddrOfUnaddressable p)) := by
  show afterVisit (visitor Γ tasks p (.unaddressable typ fields) s) _ = _
  rw [visitor_unaddressable Γ tasks hp]
  rfl

theorem reflectChildrenOf_nil (Γ : TypeEnv) (tasks : TaskSet) (c : Bool) (p : FieldPath)
    (s : List Object) : reflectChildrenOf (visitor Γ tasks) ⟨true⟩ c p [] s = (s, none) := rfl

theorem reflectChildrenOf_cons (Γ : TypeEnv) (tasks : TaskSet) (c : Bool) (p : FieldPath)
    (name : String) (f : Value) (rest : List (String × Value)) (s : List Object) :
    reflectChildrenOf (visitor Γ tasks) ⟨true⟩ c p ((name, f) :: rest) s
      = andThen (walkAt Γ tasks c (p.Extend name) f s)
          (reflectChildrenOf (visitor Γ tasks) ⟨true⟩ c p rest) := by
  show andThen (afterVisit (visitor Γ tasks (p.Extend name) (f.present c) s)
    (reflectValue (visitor Γ tasks) ⟨true⟩ c (p.Extend name) f)) _ = _
  rw [doubleVisit_eq]
  rfl

theorem reflectChildren_nil (Γ : TypeEnv) (tasks : TaskSet) (p : FieldPath) (s : List Object) :
    reflectChildren (visitor Γ tasks) ⟨true⟩ p [] s = (s, none) := rfl

theorem reflectChildren_cons (Γ : TypeEnv) (tasks : TaskSet) (p : FieldPath) (name : String)
    (f : Value) (rest : List (String × Value)) (s : List Object) :
    reflectChildren (visitor Γ tasks) ⟨true⟩ p ((name, f) :: rest) s
      = andThen (walk Γ tasks (p.Extend name) f s)
          (reflectChildren (visitor Γ tasks) ⟨true⟩ p rest) :=
  reflectChildrenOf_cons Γ tasks true p name f rest s

theorem reflectElems_nil (Γ : TypeEnv) (tasks : TaskSet) (p : FieldPath) (i : Nat)
    (s : List Object) : reflectElems (visitor Γ tasks) ⟨true⟩ p i [] s = (s, none) := rfl

theorem reflectElems_cons (Γ : TypeEnv) (tasks : TaskSet) (p : FieldPath) (i : Nat)
    (av : Value) (rest : List Value) (s : List Object) :
    reflectElems (visitor Γ tasks) ⟨true⟩ p i (av :: rest) s
      = andThen (walk Γ tasks (p.Extend (toString i)) av s)
          (reflectElems (visitor Γ tasks) ⟨true⟩ p (i + 1) rest) := by
  show andThen (afterVisit (visitor Γ tasks (p.Extend (toString i)) (av.present true) s)
    (reflectValue (visitor Γ tasks) ⟨true⟩ true (p.Extend (toString i)) av)) _ = _
  rw [doubleVisit_eq]
  rfl

theorem extend_not_empty (p : FieldPath) (name : String) : (p.Extend name).IsEmpty = false := by
  cases p <;> rfl

theorem andThen_ok {σ : Type} (s : σ) (next : σ → σ × Option VisitError) :
    andThen (s, none) next = next s := rfl

theorem andThen_error {σ : Type} (s : σ) (err : VisitError)
    (next : σ → σ × Option VisitError) : andThen (s, some err) next = (s, some err) := rfl

theorem getDependencies_struct (Γ : TypeEnv) (tasks : TaskSet) (typ : String) (addr : Nat)
    (fields : List (String × Value)) :
    getDependencies Γ tasks (.struct typ addr fields)
      = match reflectChildren (visitor Γ tasks) ⟨true⟩ [] fields [] with
        | (_, some (.AddrOfUnaddressable path)) => .error (.addrPanic path)
        | (_, some err) => .error (.unexpectedError err)
        | (dependencies, none) => .ok dependencies := rfl

theorem reflectChildren_all_ok (Γ : TypeEnv) (tasks : TaskSet) (p : FieldPath)
    (fields : List (String × Value)) (s : List Object)
    (h : ∀ f ∈ fields, walk Γ tasks (p.Extend f.1) f.2 s = (s, none)) :
    reflectChildren (visitor Γ tasks) ⟨true⟩ p fields s = (s, none) := by
  induction fields with
  | nil => rfl
  | cons hd tl ih =>
    obtain ⟨name, f⟩ := hd
    rw [reflectChildren_cons, h (name, f) (by simp), andThen_ok]
    exact ih (fun f2 hf2 => h f2 (List.mem_cons_of_mem _ hf2))

theorem reflectChildrenOf_all_ok (Γ : TypeEnv) (tasks : TaskSet) (c : Bool) (p : FieldPath)
    (fields : List (String × Value)) (s : List Object)
    (h : ∀ f ∈ fields, walkAt Γ tasks c (p.Extend f.1) f.2 s = (s, none)) :
    reflectChildrenOf (visitor Γ tasks) ⟨true⟩ c p fields s = (s, none) := by
  induction fields with
  | nil => rfl
  | cons hd tl ih =>
    obtain ⟨name, f⟩ := hd
    rw [reflectChildrenOf_cons, h (name, f) (by simp), andThen_ok]
    exact ih (fun f2 hf2 => h f2 (List.mem_cons_of_mem _ hf2))

theorem leaf_of_isPrimitive {v : Value} (h : IsPrimitiveValue v = true) : ∃ k, v = .leaf k := by
  cases v with
  | leaf k => exact ⟨k, rfl⟩
  | _ => simp [IsPrimitiveValue, Value.Kind] at h

theorem reflectElems_fails_iff (Γ : TypeEnv) (tasks : TaskSet) (Q : Value → Prop)
    (es : List Value)
    (h : ∀ e ∈ es, ∀ (p : FieldPath) (s : List Object), p.IsEmpty = false →
      ((walk Γ tasks p e s).2 ≠ none ↔ Q e))
    (p : FieldPath) (i : Nat) (s : List Object) :
    (reflectElems (visitor Γ tasks) ⟨true⟩ p i es s).2 ≠ none ↔ ∃ e ∈ es, Q e := by
  induction es generalizing i s with
  | nil => simp [reflectElems_nil]
  | cons av rest ih =>
    have hav := h av (by simp) (p.Extend (toString i)) s (extend_not_empty _ _)
    have hrest := ih (fun e he => h e (List.mem_cons_of_mem _ he))
    rw [reflectElems_cons]
    rcases hw : walk Γ tasks (p.Extend (toString i)) av s with ⟨s2, _ | err⟩
    · rw [hw] at hav
      rw [andThen_ok, hrest]
      have hq : ¬ Q av := fun hq => (hav.mpr hq) rfl
      simp [hq]
    · rw [hw] at hav
      rw [andThen_error]
      have hq : Q av := hav.mp (by simp)
      simp [hq]

theorem reflectChildrenOf_fails_iff (Γ : TypeEnv) (tasks : TaskSet) (c : Bool)
    (Q : Value → Prop) (kvs : List (String × Value))
    (h : ∀ kv ∈ kvs, ∀ (p : FieldPath) (s : List Object), p.IsEmpty = false →
      ((walkAt Γ tasks c p kv.2 s).2 ≠ none ↔ Q kv.2))
    (p : FieldPath) (s : List Object) :
    (reflectChildrenOf (visitor Γ tasks) ⟨true⟩ c p kvs s).2 ≠ none ↔ ∃ kv ∈ kvs, Q kv.2 := by
  induction kvs generalizing s with
  | nil => simp [reflectChildrenOf_nil]
  | cons hd rest ih =>
    obtain ⟨name, f⟩ := hd
    have hav := h (name, f) (by simp) (p.Extend name) s (extend_not_empty _ _)
    have hrest := ih (fun e he => h e (List.mem_cons_of_mem _ he))
    rw [reflectChildrenOf_cons]
    rcases hw : walkAt Γ tasks c (p.Extend name) f s with ⟨s2, _ | err⟩
    · rw [hw] at hav
      rw [andThen_ok, hrest]
      have hq : ¬ Q f := fun hq => (hav.mpr hq) rfl
      simp [hq]
    · rw [hw] at hav
      rw [andThen_error]
      have hq : Q f := hav.mp (by simp)
      simp [hq]

/-- An error of the loop over the elements of a slice is the error of the walk
of one of the elements. -/
theorem reflectElems_error_from (Γ : TypeEnv) (tasks : TaskSet) (es : List Value)
    (p : FieldPath) (i : Nat) (s : List Object) (err : VisitError)
    (h : (reflectElems (visitor Γ tasks) ⟨true⟩ p i es s).2 = some err) :
    ∃ e ∈ es, ∃ (q : FieldPath) (s1 : List Object), q.IsEmpty = false ∧
      (walk Γ tasks q e s1).2 = some err := by
  induction es generalizing i s with
  | nil => simp [reflectElems_nil] at h
  | cons av rest ih =>
    rw [reflectElems_cons] at h
    rcases hw : walk Γ tasks (p.Extend (toString i)) av s with ⟨s2, _ | err2⟩
    · rw [hw, andThen_ok] at h
      obtain ⟨e, he, q, s1, hq, hres⟩ := ih _ _ h
      exact ⟨e, List.mem_cons_of_mem _ he, q, s1, hq, hres⟩
    · rw [hw, andThen_error] at h
      refine ⟨av, by simp, p.Extend (toString i), s, extend_not_empty _ _, ?_⟩
      rw [hw]
      exact h

/-- An error of the loop over the fields of a struct or the values of a map is
the error of the walk of one of them. -/
theorem reflectChildrenOf_error_from (Γ : TypeEnv) (tasks : TaskSet) (c : Bool)
    (kvs : List (String × Value)) (p : FieldPath) (s : List Object) (err : VisitError)
    (h : (reflectChildrenOf (visitor Γ tasks) ⟨true⟩ c p kvs s).2 = some err) :
    ∃ kv ∈ kvs, ∃ (q : FieldPath) (s1 : List Object), q.IsEmpty = false ∧
      (walkAt Γ tasks c q kv.2 s1).2 = some err := by
  induction kvs generalizing s with
  | nil => simp [reflectChildrenOf_nil] at h
  | cons hd rest ih =>
    obtain ⟨name, f⟩ := hd
    rw [reflectChildrenOf_cons] at h
    rcases hw : walkAt Γ tasks c (p.Extend name) f s with ⟨s2, _ | err2⟩
    · rw [hw, andThen_ok] at h
      obtain ⟨e, he, q, s1, hq, hres⟩ := ih _ h
      exact ⟨e, List.mem_cons_of_mem _ he, q, s1, hq, hres⟩
    · rw [hw, andThen_error] at h
      refine ⟨(name, f), by simp, p.Extend name, s, extend_not_empty _ _, ?_⟩
      rw [hw]
      exact h

theorem refused_leaf (Γ : TypeEnv) (k : Leaf) :
    refused Γ (.leaf k) = !IsPrimitiveValue (.leaf k) := by
  cases k <;> rfl

theorem meetsRefused_leaf (Γ : TypeEnv) (c : Bool) (k : Leaf) :
    MeetsRefused Γ c (.leaf k) ↔ IsPrimitiveValue (.leaf k) = false := by
  constructor
  · rintro ⟨w, hr, hu⟩
    cases hr
    rw [show Value.present c (.leaf k) = .leaf k from rfl, refused_leaf] at hu
    simpa using hu
  · intro h
    refine ⟨_, Meets.self c _, ?_⟩
    rw [show Value.present c (.leaf k) = .leaf k from rfl, refused_leaf, h]
    rfl

theorem meetsRefused_str (Γ : TypeEnv) (c : Bool) (x : String) :
    ¬ MeetsRefused Γ c (.str x) := by
  rintro ⟨w, hr, hu⟩
  cases hr
  simp [Value.present, refused, unclassifiable, Value.hasNoAddress, IsPrimitiveValue,
    Value.Kind] at hu

theorem meetsRefused_ptr_nil (Γ : TypeEnv) (c : Bool) : ¬ MeetsRefused Γ c (.ptr none) := by
  rintro ⟨w, hr, hu⟩
  cases hr
  simp [Value.present, refused, unclassifiable, Value.hasNoAddress, IsPrimitiveValue,
    Value.Kind] at hu

theorem meetsRefused_iface_nil (Γ : TypeEnv) (c : Bool) : ¬ MeetsRefused Γ c (.iface none) := by
  rintro ⟨w, hr, hu⟩
  cases hr
  simp [Value.present, refused, unclassifiable, Value.hasNoAddress, IsPrimitiveValue,
    Value.Kind] at hu

theorem meetsRefused_ptr (Γ : TypeEnv) (c : Bool) (e : Value) :
    MeetsRefused Γ c (.ptr (some e)) ↔ MeetsRefused Γ true e := by
  constructor
  · rintro ⟨w, hr, hu⟩
    cases hr with
    | self =>
      simp [Value.present, refused, unclassifiable, Value.hasNoAddress, IsPrimitiveValue,
        Value.Kind] at hu
    | ptr h => exact ⟨w, h, hu⟩
  · rintro ⟨w, hr, hu⟩
    exact ⟨w, Meets.ptr hr, hu⟩

theorem meetsRefused_iface (Γ : TypeEnv) (c : Bool) (e : Value) :
    MeetsRefused Γ c (.iface (some e)) ↔ MeetsRefused Γ false e := by
  constructor
  · rintro ⟨w, hr, hu⟩
    cases hr with
    | self =>
      simp [Value.present, refused, unclassifiable, Value.hasNoAddress, IsPrimitiveValue,
        Value.Kind] at hu
    | iface h => exact ⟨w, h, hu⟩
  · rintro ⟨w, hr, hu⟩
    exact ⟨w, Meets.iface hr, hu⟩

theorem meetsRefused_slice (Γ : TypeEnv) (c : Bool) (es : List Value) :
    MeetsRefused Γ c (.slice es) ↔ ∃ e ∈ es, MeetsRefused Γ true e := by
  constructor
  · rintro ⟨w, hr, hu⟩
    cases hr with
    | self =>
      simp [Value.present, refused, unclassifiable, Value.hasNoAddress, IsPrimitiveValue,
        Value.Kind] at hu
    | slice he h => exact ⟨_, he, w, h, hu⟩
  · rintro ⟨e, he, w, hr, hu⟩
    exact ⟨w, Meets.slice he hr, hu⟩

theorem meetsRefused_map (Γ : TypeEnv) (c : Bool) (kvs : List (String × Value)) :
    MeetsRefused Γ c (.map kvs) ↔ ∃ kv ∈ kvs, MeetsRefused Γ false kv.2 := by
  constructor
  · rintro ⟨w, hr, hu⟩
    cases hr with
    | self =>
      simp [Value.present, refused, unclassifiable, Value.hasNoAddress, IsPrimitiveValue,
        Value.Kind] at hu
    | map he h => exact ⟨_, he, w, h, hu⟩
  · rintro ⟨e, he, w, hr, hu⟩
    exact ⟨w, Meets.map he hr, hu⟩

theorem meetsRefused_struct (Γ : TypeEnv) (typ : String) (addr : Nat)
    (fields : List (String × Value)) :
    MeetsRefused Γ true (.struct typ addr fields) ↔
      ((Γ typ).GetDependencies = none ∧ (Γ typ).isTask = false ∧ (Γ typ).isResource = false) := by
  constructor
  · rintro ⟨w, hr, hu⟩
    cases hr
    simpa [Value.present, refused, unclassifiable, Value.hasNoAddress, and_assoc] using hu
  · intro h
    refine ⟨_, Meets.self true _, ?_⟩
    simp [Value.present, refused, unclassifiable, Value.hasNoAddress, h.1, h.2.1, h.2.2]

theorem meetsRefused_struct_false (Γ : TypeEnv) (typ : String) (addr : Nat)
    (fields : List (String × Value)) : MeetsRefused Γ false (.struct typ addr fields) :=
  ⟨_, Meets.self false _, by simp [Value.present, refused, Value.hasNoAddress]⟩

theorem meetsRefused_unaddressable (Γ : TypeEnv) (c : Bool) (typ : String)
    (fields : List (String × Value)) : MeetsRefused Γ c (.unaddressable typ fields) :=
  ⟨_, Meets.self c _, by simp [Value.present, refused, Value.hasNoAddress]⟩

/-- Below the top level the walk ends in an error exactly when the visitor is
handed a value that its rules do not cover or a struct without an address. -/
theorem walkAt_fails_iff (Γ : TypeEnv) (tasks : TaskSet) (v : Value) :
    ∀ (c : Bool) (p : FieldPath) (s : List Object), p.IsEmpty = false →
      ((walkAt Γ tasks c p v s).2 ≠ none ↔ MeetsRefused Γ c v) := by
  induction v using Value.induct with
  | leaf k =>
    intro c p s _
    rw [walkAt_of_not_struct Γ tasks c p (.leaf k) rfl, walk_leaf, meetsRefused_leaf]
    cases h : IsPrimitiveValue (.leaf k) <;> simp
  | str x =>
    intro c p s _
    rw [walkAt_of_not_struct Γ tasks c p (.str x) rfl]
    simp [walk_str, meetsRefused_str]
  | ifaceNil =>
    intro c p s _
    rw [walkAt_of_not_struct Γ tasks c p (.iface none) rfl]
    simp [walk_iface_nil, meetsRefused_iface_nil]
  | iface e ih =>
    intro c p s hp
    rw [walkAt_of_not_struct Γ tasks c p (.iface (some e)) rfl, walk_iface, meetsRefused_iface]
    exact ih false p s hp
  | ptrNil =>
    intro c p s _
    rw [walkAt_of_not_struct Γ tasks c p (.ptr none) rfl]
    simp [walk_ptr_nil, meetsRefused_ptr_nil]
  | ptr e ih =>
    intro c p s hp
    rw [walkAt_of_not_struct Γ tasks c p (.ptr (some e)) rfl, walk_ptr, meetsRefused_ptr]
    exact ih true p s hp
  | slice es ih =>
    intro c p s _
    rw [walkAt_of_not_struct Γ tasks c p (.slice es) rfl, walk_slice, meetsRefused_slice]
    exact reflectElems_fails_iff Γ tasks _ es (fun e he => ih e he true) p 0 s
  | map kvs ih =>
    intro c p s _
    rw [walkAt_of_not_struct Γ tasks c p (.map kvs) rfl, walk_map, meetsRefused_map]
    exact reflectChildrenOf_fails_iff Γ tasks false _ kvs (fun kv hkv => ih kv hkv false) p s
  | struct typ addr fields _ =>
    intro c p s hp
    cases c with
    | false =>
      simp [walkAt_false_struct Γ tasks hp, meetsRefused_struct_false]
    | true =>
      rw [walkAt_true, meetsRefused_struct]
      cases hg : (Γ typ).GetDependencies with
      | some hd => simp [walk_struct_hd Γ tasks hp addr fields s hg]
      | none =>
        cases ht : (Γ typ).isTask with
        | true => simp [walk_struct_task Γ tasks hp addr fields s hg ht]
        | false =>
          cases hr : (Γ typ).isResource with
          | true => simp [walk_struct_resource Γ tasks hp addr fields s hg ht hr]
          | false => simp [walk_struct_unhandled Γ tasks hp addr fields s hg ht hr]
  | unaddr typ fields _ =>
    intro c p s hp
    simp [walkAt_unaddressable Γ tasks c hp, meetsRefused_unaddressable]

/-- Below the top level the walk ends in the panic of `v.Addr()` only when the
visitor is handed a struct without an address. -/
theorem walkAt_panic_meets (Γ : TypeEnv) (tasks : TaskSet) (v : Value) :
    ∀ (c : Bool) (p : FieldPath) (s : List Object) (q : FieldPath), p.IsEmpty = false →
      (walkAt Γ tasks c p v s).2 = some (.AddrOfUnaddressable q) →
      ∃ w, Meets c v w ∧ w.hasNoAddress = true := by
  induction v using Value.induct with
  | leaf k =>
    intro c p s q _ h
    rw [walkAt_of_not_struct Γ tasks c p (.leaf k) rfl, walk_leaf] at h
    cases hk : IsPrimitiveValue (.leaf k) <;> simp [hk] at h
  | str x =>
    intro c p s q _ h
    rw [walkAt_of_not_struct Γ tasks c p (.str x) rfl, walk_str] at h
    simp at h
  | ifaceNil =>
    intro c p s q _ h
    rw [walkAt_of_not_struct Γ tasks c p (.iface none) rfl, walk_iface_nil] at h
    simp at h
  | iface e ih =>
    intro c p s q hp h
    rw [walkAt_of_not_struct Γ tasks c p (.iface (some e)) rfl, walk_iface] at h
    obtain ⟨w, hw, hn⟩ := ih false p s q hp h
    exact ⟨w, Meets.iface hw, hn⟩
  | ptrNil =>
    intro c p s q _ h
    rw [walkAt_of_not_struct Γ tasks c p (.ptr none) rfl, walk_ptr_nil] at h
    simp at h
  | ptr e ih =>
    intro c p s q hp h
    rw [walkAt_of_not_struct Γ tasks c p (.ptr (some e)) rfl, walk_ptr] at h
    obtain ⟨w, hw, hn⟩ := ih true p s q hp h
    exact ⟨w, Meets.ptr hw, hn⟩
  | slice es ih =>
    intro c p s q _ h
    rw [walkAt_of_not_struct Γ tasks c p (.slice es) rfl, walk_slice] at h
    obtain ⟨e, he, p1, s1, hp1, h1⟩ := reflectElems_error_from Γ tasks es p 0 s _ h
    obtain ⟨w, hw, hn⟩ := ih e he true p1 s1 q hp1 h1
    exact ⟨w, Meets.slice he hw, hn⟩
  | map kvs ih =>
    intro c p s q _ h
    rw [walkAt_of_not_struct Γ tasks c p (.map kvs) rfl, walk_map] at h
    obtain ⟨kv, hkv, p1, s1, hp1, h1⟩ := reflectChildrenOf_error_from Γ tasks false kvs p s _ h
    obtain ⟨w, hw, hn⟩ := ih kv hkv false p1 s1 q hp1 h1
    exact ⟨w, Meets.map hkv hw, hn⟩
  | struct typ addr fields _ =>
    intro c p s q hp h
    cases c with
    | false => exact ⟨_, Meets.self false _, rfl⟩
    | true =>
      exfalso
      rw [walkAt_true] at h
      cases hg : (Γ typ).GetDependencies with
      | some hd => simp [walk_struct_hd Γ tasks hp addr fields s hg] at h
      | none =>
        cases ht : (Γ typ).isTask with
        | true => simp [walk_struct_task Γ tasks hp addr fields s hg ht] at h
        | false =>
          cases hr : (Γ typ).isResource with
          | true => simp [walk_struct_resource Γ tasks hp addr fields s hg ht hr] at h
          | false => simp [walk_struct_unhandled Γ tasks hp addr fields s hg ht hr] at h
  | unaddr typ fields _ =>
    intro c p s q _ _
    exact ⟨_, Meets.self c _, rfl⟩

/-- Structural inference returns a dependency list exactly when, from no field
of the task, the visitor is handed a value on which it fails. -/
theorem reflectForDependencies_ok_iff_none_refused (Γ : TypeEnv) (tasks : TaskSet)
    (task : Object) :
    (∃ deps, reflectForDependencies Γ tasks task = .ok deps) ↔
      ¬ ∃ f ∈ task.fields, MeetsRefused Γ true f.2 := by
  have key := reflectChildrenOf_fails_iff Γ tasks true (MeetsRefused Γ true) task.fields
    (fun kv _ p s hp => walkAt_fails_iff Γ tasks kv.2 true p s hp) [] []
  rw [← key]
  show (∃ deps, getDependencies Γ tasks (.struct task.typ task.addr task.fields) = _) ↔ _
  rw [getDependencies_struct]
  show (∃ deps, (match reflectChildrenOf (visitor Γ tasks) ⟨true⟩ true [] task.fields [] with
    | (_, some (.AddrOfUnaddressable path)) => Except.error (Fatal.addrPanic path)
    | (_, some err) => .error (.unexpectedError err)
    | (dependencies, none) => .ok dependencies) = .ok deps) ↔ _
  rcases reflectChildrenOf (visitor Γ tasks) ⟨true⟩ true [] task.fields [] with ⟨s2, _ | err⟩
  · simp
  · cases err <;> simp

/-- Structural inference ends in the panic of `v.Addr()` only when, from a field
of the task, the visitor is handed a struct without an address. -/
theorem reflectForDependencies_panic_meets {Γ : TypeEnv} {tasks : TaskSet} {task : Object}
    {q : FieldPath} (h : reflectForDependencies Γ tasks task = .error (.addrPanic q)) :
    ∃ f ∈ task.fields, ∃ w, Meets true f.2 w ∧ w.hasNoAddress = true := by
  change getDependencies Γ tasks (.struct task.typ task.addr task.fields) = _ at h
  rw [getDependencies_struct] at h
  change (match reflectChildrenOf (visitor Γ tasks) ⟨true⟩ true [] task.fields [] with
    | (_, some (.AddrOfUnaddressable path)) => Except.error (Fatal.addrPanic path)
    | (_, some err) => .error (.unexpectedError err)
    | (dependencies, none) => .ok dependencies) = _ at h
  have key := reflectChildrenOf_error_from Γ tasks true task.fields [] []
  generalize reflectChildrenOf (visitor Γ tasks) ⟨true⟩ true [] task.fields [] = r at h key
  rcases r with ⟨s2, _ | err⟩
  · simp at h
  · cases err <;> simp at h
    subst h
    obtain ⟨kv, hkv, p1, s1, hp1, h1⟩ := key _ rfl
    obtain ⟨w, hw, hn⟩ := walkAt_panic_meets Γ tasks kv.2 true p1 s1 _ hp1 h1
    exact ⟨kv, hkv, w, hw, hn⟩

theorem reflectForDependencies_error_kind {Γ : TypeEnv} {tasks : TaskSet} {task : Object}
    {e : Fatal} (h : reflectForDependencies Γ tasks task = .error e) :
    (∃ err, e = .unexpectedError err) ∨ ∃ path, e = .addrPanic path := by
  change getDependencies Γ tasks (.struct task.typ task.addr task.fields) = _ at h
  rw [getDependencies_struct] at h
  generalize reflectChildren (visitor Γ tasks) ⟨true⟩ [] task.fields [] = r at h
  rcases r with ⟨s2, _ | err⟩
  · simp at h
  · cases err <;> simp only [Except.error.injEq] at h
    · exact Or.inl ⟨_, h.symm⟩
    · exact Or.inl ⟨_, h.symm⟩
    · exact Or.inl ⟨_, h.symm⟩
    · exact Or.inr ⟨_, h.symm⟩
/-! ## Claims on `FindTaskDependencies` -/

/-- C1: when `FindTaskDependencies` returns, every key in the dependency list of
any entry of the returned map is a key of the input task set. -/
theorem FindTaskDependencies_no_dangling_key (Γ : TypeEnv) (tasks : TaskSet)
    (edges : List (String × List String)) (h : FindTaskDependencies Γ tasks = .ok edges) :
    ∀ e ∈ edges, ∀ key ∈ e.2, key ∈ tasks.map Prod.fst := by
  intro e he key hkey
  rcases edgesLoop_mem h he with h1 | ⟨t, deps, _, _, h4⟩
  · simp at h1
  · obtain ⟨l, hl, hf⟩ := dependencyKeysLoop_ok h4
    simp only [List.nil_append] at hl
    rw [hl] at hkey
    obtain ⟨d, _, hd⟩ := forall₂_mem_right hf hkey
    rcases buildTaskToId_get hd with h5 | ⟨t2, h6, _⟩
    · simp [mapGet] at h5
    · exact List.mem_map.mpr ⟨(key, t2), h6, rfl⟩

/-- The scenario of the spec returns an edge map without dangling keys. -/
theorem FindTaskDependencies_no_dangling_key_witness :
    FindTaskDependencies exampleEnv netSubVm
        = .ok [("net", []), ("sub", ["net"]), ("vm", ["sub"])] ∧
      ∀ e ∈ [("net", []), ("sub", ["net"]), ("vm", ["sub"])], ∀ key ∈ e.2,
        key ∈ netSubVm.map Prod.fst :=
  ⟨rfl, FindTaskDependencies_no_dangling_key exampleEnv netSubVm _ rfl⟩

/-- C2: the map that `FindTaskDependencies` returns has exactly the keys of the
task set; every task has an entry, and the entry of a task for which no
dependency was resolved is the empty list. -/
theorem FindTaskDependencies_keys (Γ : TypeEnv) (tasks : TaskSet)
    (edges : List (String × List String)) (hnd : (tasks.map Prod.fst).Nodup)
    (h : FindTaskDependencies Γ tasks = .ok edges) :
    (∀ k, k ∈ edges.map Prod.fst ↔ k ∈ tasks.map Prod.fst) ∧
      (∀ k t, (k, t) ∈ tasks → ∃ ks, mapGet edges k = some ks ∧
        (resolveDependencies Γ tasks t = .ok [] → ks = [])) := by
  refine ⟨fun k => ?_, fun k t hkt => ?_⟩
  · rw [edgesLoop_keys h k]
    simp
  · obtain ⟨deps, ks, hr, hks, hget⟩ := edgesLoop_entry h hkt
    refine ⟨ks, hget hnd, fun h0 => ?_⟩
    rw [h0] at hr
    cases hr
    simpa [dependencyKeysLoop] using hks.symm

/-- The scenario of the spec: three keys in, the same three keys out, and the
empty list for `net`. -/
theorem FindTaskDependencies_keys_witness :
    (netSubVm.map Prod.fst).Nodup ∧
      FindTaskDependencies exampleEnv netSubVm
        = .ok [("net", []), ("sub", ["net"]), ("vm", ["sub"])] ∧
      resolveDependencies exampleEnv netSubVm net = .ok [] ∧
      ((∀ k, k ∈ [("net", ([] : List String)), ("sub", ["net"]), ("vm", ["sub"])].map Prod.fst
          ↔ k ∈ netSubVm.map Prod.fst) ∧
        (∀ k t, (k, t) ∈ netSubVm → ∃ ks,
          mapGet [("net", ([] : List String)), ("sub", ["net"]), ("vm", ["sub"])] k = some ks ∧
          (resolveDependencies exampleEnv netSubVm t = .ok [] → ks = []))) :=
  ⟨by decide, rfl, rfl,
    FindTaskDependencies_keys exampleEnv netSubVm _ (by decide) rfl⟩

/-- C3: for a task that implements `HasDependencies`, the dependencies are the
answer of its `GetDependencies(tasks)` whatever its fields hold, and its entry
in the returned map lists, in the same order, a key of the task set for each of
the tasks in that answer. -/
theorem FindTaskDependencies_explicit (Γ : TypeEnv) (tasks : TaskSet)
    (edges : List (String × List String)) (hnd : (tasks.map Prod.fst).Nodup)
    (h : FindTaskDependencies Γ tasks = .ok edges) (k : String) (t : Object)
    (hkt : (k, t) ∈ tasks) (hd : Object → TaskSet → List Object)
    (hhd : (Γ t.typ).GetDependencies = some hd) :
    resolveDependencies Γ tasks t = .ok (hd t tasks) ∧
      ∃ ks, mapGet edges k = some ks ∧
        List.Forall₂ (fun dep key => ∃ t2, (key, t2) ∈ tasks ∧ t2.ident = dep.ident)
          (hd t tasks) ks := by
  have hres : resolveDependencies Γ tasks t = .ok (hd t tasks) := by
    simp [resolveDependencies, hhd]
  refine ⟨hres, ?_⟩
  obtain ⟨deps, ks, hr, hks, hget⟩ := edgesLoop_entry h hkt
  rw [hres] at hr
  cases hr
  obtain ⟨l, hl, hf⟩ := dependencyKeysLoop_ok hks
  simp only [List.nil_append] at hl
  subst hl
  refine ⟨ks, hget hnd, hf.imp (fun d key hg => ?_)⟩
  rcases buildTaskToId_get hg with h5 | ⟨t2, h6, h7⟩
  · simp [mapGet] at h5
  · exact ⟨t2, h6, h7⟩

/-- The task `lb` declares the task under `sub`: its entry is `sub` alone,
although its field `Network` points to `net` and its field `Done` is a channel. -/
theorem FindTaskDependencies_explicit_witness :
    (withExplicit.map Prod.fst).Nodup ∧
      FindTaskDependencies exampleEnv withExplicit
        = .ok [("lb", ["sub"]), ("net", []), ("sub", ["net"])] ∧
      (resolveDependencies exampleEnv withExplicit lb = .ok [sub] ∧
        ∃ ks, mapGet [("lb", ["sub"]), ("net", []), ("sub", ["net"])] "lb" = some ks ∧
          List.Forall₂ (fun dep key => ∃ t2, (key, t2) ∈ withExplicit ∧ t2.ident = dep.ident)
            [sub] ks) :=
  ⟨by decide, rfl,
    FindTaskDependencies_explicit exampleEnv withExplicit _ (by decide) rfl "lb" lb
      (by simp [withExplicit]) (fun _ tasks => tasksAt tasks "sub") rfl⟩

/-! ## Claims on structural inference -/

/-- C4: where structural inference reaches a struct that is a `Task` and not a
`HasDependencies`, that task is added and its fields are not walked, so a task
that points to it depends on it alone, whatever the fields of that task hold; in
the scenario of the spec the edges are `net -> []`, `sub -> [net]`,
`vm -> [sub]`, and `net` is not in the list of `vm`. -/
theorem getDependencies_task_not_transitive (Γ : TypeEnv) (tasks : TaskSet) (p : FieldPath)
    (typ : String) (addr : Nat) (fields : List (String × Value)) (s : List Object)
    (hp : p.IsEmpty = false) (h : (Γ typ).GetDependencies = none)
    (ht : (Γ typ).isTask = true) :
    walk Γ tasks p (.struct typ addr fields) s = (s ++ [⟨typ, addr, fields⟩], none) ∧
      (∀ (typ0 : String) (addr0 : Nat) (name : String),
        reflectForDependencies Γ tasks
            ⟨typ0, addr0, [(name, .ptr (some (.struct typ addr fields)))]⟩
          = .ok [⟨typ, addr, fields⟩]) ∧
      FindTaskDependencies exampleEnv netSubVm
        = .ok [("net", []), ("sub", ["net"]), ("vm", ["sub"])] ∧
      ∃ ks, mapGet [("net", []), ("sub", ["net"]), ("vm", ["sub"])] "vm" = some ks ∧
        "net" ∉ ks := by
  refine ⟨walk_struct_task Γ tasks hp addr fields s h ht, fun typ0 addr0 name => ?_, rfl,
    ⟨["sub"], rfl, by decide⟩⟩
  show getDependencies Γ tasks (.struct typ0 addr0 _) = _
  rw [getDependencies_struct, reflectChildren_cons, walk_ptr,
    walk_struct_task Γ tasks (extend_not_empty _ _) addr fields [] h ht]
  rfl

/-- The task `sub` points to `net`: a task that points to `sub` gets `sub` and
not `net`. -/
theorem getDependencies_task_not_transitive_witness :
    FieldPath.IsEmpty ["Subnet"] = false ∧
      walk exampleEnv netSubVm ["Subnet"] sub.Elem [] = ([] ++ [sub], none) ∧
      reflectForDependencies exampleEnv netSubVm vm = .ok [sub] :=
  ⟨rfl,
    (getDependencies_task_not_transitive exampleEnv netSubVm ["Subnet"] "Subnet" 2 sub.fields []
      rfl rfl rfl).1,
    rfl⟩

/-- C5: a task without explicit dependencies whose fields are strings and
primitive scalars only has no dependencies, whatever the strings are: structural
inference returns the empty list, and so does its entry in the map that
`FindTaskDependencies` returns. -/
theorem reflectForDependencies_strings (Γ : TypeEnv) (tasks : TaskSet) (task : Object)
    (hhd : (Γ task.typ).GetDependencies = none)
    (hf : ∀ f ∈ task.fields, (∃ x, f.2 = .str x) ∨ IsPrimitiveValue f.2 = true) :
    reflectForDependencies Γ tasks task = .ok [] ∧
      ∀ (edges : List (String × List String)) (k : String), (tasks.map Prod.fst).Nodup →
        (k, task) ∈ tasks → FindTaskDependencies Γ tasks = .ok edges →
        mapGet edges k = some [] := by
  have h1 : reflectForDependencies Γ tasks task = .ok [] := by
    show getDependencies Γ tasks (.struct task.typ task.addr task.fields) = _
    rw [getDependencies_struct, reflectChildren_all_ok]
    intro f hmem
    rcases hf f hmem with ⟨x, hx⟩ | hprim
    · rw [hx, walk_str]
    · obtain ⟨k, hk⟩ := leaf_of_isPrimitive hprim
      rw [hk] at hprim
      rw [hk, walk_leaf, hprim]
      rfl
  refine ⟨h1, fun edges k hnd hkt hfind => ?_⟩
  obtain ⟨deps, ks, hr, hks, hget⟩ := edgesLoop_entry hfind hkt
  have h2 : resolveDependencies Γ tasks task = .ok [] := by
    simp [resolveDependencies, hhd, h1]
  rw [h2] at hr
  cases hr
  simp only [dependencyKeysLoop, Except.ok.injEq] at hks
  rw [hget hnd, hks]

/-- The field `Network` of the task `named` is the string `net`, the key of a
task of the set: the task has no dependency. -/
theorem reflectForDependencies_strings_witness :
    (exampleEnv named.typ).GetDependencies = none ∧
      (∀ f ∈ named.fields, (∃ x, f.2 = .str x) ∨ IsPrimitiveValue f.2 = true) ∧
      (withNamed.map Prod.fst).Nodup ∧
      FindTaskDependencies exampleEnv withNamed = .ok [("net", []), ("named", [])] ∧
      reflectForDependencies exampleEnv withNamed named = .ok [] ∧
      mapGet [("net", ([] : List String)), ("named", [])] "named" = some [] :=
  have hf : ∀ f ∈ named.fields, (∃ x, f.2 = .str x) ∨ IsPrimitiveValue f.2 = true := by
    intro f hmem
    simp only [named, List.mem_cons, List.mem_singleton, List.not_mem_nil, or_false] at hmem
    rcases hmem with h | h | h | h <;> subst h
    · exact Or.inl ⟨_, rfl⟩
    · exact Or.inl ⟨_, rfl⟩
    · exact Or.inr rfl
    · exact Or.inr rfl
  ⟨rfl, hf, by decide, rfl,
    (reflectForDependencies_strings exampleEnv withNamed named rfl hf).1,
    (reflectForDependencies_strings exampleEnv withNamed named rfl hf).2 _ "named"
      (by decide) (by simp [withNamed]) rfl⟩

/-- C6: below the top level, a struct that is a `Resource` and neither a
`HasDependencies` nor a `Task` adds no dependency, gives no error and is not
descended into, whatever its fields hold; a `Resource` that is a
`HasDependencies` adds exactly the answer of its `GetDependencies(tasks)`. -/
theorem getDependencies_resource (Γ : TypeEnv) (tasks : TaskSet) (p : FieldPath)
    (typ : String) (addr : Nat) (fields : List (String × Value)) (s : List Object)
    (hp : p.IsEmpty = false) (hr : (Γ typ).isResource = true) :
    ((Γ typ).GetDependencies = none → (Γ typ).isTask = false →
        walk Γ tasks p (.struct typ addr fields) s = (s, none)) ∧
      (∀ hd, (Γ typ).GetDependencies = some hd →
        walk Γ tasks p (.struct typ addr fields) s
          = (s ++ hd ⟨typ, addr, fields⟩ tasks, none)) :=
  ⟨fun h ht => walk_struct_resource Γ tasks hp addr fields s h ht hr,
    fun _ h => walk_struct_hd Γ tasks hp addr fields s h⟩

/-- The resource `cert` points to `net` and adds nothing; the resource
`userData` declares `sub`, to which it points. -/
theorem getDependencies_resource_witness :
    FieldPath.IsEmpty ["Cert"] = false ∧
      (exampleEnv "StringResource").isResource = true ∧
      walk exampleEnv netSubVm ["Cert"] cert [] = ([], none) ∧
      reflectForDependencies exampleEnv netSubVm withResources = .ok [sub] :=
  ⟨rfl, rfl,
    (getDependencies_resource exampleEnv netSubVm ["Cert"] "StringResource" 10
      [("Owner", .ptr (some net.Elem))] [] rfl rfl).1 rfl rfl,
    rfl⟩

/-- C7: below the top level the visitor asks for `HasDependencies` first, then
for `Task`, then for `Resource`: a struct that is both a `HasDependencies` and a
`Task` adds exactly the answer of its `GetDependencies(tasks)`, not itself, and
its fields are not walked; a struct that is a `Task` and a `Resource` but not a
`HasDependencies` is added as a task. -/
theorem getDependencies_capability_order (Γ : TypeEnv) (tasks : TaskSet) (p : FieldPath)
    (typ : String) (addr : Nat) (fields : List (String × Value)) (s : List Object)
    (hp : p.IsEmpty = false) (ht : (Γ typ).isTask = true) :
    (∀ hd, (Γ typ).GetDependencies = some hd →
        walk Γ tasks p (.struct typ addr fields) s
          = (s ++ hd ⟨typ, addr, fields⟩ tasks, none)) ∧
      ((Γ typ).GetDependencies = none →
        walk Γ tasks p (.struct typ addr fields) s = (s ++ [⟨typ, addr, fields⟩], none)) :=
  ⟨fun _ h => walk_struct_hd Γ tasks hp addr fields s h,
    fun h => walk_struct_task Γ tasks hp addr fields s h ht⟩

/-- The load balancer `lb` is a task that declares `sub`: the task that points
to it depends on `sub`, not on `lb`, and the channel in `lb` is not reached. -/
theorem getDependencies_capability_order_witness :
    FieldPath.IsEmpty ["LoadBalancer"] = false ∧
      (exampleEnv "LoadBalancer").isTask = true ∧
      walk exampleEnv withBehindLb ["LoadBalancer"] lbValue [] = ([] ++ [sub], none) ∧
      FindTaskDependencies exampleEnv withBehindLb
        = .ok [("lb", ["sub"]), ("net", []), ("sub", ["net"]), ("behind", ["sub"])] :=
  ⟨rfl, rfl,
    (getDependencies_capability_order exampleEnv withBehindLb ["LoadBalancer"] "LoadBalancer" 4
      lb.fields [] rfl rfl).1 (fun _ tasks => tasksAt tasks "sub") rfl,
    rfl⟩

/-- C8, as the code has it: structural inference for a task fails whenever the
visitor is handed, from one of the fields of the task, a struct that is none of
`HasDependencies`, `Task` and `Resource` or a value whose kind is none of
primitive, string, interface, pointer, slice, map and struct; it returns a
dependency list exactly when it is handed no such value and no struct without
an address, which is what the value of a map entry and the content of an
interface are and on which `v.Addr()` panics. Where no struct without an address
is met, it ends in `unexpected error finding dependencies` exactly when such a
value is met and returns a list exactly when none is; and it ends in the panic
only when a struct without an address is met. -/
theorem reflectForDependencies_fails_iff_addressable (Γ : TypeEnv) (tasks : TaskSet)
    (task : Object) :
    ((∃ f ∈ task.fields, ∃ w, Meets true f.2 w ∧ unclassifiable Γ w = true) →
        ∀ deps, reflectForDependencies Γ tasks task ≠ .ok deps) ∧
      ((∃ deps, reflectForDependencies Γ tasks task = .ok deps) ↔
        ∀ f ∈ task.fields, ∀ w, Meets true f.2 w →
          unclassifiable Γ w = false ∧ w.hasNoAddress = false) ∧
      ((∀ f ∈ task.fields, ∀ w, Meets true f.2 w → w.hasNoAddress = false) →
        ((∃ err, reflectForDependencies Γ tasks task = .error (.unexpectedError err)) ↔
          ∃ f ∈ task.fields, ∃ w, Meets true f.2 w ∧ unclassifiable Γ w = true) ∧
        ((∃ deps, reflectForDependencies Γ tasks task = .ok deps) ↔
          ∀ f ∈ task.fields, ∀ w, Meets true f.2 w → unclassifiable Γ w = false)) ∧
      (∀ path, reflectForDependencies Γ tasks task = .error (.addrPanic path) →
        ∃ f ∈ task.fields, ∃ w, Meets true f.2 w ∧ w.hasNoAddress = true) := by
  have hok := reflectForDependencies_ok_iff_none_refused Γ tasks task
  have h2 : (∃ deps, reflectForDependencies Γ tasks task = .ok deps) ↔
      ∀ f ∈ task.fields, ∀ w, Meets true f.2 w →
        unclassifiable Γ w = false ∧ w.hasNoAddress = false := by
    rw [hok]
    constructor
    · intro hno f hf w hw
      have hr : refused Γ w = false := by
        cases hrw : refused Γ w with
        | false => rfl
        | true => exact absurd ⟨f, hf, w, hw, hrw⟩ hno
      simpa [refused] using hr
    · rintro hall ⟨f, hf, w, hw, hrw⟩
      obtain ⟨hu, hn⟩ := hall f hf w hw
      simp [refused, hu, hn] at hrw
  have h1 : (∃ f ∈ task.fields, ∃ w, Meets true f.2 w ∧ unclassifiable Γ w = true) →
      ∀ deps, reflectForDependencies Γ tasks task ≠ .ok deps := by
    rintro ⟨f, hf, w, hw, hu⟩ deps hd
    have h := (h2.mp ⟨deps, hd⟩ f hf w hw).1
    rw [hu] at h
    cases h
  refine ⟨h1, h2, fun hadd => ⟨⟨?_, ?_⟩, ?_⟩, fun path h => reflectForDependencies_panic_meets h⟩
  · rintro ⟨err, he⟩
    have hno : ¬ ∃ deps, reflectForDependencies Γ tasks task = .ok deps := by
      rintro ⟨deps, hd⟩
      rw [hd] at he
      cases he
    rw [hok, not_not] at hno
    obtain ⟨f, hf, w, hw, hrw⟩ := hno
    refine ⟨f, hf, w, hw, ?_⟩
    simpa [refused, hadd f hf w hw] using hrw
  · intro hex
    cases hres : reflectForDependencies Γ tasks task with
    | ok deps => exact absurd hres (h1 hex deps)
    | error e =>
      rcases reflectForDependencies_error_kind hres with ⟨err, he⟩ | ⟨path, he⟩
      · exact ⟨err, by rw [he]⟩
      · subst he
        obtain ⟨f, hf, w, hw, hn⟩ := reflectForDependencies_panic_meets hres
        rw [hadd f hf w hw] at hn
        cases hn
  · rw [h2]
    exact ⟨fun h f hf w hw => (h f hf w hw).1, fun h f hf w hw => ⟨h f hf w hw, hadd f hf w hw⟩⟩

/-- The task `withConfig` holds a plain struct behind a pointer in a slice: the
visitor is handed that struct, which has its address, and structural inference
fails and returns no list. -/
theorem reflectForDependencies_fails_iff_addressable_witness :
    (∃ f ∈ withConfig.fields, ∃ w, Meets true f.2 w ∧ unclassifiable exampleEnv w = true) ∧
      reflectForDependencies exampleEnv netSubVm withConfig
        = .error (.unexpectedError (.UnhandledType ["Configs", "0"] "Config")) ∧
      ∀ deps, reflectForDependencies exampleEnv netSubVm withConfig ≠ .ok deps :=
  have hex : ∃ f ∈ withConfig.fields, ∃ w,
      Meets true f.2 w ∧ unclassifiable exampleEnv w = true :=
    ⟨("Configs", .slice [.ptr (some config)]), by simp [withConfig], config,
      Meets.slice (List.mem_singleton.mpr rfl) (Meets.ptr (Meets.self true config)), rfl⟩
  ⟨hex, rfl, (reflectForDependencies_fails_iff_addressable exampleEnv netSubVm withConfig).1 hex⟩

/-- Against C8 as stated: the field `ByName` of the task `byName` is a map whose
value is a `Network` struct, and `Network` is a `Task`, so that every value the
walk gets to is of a shape that the rules of the visitor cover; structural
inference returns no list but ends in the panic of `v.Addr()`, as it does for
the task `byValue`, which holds the struct in an interface. -/
theorem reflectForDependencies_panics_on_map_value :
    (∀ f ∈ byName.fields, ∀ w, Reaches f.2 w → unclassifiable exampleEnv w = false) ∧
      reflectForDependencies exampleEnv netSubVm byName
        = .error (.addrPanic ["ByName", "a"]) ∧
      reflectForDependencies exampleEnv netSubVm byValue = .error (.addrPanic ["Any"]) ∧
      ¬ ∀ (Γ : TypeEnv) (tasks : TaskSet) (task : Object),
        ((∃ deps, reflectForDependencies Γ tasks task = .ok deps) ↔
          ∀ f ∈ task.fields, ∀ w, Reaches f.2 w → unclassifiable Γ w = false) := by
  have hreach : ∀ f ∈ byName.fields, ∀ w, Reaches f.2 w →
      unclassifiable exampleEnv w = false := by
    intro f hf w hw
    simp only [byName, List.mem_singleton] at hf
    subst hf
    cases hw with
    | self => rfl
    | map hkv hr =>
      simp only [List.mem_singleton] at hkv
      subst hkv
      cases hr
      rfl
  refine ⟨hreach, rfl, rfl, fun hall => ?_⟩
  obtain ⟨deps, hd⟩ := (hall exampleEnv netSubVm byName).mpr hreach
  have hp : reflectForDependencies exampleEnv netSubVm byName
      = .error (.addrPanic ["ByName", "a"]) := rfl
  rw [hp] at hd
  cases hd

/-- The task `withConfig` reaches a plain struct and the task `withFunc` holds a
func: structural inference fails for both. -/
theorem reflectForDependencies_fails_examples :
    reflectForDependencies exampleEnv netSubVm withConfig
        = .error (.unexpectedError (.UnhandledType ["Configs", "0"] "Config")) ∧
      reflectForDependencies exampleEnv netSubVm withFunc
        = .error (.unexpectedError (.UnhandledKind ["Hook"] .Func)) :=
  ⟨rfl, rfl⟩

theorem forall₂_mem_left {α β : Type} {R : α → β → Prop} {as : List α} {bs : List β}
    (h : List.Forall₂ R as bs) {a : α} (ha : a ∈ as) : ∃ b ∈ bs, R a b := by
  induction h with
  | nil => simp at ha
  | cons hab _ ih =>
    rcases List.mem_cons.mp ha with h1 | h1
    · subst h1
      exact ⟨_, by simp, hab⟩
    · obtain ⟨b, hb, hr⟩ := ih h1
      exact ⟨b, List.mem_cons_of_mem _ hb, hr⟩

theorem resolveDependencies_error_kind {Γ : TypeEnv} {tasks : TaskSet} {task : Object}
    {e : Fatal} (h : resolveDependencies Γ tasks task = .error e) :
    (∃ err, e = .unexpectedError err) ∨ ∃ path, e = .addrPanic path := by
  unfold resolveDependencies at h
  cases hg : (Γ task.typ).GetDependencies with
  | some hd => simp [hg] at h
  | none =>
    simp only [hg] at h
    exact reflectForDependencies_error_kind h

theorem taskToId_none_iff (tasks : TaskSet) (i : Ident) :
    mapGet (buildTaskToId tasks []) i = none ↔ ∀ kt ∈ tasks, kt.2.ident ≠ i := by
  rw [buildTaskToId_none_iff]
  simp [mapGet]

theorem edgesLoop_append (Γ : TypeEnv) (tasks : TaskSet) (m : List (Ident × String))
    (pre rest : TaskSet) (edges : List (String × List String)) :
    edgesLoop Γ tasks m (pre ++ rest) edges
      = match edgesLoop Γ tasks m pre edges with
        | .ok e1 => edgesLoop Γ tasks m rest e1
        | .error e => .error e := by
  induction pre generalizing edges with
  | nil => rfl
  | cons hd tl ih =>
    obtain ⟨k, t⟩ := hd
    simp only [List.cons_append, edgesLoop]
    cases resolveDependencies Γ tasks t with
    | error e => rfl
    | ok deps =>
      simp only []
      cases dependencyKeysLoop m deps [] with
      | error e => rfl
      | ok ks => exact ih _

theorem dependencyKeysLoop_foreign {m : List (Ident × String)} {deps : List Object}
    (acc : List String) (h : ∃ d ∈ deps, mapGet m d.ident = none) :
    ∃ d ∈ deps, mapGet m d.ident = none ∧
      dependencyKeysLoop m deps acc = .error (.dependencyNotFound d.ident) := by
  cases hres : dependencyKeysLoop m deps acc with
  | ok ks =>
    obtain ⟨d, hd, hnone⟩ := h
    obtain ⟨l, _, hf⟩ := dependencyKeysLoop_ok hres
    obtain ⟨key, _, hget⟩ := forall₂_mem_left hf hd
    rw [hnone] at hget
    cases hget
  | error e =>
    obtain ⟨d, hd, hnone, he⟩ := dependencyKeysLoop_error hres
    exact ⟨d, hd, hnone, by rw [he]⟩

/-- C9, as the code has it: if the dependencies resolved for a task of the set
include an object that is not a value of the set, `FindTaskDependencies` returns
no edge map; it ends in `dependency not found` for such an object once its
second loop gets to that task, which it does unless a task that the loop handles
before has ended it, and so whenever the dependencies of every task are
resolved. If every resolved dependency is a value of the set, it does not end in
`dependency not found`. -/
theorem FindTaskDependencies_dependency_not_found (Γ : TypeEnv) (tasks : TaskSet) :
    ((∃ kt ∈ tasks, ∃ deps, resolveDependencies Γ tasks kt.2 = .ok deps ∧
          ∃ d ∈ deps, ∀ kt2 ∈ tasks, kt2.2.ident ≠ d.ident) →
        (∀ edges, FindTaskDependencies Γ tasks ≠ .ok edges) ∧
        ((∀ kt ∈ tasks, ∃ deps, resolveDependencies Γ tasks kt.2 = .ok deps) →
          ∃ kt ∈ tasks, ∃ deps, resolveDependencies Γ tasks kt.2 = .ok deps ∧
            ∃ d ∈ deps, (∀ kt2 ∈ tasks, kt2.2.ident ≠ d.ident) ∧
              FindTaskDependencies Γ tasks = .error (.dependencyNotFound d.ident))) ∧
      (∀ (before after : TaskSet) (k : String) (t : Object) (deps : List Object),
        tasks = before ++ (k, t) :: after →
        (∃ edges, edgesLoop Γ tasks (buildTaskToId tasks []) before [] = .ok edges) →
        resolveDependencies Γ tasks t = .ok deps →
        (∃ d ∈ deps, ∀ kt2 ∈ tasks, kt2.2.ident ≠ d.ident) →
        ∃ d ∈ deps, (∀ kt2 ∈ tasks, kt2.2.ident ≠ d.ident) ∧
          FindTaskDependencies Γ tasks = .error (.dependencyNotFound d.ident)) ∧
      ((∀ kt ∈ tasks, ∀ deps, resolveDependencies Γ tasks kt.2 = .ok deps →
          ∀ d ∈ deps, ∃ kt2 ∈ tasks, kt2.2.ident = d.ident) →
        ∀ i, FindTaskDependencies Γ tasks ≠ .error (.dependencyNotFound i)) := by
  have hnot : (∃ kt ∈ tasks, ∃ deps, resolveDependencies Γ tasks kt.2 = .ok deps ∧
      ∃ d ∈ deps, ∀ kt2 ∈ tasks, kt2.2.ident ≠ d.ident) →
      ∀ edges, FindTaskDependencies Γ tasks ≠ .ok edges := by
    rintro ⟨⟨k, t⟩, hkt, deps, hr, d, hd, hforeign⟩ edges hok
    obtain ⟨deps2, ks, hr2, hks, _⟩ := edgesLoop_entry hok hkt
    rw [hr] at hr2
    cases hr2
    obtain ⟨l, _, hf⟩ := dependencyKeysLoop_ok hks
    obtain ⟨key, _, hget⟩ := forall₂_mem_left hf hd
    rw [(taskToId_none_iff tasks d.ident).mpr hforeign] at hget
    cases hget
  refine ⟨fun hex => ⟨hnot hex, fun hall => ?_⟩, ?_, fun hall i herr => ?_⟩
  · cases hres : FindTaskDependencies Γ tasks with
    | ok edges => exact absurd hres (hnot hex edges)
    | error e =>
      obtain ⟨kt, hkt, h1 | ⟨deps, hr, hks⟩⟩ := edgesLoop_error hres
      · obtain ⟨deps, hr⟩ := hall kt hkt
        rw [hr] at h1
        cases h1
      · obtain ⟨d, hd, hnone, he⟩ := dependencyKeysLoop_error hks
        exact ⟨kt, hkt, deps, hr, d, hd, (taskToId_none_iff tasks d.ident).mp hnone, by rw [he]⟩
  · rintro before after k t deps htasks ⟨edges, hpre⟩ hr ⟨d, hd, hforeign⟩
    obtain ⟨d2, hd2, hnone, hks⟩ := @dependencyKeysLoop_foreign (buildTaskToId tasks []) deps []
      ⟨d, hd, (taskToId_none_iff tasks d.ident).mpr hforeign⟩
    refine ⟨d2, hd2, (taskToId_none_iff tasks d2.ident).mp hnone, ?_⟩
    show edgesLoop Γ tasks (buildTaskToId tasks []) tasks [] = _
    conv => lhs; arg 4; rw [htasks]
    rw [edgesLoop_append, hpre]
    simp only [edgesLoop, hr, hks]
  · obtain ⟨kt, hkt, h1 | ⟨deps, hr, hks⟩⟩ := edgesLoop_error herr
    · rcases resolveDependencies_error_kind h1 with ⟨err, he⟩ | ⟨path, he⟩ <;> cases he
    · obtain ⟨d, hd, hnone, _⟩ := dependencyKeysLoop_error hks
      obtain ⟨kt2, hkt2, hid⟩ := hall kt hkt deps hr d hd
      exact (taskToId_none_iff tasks d.ident).mp hnone kt2 hkt2 hid

/-- The task `orphan` points to a network that is not in the set:
`FindTaskDependencies` ends in `dependency not found` for that network. -/
theorem FindTaskDependencies_dependency_not_found_witness :
    (∃ kt ∈ withOrphan, ∃ deps, resolveDependencies exampleEnv withOrphan kt.2 = .ok deps ∧
        ∃ d ∈ deps, ∀ kt2 ∈ withOrphan, kt2.2.ident ≠ d.ident) ∧
      FindTaskDependencies exampleEnv withOrphan = .error (.dependencyNotFound ("Network", 99)) ∧
      ∀ edges, FindTaskDependencies exampleEnv withOrphan ≠ .ok edges :=
  have hex : ∃ kt ∈ withOrphan, ∃ deps,
      resolveDependencies exampleEnv withOrphan kt.2 = .ok deps ∧
        ∃ d ∈ deps, ∀ kt2 ∈ withOrphan, kt2.2.ident ≠ d.ident :=
    ⟨("orphan", orphan), by simp [withOrphan], [stray], rfl, stray, by simp, by
      intro kt2 h2
      simp only [withOrphan, List.mem_cons, List.mem_singleton, List.not_mem_nil,
        or_false] at h2
      rcases h2 with h | h <;> subst h <;> decide⟩
  ⟨hex, rfl, ((FindTaskDependencies_dependency_not_found exampleEnv withOrphan).1 hex).1⟩

/-- Against C9 as stated: the task `orphan` resolves to the network `stray`,
which is not a value of the set, and `FindTaskDependencies` does not end in
`dependency not found`: its loop handles the task `withFunc` first and ends in
the failure of structural inference for it. -/
theorem FindTaskDependencies_fails_before_dependency_not_found :
    resolveDependencies exampleEnv funcThenOrphan orphan = .ok [stray] ∧
      (∀ kt ∈ funcThenOrphan, kt.2.ident ≠ stray.ident) ∧
      FindTaskDependencies exampleEnv funcThenOrphan
        = .error (.unexpectedError (.UnhandledKind ["Hook"] .Func)) ∧
      ¬ ∀ (Γ : TypeEnv) (tasks : TaskSet),
        (∃ kt ∈ tasks, ∃ deps, resolveDependencies Γ tasks kt.2 = .ok deps ∧
          ∃ d ∈ deps, ∀ kt2 ∈ tasks, kt2.2.ident ≠ d.ident) →
        ∃ i, FindTaskDependencies Γ tasks = .error (.dependencyNotFound i) := by
  have hforeign : ∀ kt ∈ funcThenOrphan, kt.2.ident ≠ stray.ident := by
    intro kt h
    simp only [funcThenOrphan, List.mem_cons, List.mem_singleton, List.not_mem_nil,
      or_false] at h
    rcases h with h | h <;> subst h <;> decide
  refine ⟨rfl, hforeign, rfl, fun hall => ?_⟩
  obtain ⟨i, hi⟩ := hall exampleEnv funcThenOrphan
    ⟨("orphan", orphan), by simp [funcThenOrphan], [stray], rfl, stray, by simp, hforeign⟩
  have hres : FindTaskDependencies exampleEnv funcThenOrphan
      = .error (.unexpectedError (.UnhandledKind ["Hook"] .Func)) := rfl
  rw [hres] at hi
  cases hi

theorem reflectElems_task_pointers (Γ : TypeEnv) (tasks : TaskSet) (p : FieldPath)
    (ts : List Object)
    (hts : ∀ o ∈ ts, (Γ o.typ).GetDependencies = none ∧ (Γ o.typ).isTask = true)
    (i : Nat) (s : List Object) :
    reflectElems (visitor Γ tasks) ⟨true⟩ p i (ts.map (fun o => .ptr (some o.Elem))) s
      = (s ++ ts, none) := by
  induction ts generalizing i s with
  | nil => simp [reflectElems_nil]
  | cons o rest ih =>
    obtain ⟨h, ht⟩ := hts o (by simp)
    rw [List.map_cons, reflectElems_cons, walk_ptr]
    show andThen (walk Γ tasks _ (.struct o.typ o.addr o.fields) s) _ = _
    rw [walk_struct_task Γ tasks (extend_not_empty _ _) o.addr o.fields s h ht, andThen_ok,
      ih (fun o2 h2 => hts o2 (List.mem_cons_of_mem _ h2))]
    simp

theorem reflectChildrenOf_task_pointers (Γ : TypeEnv) (tasks : TaskSet) (c : Bool)
    (p : FieldPath) (kvs : List (String × Object))
    (hts : ∀ kv ∈ kvs, (Γ kv.2.typ).GetDependencies = none ∧ (Γ kv.2.typ).isTask = true)
    (s : List Object) :
    reflectChildrenOf (visitor Γ tasks) ⟨true⟩ c p
        (kvs.map (fun kv => (kv.1, .ptr (some kv.2.Elem)))) s
      = (s ++ kvs.map Prod.snd, none) := by
  induction kvs generalizing s with
  | nil => simp [reflectChildrenOf_nil]
  | cons kv rest ih =>
    obtain ⟨h, ht⟩ := hts kv (by simp)
    rw [List.map_cons, reflectChildrenOf_cons,
      walkAt_of_not_struct Γ tasks c _ (.ptr (some kv.2.Elem)) rfl, walk_ptr]
    show andThen (walk Γ tasks _ (.struct kv.2.typ kv.2.addr kv.2.fields) s) _ = _
    rw [walk_struct_task Γ tasks (extend_not_empty _ _) kv.2.addr kv.2.fields s h ht,
      andThen_ok, ih (fun o2 h2 => hts o2 (List.mem_cons_of_mem _ h2))]
    simp

theorem reflectChildren_task_pointers (Γ : TypeEnv) (tasks : TaskSet) (p : FieldPath)
    (kvs : List (String × Object))
    (hts : ∀ kv ∈ kvs, (Γ kv.2.typ).GetDependencies = none ∧ (Γ kv.2.typ).isTask = true)
    (s : List Object) :
    reflectChildren (visitor Γ tasks) ⟨true⟩ p
        (kvs.map (fun kv => (kv.1, .ptr (some kv.2.Elem)))) s
      = (s ++ kvs.map Prod.snd, none) :=
  reflectChildrenOf_task_pointers Γ tasks true p kvs hts s

/-- C10: below the top level the walk goes through pointers, interfaces, slices
and maps. The walk of a non-nil pointer is the walk of its target, and so is the
walk of a non-nil interface whose content is not a struct; a task, which is a
pointer to its struct, is found as the same dependency whether the walk meets
its struct directly, behind the pointer or behind an interface holding the
pointer; a slice or a map of pointers to tasks gives exactly these tasks, in
order; a nil pointer, a nil interface, an empty slice and an empty map give no
dependency and no error. A struct that an interface or a map holds by value is
no reference to a task: on it the walk ends in the panic of `v.Addr()`. -/
theorem getDependencies_transparent_containers (Γ : TypeEnv) (tasks : TaskSet)
    (p : FieldPath) (s : List Object) (kvs : List (String × Object))
    (hp : p.IsEmpty = false)
    (hts : ∀ kv ∈ kvs, (Γ kv.2.typ).GetDependencies = none ∧ (Γ kv.2.typ).isTask = true) :
    (∀ v, walk Γ tasks p (.ptr (some v)) s = walk Γ tasks p v s) ∧
      (∀ v, v.isStruct = false → walk Γ tasks p (.iface (some v)) s = walk Γ tasks p v s) ∧
      (∀ kv ∈ kvs, walk Γ tasks p kv.2.Elem s = (s ++ [kv.2], none) ∧
        walk Γ tasks p (.ptr (some kv.2.Elem)) s = (s ++ [kv.2], none) ∧
        walk Γ tasks p (.iface (some (.ptr (some kv.2.Elem)))) s = (s ++ [kv.2], none)) ∧
      walk Γ tasks p (.slice (kvs.map (fun kv => .ptr (some kv.2.Elem)))) s
        = (s ++ kvs.map Prod.snd, none) ∧
      walk Γ tasks p (.map (kvs.map (fun kv => (kv.1, .ptr (some kv.2.Elem))))) s
        = (s ++ kvs.map Prod.snd, none) ∧
      walk Γ tasks p (.ptr none) s = (s, none) ∧
      walk Γ tasks p (.iface none) s = (s, none) ∧
      walk Γ tasks p (.slice []) s = (s, none) ∧
      walk Γ tasks p (.map []) s = (s, none) ∧
      (∀ typ addr fields,
        walk Γ tasks p (.iface (some (.struct typ addr fields))) s
          = (s, some (.AddrOfUnaddressable p)) ∧
        ∀ key, walk Γ tasks p (.map [(key, .struct typ addr fields)]) s
          = (s, some (.AddrOfUnaddressable (p.Extend key)))) := by
  have hdirect : ∀ kv ∈ kvs, walk Γ tasks p kv.2.Elem s = (s ++ [kv.2], none) :=
    fun kv hkv => walk_struct_task Γ tasks hp kv.2.addr kv.2.fields s (hts kv hkv).1
      (hts kv hkv).2
  refine ⟨fun _ => rfl, fun v hv => ?_, fun kv hkv => ⟨hdirect kv hkv, ?_, ?_⟩, ?_, ?_, rfl, rfl,
    rfl, rfl, fun typ addr fields => ⟨?_, fun key => ?_⟩⟩
  · rw [walk_iface, walkAt_of_not_struct Γ tasks false p v hv]
  · rw [walk_ptr, hdirect kv hkv]
  · rw [walk_iface, walkAt_of_not_struct Γ tasks false p (.ptr (some kv.2.Elem)) rfl, walk_ptr,
      hdirect kv hkv]
  · rw [walk_slice]
    have h := reflectElems_task_pointers Γ tasks p (kvs.map Prod.snd)
      (fun o ho => by
        obtain ⟨kv, hkv, rfl⟩ := List.mem_map.mp ho
        exact hts kv hkv) 0 s
    rw [List.map_map] at h
    exact h
  · rw [walk_map]
    exact reflectChildrenOf_task_pointers Γ tasks false p kvs hts s
  · rw [walk_iface, walkAt_false_struct Γ tasks hp]
  · rw [walk_map, reflectChildrenOf_cons, walkAt_false_struct Γ tasks (extend_not_empty _ _)]
    rfl

/-- The task `cluster` refers to `net` behind an interface, to `sub` in a slice
and to `vm` in a map: these three are its dependencies, and its nil pointer,
empty slice and empty map add nothing. -/
theorem getDependencies_transparent_containers_witness :
    FieldPath.IsEmpty ["Subnets"] = false ∧
      (∀ kv ∈ [("a", sub), ("b", vm)],
        (exampleEnv kv.2.typ).GetDependencies = none ∧ (exampleEnv kv.2.typ).isTask = true) ∧
      walk exampleEnv withCluster ["Subnets"]
          (.slice [.ptr (some sub.Elem), .ptr (some vm.Elem)]) [net]
        = ([net, sub, vm], none) ∧
      FindTaskDependencies exampleEnv withCluster
        = .ok [("net", []), ("sub", ["net"]), ("vm", ["sub"]),
            ("cluster", ["net", "sub", "vm"])] :=
  have hts : ∀ kv ∈ [("a", sub), ("b", vm)],
      (exampleEnv kv.2.typ).GetDependencies = none ∧ (exampleEnv kv.2.typ).isTask = true := by
    intro kv hkv
    simp only [List.mem_cons, List.mem_singleton, List.not_mem_nil, or_false] at hkv
    rcases hkv with h | h <;> subst h <;> exact ⟨rfl, rfl⟩
  ⟨rfl, hts,
    (getDependencies_transparent_containers exampleEnv withCluster ["Subnets"] [net]
      [("a", sub), ("b", vm)] rfl hts).2.2.2.1,
    rfl⟩

/-! ## Claims on the top level, the marker type and repeated dependencies -/

theorem reflectElems_all_ok (Γ : TypeEnv) (tasks : TaskSet) (p : FieldPath) (i : Nat)
    (es : List Value) (s : List Object)
    (h : ∀ e ∈ es, ∀ (q : FieldPath), walk Γ tasks q e s = (s, none)) :
    reflectElems (visitor Γ tasks) ⟨true⟩ p i es s = (s, none) := by
  induction es generalizing i with
  | nil => rfl
  | cons hd tl ih =>
    rw [reflectElems_cons, h hd (by simp), andThen_ok]
    exact ih _ (fun e he => h e (List.mem_cons_of_mem _ he))

theorem unclassifiable_leaf (Γ : TypeEnv) (k : Leaf) :
    unclassifiable Γ (.leaf k) = !IsPrimitiveValue (.leaf k) := by
  cases k <;> rfl

/-- A value from which the walk gets to no struct and to no value of an
unhandled kind adds no dependency and gives no error, with an address or
without. -/
theorem walkAt_no_struct (Γ : TypeEnv) (tasks : TaskSet) (v : Value) :
    (∀ w, Reaches v w → w.isStruct = false ∧ unclassifiable Γ w = false) →
      ∀ (c : Bool) (p : FieldPath) (s : List Object), walkAt Γ tasks c p v s = (s, none) := by
  induction v using Value.induct with
  | leaf k =>
    intro h c p s
    have h1 := (h _ (Reaches.self _)).2
    rw [unclassifiable_leaf] at h1
    rw [walkAt_of_not_struct Γ tasks c p (.leaf k) rfl, walk_leaf]
    cases hk : IsPrimitiveValue (.leaf k) with
    | true => rfl
    | false => simp [hk] at h1
  | str x => exact fun _ _ _ _ => rfl
  | ifaceNil => exact fun _ _ _ _ => rfl
  | iface e ih =>
    intro h c p s
    rw [walkAt_of_not_struct Γ tasks c p (.iface (some e)) rfl, walk_iface]
    exact ih (fun w hw => h w (Reaches.iface hw)) false p s
  | ptrNil => exact fun _ _ _ _ => rfl
  | ptr e ih =>
    intro h c p s
    rw [walkAt_of_not_struct Γ tasks c p (.ptr (some e)) rfl, walk_ptr]
    exact ih (fun w hw => h w (Reaches.ptr hw)) true p s
  | slice es ih =>
    intro h c p s
    rw [walkAt_of_not_struct Γ tasks c p (.slice es) rfl, walk_slice]
    exact reflectElems_all_ok Γ tasks p 0 es s
      (fun e he q => ih e he (fun w hw => h w (Reaches.slice he hw)) true q s)
  | map kvs ih =>
    intro h c p s
    rw [walkAt_of_not_struct Γ tasks c p (.map kvs) rfl, walk_map]
    exact reflectChildrenOf_all_ok Γ tasks false p kvs s
      (fun kv hkv => ih kv hkv (fun w hw => h w (Reaches.map hkv hw)) false _ s)
  | struct typ addr fields _ =>
    intro h
    have h1 := (h _ (Reaches.self _)).1
    simp [Value.isStruct] at h1
  | unaddr typ fields _ =>
    intro h
    have h1 := (h _ (Reaches.self _)).1
    simp [Value.isStruct] at h1

/-- A value from which the walk gets to no struct and to no value of an
unhandled kind adds no dependency and gives no error. -/
theorem walk_no_struct (Γ : TypeEnv) (tasks : TaskSet) (v : Value)
    (h : ∀ w, Reaches v w → w.isStruct = false ∧ unclassifiable Γ w = false)
    (p : FieldPath) (s : List Object) : walk Γ tasks p v s = (s, none) :=
  walkAt_no_struct Γ tasks v h true p s

/-- C11: at the top level the visitor neither adds the task's own struct nor
answers with an error, whatever the type of the task, and the walk goes on into
the fields; a task none of whose fields gets to a struct or to a value of an
unhandled kind, such as a task without fields, has no dependencies, so that its
entry is the empty list, in which its own key does not occur. -/
theorem getDependencies_ignores_self (Γ : TypeEnv) (tasks : TaskSet) (task : Object)
    (hf : ∀ f ∈ task.fields, ∀ w, Reaches f.2 w →
      w.isStruct = false ∧ unclassifiable Γ w = false) :
    (∀ s, visitor Γ tasks [] task.Elem s = (s, none)) ∧
      (∀ s, walk Γ tasks [] task.Elem s
        = reflectChildren (visitor Γ tasks) ⟨true⟩ [] task.fields s) ∧
      reflectForDependencies Γ tasks task = .ok [] ∧
      ∀ (edges : List (String × List String)) (k : String), (tasks.map Prod.fst).Nodup →
        (k, task) ∈ tasks → (Γ task.typ).GetDependencies = none →
        FindTaskDependencies Γ tasks = .ok edges →
        mapGet edges k = some [] ∧ ∀ ks, mapGet edges k = some ks → k ∉ ks := by
  have h1 : reflectForDependencies Γ tasks task = .ok [] := by
    show getDependencies Γ tasks (.struct task.typ task.addr task.fields) = _
    rw [getDependencies_struct, reflectChildren_all_ok]
    exact fun f hmem => walk_no_struct Γ tasks f.2 (hf f hmem) _ _
  refine ⟨fun _ => rfl, fun _ => rfl, h1, fun edges k hnd hkt hhd hfind => ?_⟩
  obtain ⟨deps, ks, hr, hks, hget⟩ := edgesLoop_entry hfind hkt
  have h2 : resolveDependencies Γ tasks task = .ok [] := by
    simp [resolveDependencies, hhd, h1]
  rw [h2] at hr
  cases hr
  simp only [dependencyKeysLoop, Except.ok.injEq] at hks
  have h3 : mapGet edges k = some [] := by rw [hget hnd, hks]
  refine ⟨h3, fun ks2 h4 => ?_⟩
  rw [h3] at h4
  cases h4
  simp

/-- The task `bare` has no fields: its entry is the empty list; the top-level
struct of `sub` is not added although `Subnet` is a task type, and its field is
walked. -/
theorem getDependencies_ignores_self_witness :
    (∀ f ∈ bare.fields, ∀ w, Reaches f.2 w →
        w.isStruct = false ∧ unclassifiable exampleEnv w = false) ∧
      (withBare.map Prod.fst).Nodup ∧
      FindTaskDependencies exampleEnv withBare
        = .ok [("bare", []), ("flat", []), ("net", []), ("sub", ["net"])] ∧
      (mapGet [("bare", ([] : List String)), ("flat", []), ("net", []), ("sub", ["net"])] "bare"
          = some [] ∧
        ∀ ks, mapGet [("bare", ([] : List String)), ("flat", []), ("net", []), ("sub", ["net"])]
          "bare" = some ks → "bare" ∉ ks) ∧
      walk exampleEnv withBare [] sub.Elem [] = ([net], none) :=
  have hf : ∀ f ∈ bare.fields, ∀ w, Reaches f.2 w →
      w.isStruct = false ∧ unclassifiable exampleEnv w = false := by
    intro f hmem
    simp [bare] at hmem
  ⟨hf, by decide, rfl,
    (getDependencies_ignores_self exampleEnv withBare bare hf).2.2.2 _ "bare" (by decide)
      (by simp [withBare]) rfl rfl,
    rfl⟩

/-- C12: `NotADependency.GetDependencies` returns no task for every task map,
and so a struct of type `NotADependency` below the top level adds no dependency,
is not descended into, whatever its fields hold, and gives no error. -/
theorem NotADependency_no_dependency (Γ : TypeEnv) (tasks : TaskSet) (p : FieldPath)
    (addr : Nat) (fields : List (String × Value)) (s : List Object)
    (hp : p.IsEmpty = false)
    (hΓ : (Γ "NotADependency").GetDependencies = some NotADependency.GetDependencies) :
    (∀ o ts, NotADependency.GetDependencies o ts = []) ∧
      walk Γ tasks p (.struct "NotADependency" addr fields) s = (s, none) := by
  refine ⟨fun _ _ => rfl, ?_⟩
  rw [walk_struct_hd Γ tasks hp addr fields s hΓ]
  simp [NotADependency.GetDependencies]

/-- The marker in the task `marked` points to `net` and holds a channel: the
task depends on `sub` alone. -/
theorem NotADependency_no_dependency_witness :
    FieldPath.IsEmpty ["NotADependency"] = false ∧
      (markerEnv "NotADependency").GetDependencies = some NotADependency.GetDependencies ∧
      walk markerEnv netSubVm ["NotADependency"] marker [] = ([], none) ∧
      reflectForDependencies markerEnv netSubVm marked = .ok [sub] :=
  ⟨rfl, rfl,
    (NotADependency_no_dependency markerEnv netSubVm ["NotADependency"] 30
      [("Hidden", .ptr (some net.Elem)), ("Done", .leaf .Chan)] [] rfl rfl).2,
    rfl⟩

theorem forall₂_nodup_iff {α β : Type} {R : α → β → Prop} {as : List α} {bs : List β}
    (h : List.Forall₂ R as bs)
    (hfun : ∀ a b1 b2, R a b1 → R a b2 → b1 = b2)
    (hinj : ∀ a1 a2 b, R a1 b → R a2 b → a1 = a2) : bs.Nodup ↔ as.Nodup := by
  induction h with
  | nil => simp
  | @cons a b as1 bs1 hab hrest ih =>
    rw [List.nodup_cons, List.nodup_cons, ih]
    have hmem : b ∈ bs1 ↔ a ∈ as1 := by
      constructor
      · intro hb
        obtain ⟨a2, ha2, hr⟩ := forall₂_mem_right hrest hb
        rw [hinj a a2 b hab hr]
        exact ha2
      · intro ha
        obtain ⟨b2, hb2, hr⟩ := forall₂_mem_left hrest ha
        rw [hfun a b b2 hab hr]
        exact hb2
    rw [hmem]

theorem forall₂_map_left {α β γ : Type} {R : γ → β → Prop} (f : α → γ) {as : List α}
    {bs : List β} (h : List.Forall₂ (fun a b => R (f a) b) as bs) :
    List.Forall₂ R (as.map f) bs := by
  induction h with
  | nil => exact List.Forall₂.nil
  | cons hab _ ih => exact List.Forall₂.cons hab ih

theorem taskToId_injective {tasks : TaskSet} (hnd : (tasks.map Prod.fst).Nodup)
    {i1 i2 : Ident} {key : String} (h1 : mapGet (buildTaskToId tasks []) i1 = some key)
    (h2 : mapGet (buildTaskToId tasks []) i2 = some key) : i1 = i2 := by
  rcases buildTaskToId_get h1 with h | ⟨t1, ht1, hi1⟩
  · simp [mapGet] at h
  rcases buildTaskToId_get h2 with h | ⟨t2, ht2, hi2⟩
  · simp [mapGet] at h
  have hinj := List.inj_on_of_nodup_map hnd ht1 ht2 rfl
  have ht : t1 = t2 := (Prod.mk.inj hinj).2
  rw [← hi1, ← hi2, ht]

/-- C16, as the code has it: the dependency list of a task holds one key for
each dependency that was resolved, in order, and a dependency is resolved once
for each reference: below the top level every struct that is a task adds itself
and every struct that is a `HasDependencies` adds its whole answer, whatever was
found before, so that a task with pointers to tasks in its fields has one key
per field and a task with explicit dependencies one key per task of its answer.
A task that is resolved twice has its key in the list twice, and the list is
free of repetitions exactly when the resolved dependencies are pairwise
different objects. -/
theorem FindTaskDependencies_entry_per_dependency (Γ : TypeEnv) (tasks : TaskSet)
    (edges : List (String × List String)) (hnd : (tasks.map Prod.fst).Nodup)
    (h : FindTaskDependencies Γ tasks = .ok edges) (k : String) (t : Object)
    (hkt : (k, t) ∈ tasks) :
    (∃ deps ks, resolveDependencies Γ tasks t = .ok deps ∧ mapGet edges k = some ks ∧
      List.Forall₂ (fun dep key => ∃ t2, (key, t2) ∈ tasks ∧ t2.ident = dep.ident) deps ks ∧
      (ks.Nodup ↔ (deps.map Object.ident).Nodup)) ∧
      (∀ (p : FieldPath) (typ : String) (addr : Nat) (fields : List (String × Value))
        (s : List Object), p.IsEmpty = false →
        (∀ hd, (Γ typ).GetDependencies = some hd →
          walk Γ tasks p (.struct typ addr fields) s
            = (s ++ hd ⟨typ, addr, fields⟩ tasks, none)) ∧
        ((Γ typ).GetDependencies = none → (Γ typ).isTask = true →
          walk Γ tasks p (.struct typ addr fields) s = (s ++ [⟨typ, addr, fields⟩], none))) ∧
      (∀ kvs : List (String × Object), (Γ t.typ).GetDependencies = none →
        t.fields = kvs.map (fun kv => (kv.1, .ptr (some kv.2.Elem))) →
        (∀ kv ∈ kvs, (Γ kv.2.typ).GetDependencies = none ∧ (Γ kv.2.typ).isTask = true) →
        resolveDependencies Γ tasks t = .ok (kvs.map Prod.snd) ∧
          ∃ ks, mapGet edges k = some ks ∧
            List.Forall₂ (fun kv key => ∃ t2, (key, t2) ∈ tasks ∧ t2.ident = kv.2.ident)
              kvs ks) ∧
      (∀ hd, (Γ t.typ).GetDependencies = some hd →
        resolveDependencies Γ tasks t = .ok (hd t tasks) ∧
          ∃ ks, mapGet edges k = some ks ∧
            List.Forall₂ (fun dep key => ∃ t2, (key, t2) ∈ tasks ∧ t2.ident = dep.ident)
              (hd t tasks) ks) := by
  obtain ⟨deps, ks, hr, hks, hget⟩ := edgesLoop_entry h hkt
  obtain ⟨l, hl, hf⟩ := dependencyKeysLoop_ok hks
  simp only [List.nil_append] at hl
  subst hl
  have hkeys : List.Forall₂ (fun dep key => ∃ t2, (key, t2) ∈ tasks ∧ t2.ident = dep.ident)
      deps ks := by
    refine hf.imp (fun d key hg => ?_)
    rcases buildTaskToId_get hg with h5 | ⟨t2, h6, h7⟩
    · simp [mapGet] at h5
    · exact ⟨t2, h6, h7⟩
  refine ⟨⟨deps, ks, hr, hget hnd, hkeys, ?_⟩, fun p typ addr fields s hp => ⟨?_, ?_⟩,
    fun kvs hhd hfields hts => ?_, fun hd hhd => ?_⟩
  · have hf2 : List.Forall₂ (fun i key => mapGet (buildTaskToId tasks []) i = some key)
        (deps.map Object.ident) ks := forall₂_map_left Object.ident hf
    exact forall₂_nodup_iff hf2
      (fun i b1 b2 h1 h2 => by rw [h1] at h2; exact Option.some.inj h2)
      (fun i1 i2 b h1 h2 => taskToId_injective hnd h1 h2)
  · exact fun hd hg => walk_struct_hd Γ tasks hp addr fields s hg
  · exact fun hg ht => walk_struct_task Γ tasks hp addr fields s hg ht
  · have hres : resolveDependencies Γ tasks t = .ok (kvs.map Prod.snd) := by
      unfold resolveDependencies
      rw [hhd]
      show getDependencies Γ tasks (.struct t.typ t.addr t.fields) = _
      rw [getDependencies_struct, hfields, reflectChildren_task_pointers Γ tasks [] kvs hts []]
      rfl
    refine ⟨hres, ks, hget hnd, ?_⟩
    rw [hres] at hr
    cases hr
    exact List.forall₂_map_left_iff.mp hkeys
  · have hres : resolveDependencies Γ tasks t = .ok (hd t tasks) := by
      simp [resolveDependencies, hhd]
    refine ⟨hres, ks, hget hnd, ?_⟩
    rw [hres] at hr
    cases hr
    exact hkeys

/-- The two fields of the task `twice` point to `net`: it resolves to `net`
twice and its list holds the key of `net` twice; the task `both` points to `sub`
and to a load balancer whose answer is `sub`, and its list holds the key of
`sub` twice. -/
theorem FindTaskDependencies_entry_per_dependency_witness :
    (withTwice.map Prod.fst).Nodup ∧
      FindTaskDependencies exampleEnv withTwice
        = .ok [("net", []), ("twice", ["net", "net"])] ∧
      resolveDependencies exampleEnv withTwice twice = .ok [net, net] ∧
      (∃ ks, mapGet [("net", []), ("twice", ["net", "net"])] "twice" = some ks ∧
        List.Forall₂ (fun kv key => ∃ t2, (key, t2) ∈ withTwice ∧ t2.ident = kv.2.ident)
          [("Primary", net), ("Secondary", net)] ks) ∧
      walk exampleEnv withTwice ["Secondary"] net.Elem [net] = ([net, net], none) ∧
      FindTaskDependencies exampleEnv withBoth
        = .ok [("lb", ["sub"]), ("net", []), ("sub", ["net"]), ("both", ["sub", "sub"])] :=
  have hts : ∀ kv ∈ [("Primary", net), ("Secondary", net)],
      (exampleEnv kv.2.typ).GetDependencies = none ∧ (exampleEnv kv.2.typ).isTask = true := by
    intro kv hkv
    simp only [List.mem_cons, List.mem_singleton, List.not_mem_nil, or_false] at hkv
    rcases hkv with h | h <;> subst h <;> exact ⟨rfl, rfl⟩
  have hthm := FindTaskDependencies_entry_per_dependency exampleEnv withTwice
    [("net", []), ("twice", ["net", "net"])] (by decide) rfl "twice" twice (by simp [withTwice])
  ⟨by decide, rfl, (hthm.2.2.1 [("Primary", net), ("Secondary", net)] rfl rfl hts).1,
    (hthm.2.2.1 [("Primary", net), ("Secondary", net)] rfl rfl hts).2,
    ((hthm.2.1 ["Secondary"] "Network" 1 net.fields [net] rfl).2 rfl rfl),
    rfl⟩

/-- Against C16 as stated: the two fields of the task `twice` point to `net`,
`FindTaskDependencies` returns, and the list of `twice` holds `net` twice. -/
theorem FindTaskDependencies_repeats_key :
    FindTaskDependencies exampleEnv withTwice = .ok [("net", []), ("twice", ["net", "net"])] ∧
      ¬ ∀ (Γ : TypeEnv) (tasks : TaskSet) (edges : List (String × List String)),
        (tasks.map Prod.fst).Nodup → FindTaskDependencies Γ tasks = .ok edges →
        ∀ e ∈ edges, e.2.Nodup := by
  refine ⟨rfl, fun hall => ?_⟩
  have h := hall exampleEnv withTwice [("net", []), ("twice", ["net", "net"])] (by decide) rfl
    ("twice", ["net", "net"]) (by simp)
  simp at h

/-! ## Claims on the Graph Builder -/

theorem mapGet_append {κ ν : Type} [DecidableEq κ] (m1 m2 : List (κ × ν)) (k : κ) :
    mapGet (m1 ++ m2) k = match mapGet m1 k with
      | some v => some v
      | none => mapGet m2 k := by
  induction m1 with
  | nil => rfl
  | cons hd tl ih =>
    obtain ⟨k1, v1⟩ := hd
    by_cases h : k1 = k
    · simp [mapGet, h]
    · simp [mapGet, h, ih]

theorem mapGet_placed {ν : Type} (ready : List (String × ν)) (level : Nat) (k : String) :
    mapGet (ready.map (fun e => (e.1, level))) k
      = if k ∈ ready.map Prod.fst then some level else none := by
  induction ready with
  | nil => rfl
  | cons hd tl ih =>
    by_cases h : hd.1 = k
    · simp [mapGet, h]
    · have h2 : ¬ k = hd.1 := fun e => h e.symm
      simp only [List.map_cons, mapGet, h, if_false, ih, List.mem_cons, h2, false_or]

theorem hasLevel_iff (levels : List (String × Nat)) (k : String) :
    hasLevel levels k = true ↔ ∃ l, mapGet levels k = some l := by
  unfold hasLevel
  cases mapGet levels k <;> simp

theorem entry_unique {ν : Type} {edges : List (String × ν)} (hnd : (edges.map Prod.fst).Nodup)
    {e1 e2 : String × ν} (h1 : e1 ∈ edges) (h2 : e2 ∈ edges) (h : e1.1 = e2.1) : e1 = e2 :=
  List.inj_on_of_nodup_map hnd h1 h2 h

/-- In an acyclic graph every non-empty list of tasks has a task that reaches
no task of the list. -/
theorem acyclic_has_min {edges : List (String × List String)} (hac : Acyclic edges)
    (S : List String) (hS : S ≠ []) :
    ∃ m ∈ S, ∀ x ∈ S, ¬ Relation.TransGen (DependsOn edges) m x := by
  let r : String → String → Prop := fun a b => Relation.TransGen (DependsOn edges) b a
  haveI : IsStrictOrder String r :=
    { irrefl := fun a h => hac a h
      trans := fun a b c hab hbc => Relation.TransGen.trans hbc hab }
  have hwf : Set.WellFoundedOn { x | x ∈ S } r := (List.finite_toSet S).wellFoundedOn
  rw [Set.wellFoundedOn_iff] at hwf
  obtain ⟨a, ha⟩ := List.exists_mem_of_ne_nil S hS
  obtain ⟨m, hm, hmin⟩ := hwf.has_min { x | x ∈ S } ⟨a, ha⟩
  exact ⟨m, hm, fun x hx hr => hmin x hx ⟨hr, hx, hm⟩⟩

theorem round_progress {edges : List (String × List String)}
    (hclosed : ∀ e ∈ edges, ∀ d ∈ e.2, d ∈ edges.map Prod.fst) (hac : Acyclic edges)
    {level : Nat} {levels : List (String × Nat)} {remaining : List (String × List String)}
    (inv : RoundInvariant edges level levels remaining) (hne : remaining ≠ []) :
    ∃ e ∈ remaining, isReady levels e = true := by
  obtain ⟨m, hm, hmin⟩ := acyclic_has_min hac (remaining.map Prod.fst) (by simpa using hne)
  obtain ⟨e, he, rfl⟩ := List.mem_map.mp hm
  refine ⟨e, he, ?_⟩
  unfold isReady
  rw [List.all_eq_true]
  intro d hd
  obtain ⟨ed, hed, rfl⟩ := List.mem_map.mp (hclosed e (inv.sub e he) d hd)
  rcases inv.all ed hed with h | h
  · exact absurd (Relation.TransGen.single ⟨e.2, inv.sub e he, hd⟩)
      (hmin ed.1 (List.mem_map.mpr ⟨ed, h, rfl⟩))
  · exact h

theorem round_step {edges : List (String × List String)} (hnd : (edges.map Prod.fst).Nodup)
    {level : Nat} {levels : List (String × Nat)} {remaining : List (String × List String)}
    (inv : RoundInvariant edges level levels remaining) :
    RoundInvariant edges (level + 1)
      (levels ++ (remaining.filter (isReady levels)).map (fun e => (e.1, level)))
      (remaining.filter (fun e => !isReady levels e)) := by
  have hget : ∀ k l, mapGet
      (levels ++ (remaining.filter (isReady levels)).map (fun e => (e.1, level))) k = some l →
      mapGet levels k = some l ∨
        (mapGet levels k = none ∧ l = level ∧
          ∃ e ∈ remaining, isReady levels e = true ∧ e.1 = k) := by
    intro k l h
    rw [mapGet_append] at h
    cases hk : mapGet levels k with
    | some v =>
      rw [hk] at h
      exact Or.inl h
    | none =>
      rw [hk, mapGet_placed] at h
      simp only at h
      split_ifs at h with hmem
      · obtain ⟨e, he, hek⟩ := List.mem_map.mp hmem
        rw [List.mem_filter] at he
        exact Or.inr ⟨rfl, (Option.some.inj h).symm, e, he.1, he.2, hek⟩
  have hkeep : ∀ k l, mapGet levels k = some l → mapGet
      (levels ++ (remaining.filter (isReady levels)).map (fun e => (e.1, level))) k = some l := by
    intro k l h
    rw [mapGet_append, h]
  refine ⟨?_, ?_, ?_, ?_, ?_⟩
  · intro e he
    exact inv.sub e (List.mem_filter.mp he).1
  · intro e he
    rcases inv.all e he with h | h
    · by_cases hr : isReady levels e = true
      · right
        rw [hasLevel_iff]
        cases hk : mapGet levels e.1 with
        | some v => exact ⟨v, hkeep _ _ hk⟩
        | none =>
          refine ⟨level, ?_⟩
          rw [mapGet_append, hk, mapGet_placed]
          simp only
          rw [if_pos]
          exact List.mem_map.mpr ⟨e, List.mem_filter.mpr ⟨h, hr⟩, rfl⟩
      · left
        exact List.mem_filter.mpr ⟨h, by simpa using hr⟩
    · right
      obtain ⟨l, hl⟩ := (hasLevel_iff _ _).mp h
      exact (hasLevel_iff _ _).mpr ⟨l, hkeep _ _ hl⟩
  · intro e he
    obtain ⟨hrem, hnr⟩ := List.mem_filter.mp he
    cases hk : mapGet
        (levels ++ (remaining.filter (isReady levels)).map (fun e => (e.1, level))) e.1 with
    | none => rfl
    | some l =>
      exfalso
      rcases hget _ _ hk with h | ⟨_, _, e2, he2, hr2, hkey⟩
      · rw [inv.fresh e hrem] at h
        cases h
      · have heq := entry_unique hnd (inv.sub e2 he2) (inv.sub e hrem) hkey
        rw [heq] at hr2
        rw [hr2] at hnr
        simp at hnr
  · intro k l h
    rcases hget _ _ h with h1 | ⟨_, h2, _⟩
    · exact Nat.lt_succ_of_lt (inv.below k l h1)
    · rw [h2]
      exact Nat.lt_succ_self level
  · intro e he l h d hd
    rcases hget _ _ h with h1 | ⟨_, h2, e2, he2, hr2, hkey⟩
    · obtain ⟨l2, hl2, hlt⟩ := inv.above e he l h1 d hd
      exact ⟨l2, hkeep _ _ hl2, hlt⟩
    · have heq := entry_unique hnd (inv.sub e2 he2) he hkey
      rw [heq] at hr2
      unfold isReady at hr2
      rw [List.all_eq_true] at hr2
      obtain ⟨l2, hl2⟩ := (hasLevel_iff _ _).mp (hr2 d hd)
      exact ⟨l2, hkeep _ _ hl2, by rw [h2]; exact inv.below d l2 hl2⟩

theorem levelsLoop_ok {edges : List (String × List String)}
    (hnd : (edges.map Prod.fst).Nodup)
    (hclosed : ∀ e ∈ edges, ∀ d ∈ e.2, d ∈ edges.map Prod.fst) (hac : Acyclic edges)
    (fuel : Nat) :
    ∀ (level : Nat) (levels : List (String × Nat)) (remaining : List (String × List String)),
      RoundInvariant edges level levels remaining → remaining.length ≤ fuel →
      ∃ out final, levelsLoop fuel level levels remaining = .ok out ∧
        RoundInvariant edges final out [] := by
  induction fuel with
  | zero =>
    intro level levels remaining inv hlen
    have : remaining = [] := List.length_eq_zero.mp (Nat.le_zero.mp hlen)
    subst this
    exact ⟨levels, level, rfl, inv⟩
  | succ fuel ih =>
    intro level levels remaining inv hlen
    cases hrem : remaining with
    | nil =>
      subst hrem
      exact ⟨levels, level, rfl, inv⟩
    | cons r rest =>
      obtain ⟨e, he, hr⟩ := round_progress hclosed hac inv (by rw [hrem]; simp)
      have hne : (remaining.filter (isReady levels)).isEmpty = false := by
        cases hf : remaining.filter (isReady levels) with
        | nil =>
          have := List.mem_filter.mpr ⟨he, hr⟩
          rw [hf] at this
          simp at this
        | cons _ _ => rfl
      have hshort : (remaining.filter (fun e => !isReady levels e)).length ≤ fuel := by
        have hlt : (remaining.filter (fun e => !isReady levels e)).length < remaining.length :=
          List.length_filter_lt_length_iff_exists.mpr ⟨e, he, by simp [hr]⟩
        omega
      obtain ⟨out, final, hout, hinv⟩ := ih (level + 1) _ _ (round_step hnd inv) hshort
      refine ⟨out, final, ?_, hinv⟩
      rw [hrem] at hne hout
      rw [levelsLoop]
      simp only [hne]
      exact hout

theorem findDangling_none {edges : List (String × List String)}
    (hclosed : ∀ e ∈ edges, ∀ d ∈ e.2, d ∈ edges.map Prod.fst) : findDangling edges = none := by
  unfold findDangling
  rw [List.findSome?_eq_none_iff]
  intro e he
  simp only [Option.map_eq_none', List.find?_eq_none]
  intro d hd
  simpa using hclosed e he d hd

/-- C15: on an acyclic dependency graph over a task set, the Graph Builder ends
with a level for every task, and the level of each task is strictly greater
than the level of each of its dependencies. -/
theorem buildLevels_acyclic (edges : List (String × List String))
    (hnd : (edges.map Prod.fst).Nodup)
    (hclosed : ∀ e ∈ edges, ∀ d ∈ e.2, d ∈ edges.map Prod.fst) (hac : Acyclic edges) :
    ∃ levels, buildLevels edges = .ok levels ∧
      (∀ k ∈ edges.map Prod.fst, ∃ l, mapGet levels k = some l) ∧
      (∀ e ∈ edges, ∀ d ∈ e.2, ∀ lk ld, mapGet levels e.1 = some lk →
        mapGet levels d = some ld → ld < lk) := by
  have inv0 : RoundInvariant edges 0 [] edges :=
    ⟨fun _ h => h, fun _ h => Or.inl h, fun _ _ => rfl,
      fun k l h => by simp [mapGet] at h, fun e _ l h => by simp [mapGet] at h⟩
  obtain ⟨out, final, hout, hinv⟩ :=
    levelsLoop_ok hnd hclosed hac edges.length 0 [] edges inv0 (Nat.le_refl _)
  refine ⟨out, ?_, ?_, ?_⟩
  · simp only [buildLevels, findDangling_none hclosed]
    exact hout
  · intro k hk
    obtain ⟨e, he, rfl⟩ := List.mem_map.mp hk
    rcases hinv.all e he with h | h
    · simp at h
    · exact (hasLevel_iff _ _).mp h
  · intro e he d hd lk ld hlk hld
    obtain ⟨l2, hl2, hlt⟩ := hinv.above e he lk hlk d hd
    rw [hld] at hl2
    cases hl2
    exact hlt

theorem dependsOn_diamond {a b : String} (h : DependsOn diamond a b) :
    (a = "D" ∧ (b = "B" ∨ b = "C")) ∨ ((a = "B" ∨ a = "C") ∧ b = "A") := by
  obtain ⟨ds, hmem, hb⟩ := h
  simp only [diamond, List.mem_cons, Prod.mk.injEq, List.mem_singleton, List.not_mem_nil,
    or_false] at hmem
  rcases hmem with ⟨rfl, rfl⟩ | ⟨rfl, rfl⟩ | ⟨rfl, rfl⟩ | ⟨rfl, rfl⟩ <;> simp_all

theorem diamond_acyclic : Acyclic diamond := by
  have hstep : ∀ a b, DependsOn diamond a b → diamondRank b < diamondRank a := by
    intro a b h
    rcases dependsOn_diamond h with ⟨rfl, rfl | rfl⟩ | ⟨rfl | rfl, rfl⟩ <;> decide
  have htrans : ∀ a b, Relation.TransGen (DependsOn diamond) a b →
      diamondRank b < diamondRank a := by
    intro a b h
    induction h with
    | single h1 => exact hstep _ _ h1
    | tail _ h2 ih => exact Nat.lt_trans (hstep _ _ h2) ih
  exact fun k h => Nat.lt_irrefl _ (htrans k k h)

/-- The diamond of the spec is acyclic, and the Graph Builder gives `A` the
level 0, `B` and `C` the level 1 and `D` the level 2. -/
theorem buildLevels_acyclic_witness :
    (diamond.map Prod.fst).Nodup ∧
      (∀ e ∈ diamond, ∀ d ∈ e.2, d ∈ diamond.map Prod.fst) ∧ Acyclic diamond ∧
      buildLevels diamond = .ok [("A", 0), ("B", 1), ("C", 1), ("D", 2)] ∧
      ∃ levels, buildLevels diamond = .ok levels ∧
        (∀ k ∈ diamond.map Prod.fst, ∃ l, mapGet levels k = some l) ∧
        (∀ e ∈ diamond, ∀ d ∈ e.2, ∀ lk ld, mapGet levels e.1 = some lk →
          mapGet levels d = some ld → ld < lk) :=
  ⟨by decide, by decide, diamond_acyclic, rfl,
    buildLevels_acyclic diamond (by decide) (by decide) diamond_acyclic⟩

end fi

namespace alitasks

/-! ## Claims on the generated task methods -/

/-- C14: for `RAMRole` and for `ScalingGroup`, `GetLifecycle` after
`SetLifecycle(l)` returns `l`, and `SetLifecycle` changes neither what `GetName`
returns nor any other field. -/
theorem SetLifecycle_GetLifecycle {L ρ τ : Type} (r : RAMRole L ρ) (g : ScalingGroup L τ)
    (l : L) :
    ((r.SetLifecycle l).GetLifecycle = l ∧ (r.SetLifecycle l).GetName = r.GetName ∧
        (r.SetLifecycle l).Name = r.Name ∧ (r.SetLifecycle l).other = r.other) ∧
      ((g.SetLifecycle l).GetLifecycle = l ∧ (g.SetLifecycle l).GetName = g.GetName ∧
        (g.SetLifecycle l).Name = g.Name ∧ (g.SetLifecycle l).other = g.other) :=
  ⟨⟨rfl, rfl, rfl, rfl⟩, ⟨rfl, rfl, rfl, rfl⟩⟩

end alitasks

namespace components

/-! ## Claims on the options of kube-dns -/

theorem default_option_idem {α : Type} [DecidableEq α] (a d : Option α) :
    (if (if a = none then d else a) = none then d else (if a = none then d else a))
      = (if a = none then d else a) := by
  by_cases h : a = none
  · simp [h]
  · simp [h]

theorem guarded_string_idem (b : Bool) (x d : String) :
    (if (b && decide ((if (b && decide (x = "")) = true then d else x) = "")) = true then d
      else (if (b && decide (x = "")) = true then d else x))
      = (if (b && decide (x = "")) = true then d else x) := by
  cases b <;> by_cases h : x = "" <;> simp [h]

theorem guarded_option_idem {α : Type} [DecidableEq α] (b : Bool) (x d : Option α) :
    (if (b && decide ((if (b && decide (x = none)) = true then d else x) = none)) = true then d
      else (if (b && decide (x = none)) = true then d else x))
      = (if (b && decide (x = none)) = true then d else x) := by
  cases b <;> by_cases h : x = none <;> simp [h]

theorem nilOrZero_idem {Q ρ : Type} (H : Helpers Q ρ) (q : Option Q) (d : Q) :
    (if nilOrZero H (if nilOrZero H q = true then some d else q) = true then some d
      else (if nilOrZero H q = true then some d else q))
      = (if nilOrZero H q = true then some d else q) := by
  by_cases h : nilOrZero H q = true
  · simp [h]
  · simp [h]

theorem buildNodeLocalDNS_idem {Q ρ : Type} (H : Helpers Q ρ)
    (e : Option (NodeLocalDNSConfig Q ρ)) :
    buildNodeLocalDNS H (some (buildNodeLocalDNS H e)) = buildNodeLocalDNS H e := by
  have key : ∀ n : NodeLocalDNSConfig Q ρ,
      buildNodeLocalDNS H (some (buildNodeLocalDNS H (some n))) = buildNodeLocalDNS H (some n) := by
    intro n
    obtain ⟨en, ip, fw, mr, cr, im, ot⟩ := n
    simp only [buildNodeLocalDNS, default_option_idem, guarded_string_idem,
      guarded_option_idem, nilOrZero_idem]
  cases e with
  | some n => exact key n
  | none => exact key (emptyNodeLocalDNSConfig H)

theorem domain_idem (x d : String) :
    (if (if x = "" then d else x) = "" then d else (if x = "" then d else x))
      = (if x = "" then d else x) := by
  by_cases h : x = "" <;> by_cases h2 : d = "" <;> simp [h, h2]

theorem upstream_idem (b : Bool) (up d : List String) (hd : d.length ≠ 0) :
    (if b = true then
        (if (if b = true then (if up.length = 0 then d else up) else up).length = 0 then d
          else (if b = true then (if up.length = 0 then d else up) else up))
      else (if b = true then (if up.length = 0 then d else up) else up))
      = (if b = true then (if up.length = 0 then d else up) else up) := by
  cases b <;> by_cases h : up.length = 0 <;> simp [h, hd]

theorem buildAfterServerIP_idem {Q ρ : Type} (H : Helpers Q ρ) (hH : H.IgnoreKubeDNS)
    (spec : ClusterSpec Q ρ) (x : Option (KubeDNSConfig Q ρ)) (k : KubeDNSConfig Q ρ) :
    buildAfterServerIP H { spec with KubeDNS := x } (buildAfterServerIP H spec k)
      = buildAfterServerIP H spec k := by
  have e1 : ∀ y, H.IsIPv6Only { spec with KubeDNS := y } = H.IsIPv6Only spec :=
    fun y => (hH spec y).2
  obtain ⟨rp, cs, cc, ip, dm, mr, cr, ml, up, nl, ot⟩ := k
  simp only [buildAfterServerIP, withRequests, e1, domain_idem, nilOrZero_idem,
    buildNodeLocalDNS_idem]
  rw [upstream_idem _ _ _ (by simp)]

/-- On a spec whose `KubeDNS` section is already filled in, `BuildOptions`
succeeds and changes nothing. -/
theorem BuildOptions_settled {Q ρ : Type} (H : Helpers Q ρ) (spec : ClusterSpec Q ρ)
    (k : KubeDNSConfig Q ρ) (hr : k.Replicas = 2) (hs : k.CacheMaxSize ≠ 0)
    (hc : k.CacheMaxConcurrent ≠ 0)
    (hip : k.ServerIP = "" → H.WellKnownServiceIP { spec with KubeDNS := some k } 10 = .ok "")
    (hb : buildAfterServerIP H { spec with KubeDNS := some k } k = k) :
    BuildOptions H { spec with KubeDNS := some k } = ({ spec with KubeDNS := some k }, none) := by
  have hk : withReplicas k = k := by
    obtain ⟨rp, cs, cc, ip, dm, mr, cr, ml, up, nl, ot⟩ := k
    simp only at hr hs hc
    simp [withReplicas, hr, hs, hc]
  simp only [BuildOptions, hk]
  by_cases h : k.ServerIP = ""
  · have hk2 : { k with ServerIP := "" } = k := by
      obtain ⟨rp, cs, cc, ip, dm, mr, cr, ml, up, nl, ot⟩ := k
      simp only at h
      simp [h]
    simp only [h, if_true, hip h, hk2, hb]
  · simp only [h, if_false, hb]

/-- When `BuildOptions` succeeds, the spec it leaves differs from the one on
entry in the section `KubeDNS` alone, which is the result of the part after the
server address on a config `k3` that holds the number of replicas, the cache
sizes and the server address as assigned before. -/
theorem BuildOptions_result {Q ρ : Type} (H : Helpers Q ρ) (spec : ClusterSpec Q ρ)
    (hok : (BuildOptions H spec).2 = none) :
    ∃ k3 : KubeDNSConfig Q ρ,
      (BuildOptions H spec).1 = { spec with KubeDNS := some (buildAfterServerIP H spec k3) } ∧
      k3.Replicas = 2 ∧
      k3.CacheMaxSize = (if (entryKubeDNS H spec).CacheMaxSize = 0 then 1000
        else (entryKubeDNS H spec).CacheMaxSize) ∧
      k3.CacheMaxConcurrent = (if (entryKubeDNS H spec).CacheMaxConcurrent = 0 then 150
        else (entryKubeDNS H spec).CacheMaxConcurrent) ∧
      k3.Domain = (entryKubeDNS H spec).Domain ∧
      (if (entryKubeDNS H spec).ServerIP = "" then
        ∃ k2 : KubeDNSConfig Q ρ,
          H.WellKnownServiceIP { spec with KubeDNS := some k2 } 10 = .ok k3.ServerIP
        else k3.ServerIP = (entryKubeDNS H spec).ServerIP) := by
  have he : entryKubeDNS H spec = (match spec.KubeDNS with
    | none => emptyKubeDNSConfig H
    | some k => k) := rfl
  unfold BuildOptions at hok ⊢
  rw [← he] at hok ⊢
  generalize entryKubeDNS H spec = k0 at hok ⊢
  simp only at hok ⊢
  by_cases h3 : (withReplicas k0).ServerIP = ""
  · have h4 : k0.ServerIP = "" := h3
    simp only [h3, if_true] at hok ⊢
    cases hw : H.WellKnownServiceIP { spec with KubeDNS := some (withReplicas k0) } 10 with
    | error err => simp [hw] at hok
    | ok ip =>
      simp only [hw]
      refine ⟨{ withReplicas k0 with ServerIP := ip }, rfl, rfl, rfl, rfl, rfl, ?_⟩
      rw [if_pos h4]
      exact ⟨_, hw⟩
  · have h4 : ¬ k0.ServerIP = "" := h3
    simp only [h3, if_false] at hok ⊢
    refine ⟨withReplicas k0, rfl, rfl, rfl, rfl, rfl, ?_⟩
    rw [if_neg h4]
    rfl

theorem buildAfterServerIP_fields {Q ρ : Type} (H : Helpers Q ρ) (spec : ClusterSpec Q ρ)
    (k : KubeDNSConfig Q ρ) :
    (buildAfterServerIP H spec k).Replicas = k.Replicas ∧
      (buildAfterServerIP H spec k).CacheMaxSize = k.CacheMaxSize ∧
      (buildAfterServerIP H spec k).CacheMaxConcurrent = k.CacheMaxConcurrent ∧
      (buildAfterServerIP H spec k).ServerIP = k.ServerIP ∧
      (buildAfterServerIP H spec k).Domain
        = (if k.Domain = "" then spec.ClusterDNSDomain else k.Domain) :=
  ⟨rfl, rfl, rfl, rfl, rfl⟩

/-- C17: when `BuildOptions` succeeds, `KubeDNS.Replicas` is 2 whatever it was
on entry, and `CacheMaxSize`, `CacheMaxConcurrent`, `ServerIP` and `Domain` have
their value on entry when that was not zero or empty, and otherwise 1000, 150,
the well-known service address number 10 and the DNS domain of the cluster. -/
theorem BuildOptions_defaults {Q ρ : Type} (H : Helpers Q ρ) (hH : H.IgnoreKubeDNS)
    (spec : ClusterSpec Q ρ) (hok : (BuildOptions H spec).2 = none) :
    ∃ k : KubeDNSConfig Q ρ, (BuildOptions H spec).1.KubeDNS = some k ∧
      k.Replicas = 2 ∧
      k.CacheMaxSize = (if (entryKubeDNS H spec).CacheMaxSize = 0 then 1000
        else (entryKubeDNS H spec).CacheMaxSize) ∧
      k.CacheMaxConcurrent = (if (entryKubeDNS H spec).CacheMaxConcurrent = 0 then 150
        else (entryKubeDNS H spec).CacheMaxConcurrent) ∧
      (if (entryKubeDNS H spec).ServerIP = "" then
        H.WellKnownServiceIP spec 10 = .ok k.ServerIP
        else k.ServerIP = (entryKubeDNS H spec).ServerIP) ∧
      k.Domain = (if (entryKubeDNS H spec).Domain = "" then spec.ClusterDNSDomain
        else (entryKubeDNS H spec).Domain) := by
  obtain ⟨k3, hres, hr, hs, hc, hd, hip⟩ := BuildOptions_result H spec hok
  obtain ⟨f1, f2, f3, f4, f5⟩ := buildAfterServerIP_fields H spec k3
  refine ⟨buildAfterServerIP H spec k3, by rw [hres], by rw [f1, hr], by rw [f2, hs],
    by rw [f3, hc], ?_, by rw [f5, hd]⟩
  rw [f4]
  by_cases h : (entryKubeDNS H spec).ServerIP = ""
  · rw [if_pos h] at hip ⊢
    obtain ⟨k2, hw⟩ := hip
    rw [← (hH spec (some k2)).1 10]
    exact hw
  · rw [if_neg h] at hip ⊢
    exact hip

theorem exampleHelpers_ignoreKubeDNS : exampleHelpers.IgnoreKubeDNS :=
  fun _ _ => ⟨fun _ => rfl, rfl⟩

/-- The spec `tunedSpec` asks for 5 replicas, a cache of 2000 entries and its
own domain: the replicas become 2, the cache size and the domain stay, and the
second cache size and the server address get their defaults. -/
theorem BuildOptions_defaults_witness :
    exampleHelpers.IgnoreKubeDNS ∧ (BuildOptions exampleHelpers tunedSpec).2 = none ∧
      ∃ k : KubeDNSConfig String Unit, (BuildOptions exampleHelpers tunedSpec).1.KubeDNS = some k ∧
        k.Replicas = 2 ∧
        k.CacheMaxSize = (if (entryKubeDNS exampleHelpers tunedSpec).CacheMaxSize = 0 then 1000
          else (entryKubeDNS exampleHelpers tunedSpec).CacheMaxSize) ∧
        k.CacheMaxConcurrent
          = (if (entryKubeDNS exampleHelpers tunedSpec).CacheMaxConcurrent = 0 then 150
            else (entryKubeDNS exampleHelpers tunedSpec).CacheMaxConcurrent) ∧
        (if (entryKubeDNS exampleHelpers tunedSpec).ServerIP = "" then
          exampleHelpers.WellKnownServiceIP tunedSpec 10 = .ok k.ServerIP
          else k.ServerIP = (entryKubeDNS exampleHelpers tunedSpec).ServerIP) ∧
        k.Domain = (if (entryKubeDNS exampleHelpers tunedSpec).Domain = "" then
          tunedSpec.ClusterDNSDomain else (entryKubeDNS exampleHelpers tunedSpec).Domain) :=
  ⟨exampleHelpers_ignoreKubeDNS, rfl,
    BuildOptions_defaults exampleHelpers exampleHelpers_ignoreKubeDNS tunedSpec rfl⟩

/-- The values that `BuildOptions` leaves in `tunedSpec`. -/
theorem BuildOptions_tunedSpec :
    (BuildOptions exampleHelpers tunedSpec).1.KubeDNS
      = some ⟨2, 2000, 150, "100.64.0.10", "example.local", some "70Mi", some "100m",
          some "170Mi", [],
          some ⟨some false, "", none, some "5Mi", some "25m",
            some "k8s.gcr.io/dns/k8s-dns-node-cache:1.20.0", ()⟩, ()⟩ := by
  rfl

/-- C18: `BuildOptions` is idempotent: applied to the spec that a successful
application leaves, it succeeds again and leaves that spec as it is. -/
theorem BuildOptions_idempotent {Q ρ : Type} (H : Helpers Q ρ) (hH : H.IgnoreKubeDNS)
    (spec : ClusterSpec Q ρ) (hok : (BuildOptions H spec).2 = none) :
    BuildOptions H (BuildOptions H spec).1 = ((BuildOptions H spec).1, none) := by
  obtain ⟨k3, hres, hr, hs, hc, _, hip⟩ := BuildOptions_result H spec hok
  obtain ⟨f1, f2, f3, f4, _⟩ := buildAfterServerIP_fields H spec k3
  rw [hres]
  refine BuildOptions_settled H spec (buildAfterServerIP H spec k3) (by rw [f1, hr]) ?_ ?_ ?_
    (buildAfterServerIP_idem H hH spec _ k3)
  · rw [f2, hs]
    split_ifs with h
    · decide
    · exact h
  · rw [f3, hc]
    split_ifs with h
    · decide
    · exact h
  · intro h0
    rw [f4] at h0
    by_cases h : (entryKubeDNS H spec).ServerIP = ""
    · rw [if_pos h] at hip
      obtain ⟨k2, hw⟩ := hip
      rw [(hH spec _).1 10, ← (hH spec (some k2)).1 10, hw, h0]
    · rw [if_neg h] at hip
      exact absurd (hip ▸ h0) h

/-- The spec without a `KubeDNS` section: the second application of
`BuildOptions` succeeds and changes nothing. -/
theorem BuildOptions_idempotent_witness :
    exampleHelpers.IgnoreKubeDNS ∧ (BuildOptions exampleHelpers plainSpec).2 = none ∧
      BuildOptions exampleHelpers (BuildOptions exampleHelpers plainSpec).1
        = ((BuildOptions exampleHelpers plainSpec).1, none) :=
  ⟨exampleHelpers_ignoreKubeDNS, rfl,
    BuildOptions_idempotent exampleHelpers exampleHelpers_ignoreKubeDNS plainSpec rfl⟩

end components

namespace gce

/-! ## Claims on the network assignments for GCE -/

/-- C19: `PerformNetworkAssignments` returns no error, leaves the cluster as it
is and makes no call to the cloud when the cluster does not use IP aliases, that
is when `Networking` or `Networking.GCE` is nil, and when it uses them with
exactly one subnet and the CIDR of that subnet, the `PodCIDR` and the
`ServiceClusterIPRange` are all non-empty; when IP aliases are used and the
number of subnets is not one, it returns an error, leaves the cluster as it is
and makes no call to the cloud. -/
theorem PerformNetworkAssignments_early_returns {ρ M : Type} (c : Cluster ρ)
    (cloudObj : GCECloud M) :
    (UsesIPAliases c = false ↔
        (c.Spec.Networking = none ∨ ∃ n, c.Spec.Networking = some n ∧ n.GCE = none)) ∧
      (UsesIPAliases c = false → PerformNetworkAssignments c cloudObj = ⟨none, c, []⟩) ∧
      (UsesIPAliases c = true → ∀ nodeSubnet, c.Spec.Subnets = [nodeSubnet] →
        nodeSubnet.CIDR ≠ "" → c.Spec.PodCIDR ≠ "" → c.Spec.ServiceClusterIPRange ≠ "" →
        PerformNetworkAssignments c cloudObj = ⟨none, c, []⟩) ∧
      (UsesIPAliases c = true → c.Spec.Subnets.length ≠ 1 →
        PerformNetworkAssignments c cloudObj
          = ⟨some "expected exactly one subnet with GCE IP Aliases", c, []⟩) := by
  refine ⟨?_, ?_, ?_, ?_⟩
  · unfold UsesIPAliases
    cases hn : c.Spec.Networking with
    | none => simp
    | some n => cases hg : n.GCE <;> simp [hg]
  · intro h
    simp [PerformNetworkAssignments, h]
  · intro h nodeSubnet hs h1 h2 h3
    simp [PerformNetworkAssignments, h, performNetworkAssignmentsIPAliases, hs, h1, h2, h3]
  · intro h hlen
    simp only [PerformNetworkAssignments, h, if_true, performNetworkAssignmentsIPAliases]
    split
    · rename_i nodeSubnet hs
      rw [hs] at hlen
      simp at hlen
    · rfl

/-- The four clusters of the examples: without IP aliases, with all ranges
assigned, and with two subnets the cloud is not called; with one subnet and no
range the cloud is called and the three ranges are assigned. -/
theorem PerformNetworkAssignments_examples :
    PerformNetworkAssignments noAliases exampleCloud = ⟨none, noAliases, []⟩ ∧
      PerformNetworkAssignments assigned exampleCloud = ⟨none, assigned, []⟩ ∧
      PerformNetworkAssignments twoSubnets exampleCloud
        = ⟨some "expected exactly one subnet with GCE IP Aliases", twoSubnets, []⟩ ∧
      PerformNetworkAssignments unassigned exampleCloud
        = ⟨none,
          ⟨⟨some ⟨some (), ()⟩, [⟨"10.22.0.0/20", ()⟩], "10.14.0.0/14", "10.21.0.0/20", "", ()⟩,
            ()⟩,
          [.RegionsList "project", .NetworksGet "project" "default",
            .SubnetworksList "project" "us-east1"]⟩ :=
  ⟨rfl, rfl, rfl, rfl⟩

/-- The cluster `twoSubnets` uses IP aliases and has two subnets: the call
returns the error, and neither the cluster nor the cloud is touched. -/
theorem PerformNetworkAssignments_early_returns_witness :
    UsesIPAliases twoSubnets = true ∧ twoSubnets.Spec.Subnets.length ≠ 1 ∧
      PerformNetworkAssignments twoSubnets exampleCloud
        = ⟨some "expected exactly one subnet with GCE IP Aliases", twoSubnets, []⟩ :=
  ⟨rfl, by decide,
    (PerformNetworkAssignments_early_returns twoSubnets exampleCloud).2.2.2 rfl (by decide)⟩

end gce

